import Mathlib

/-!
# Thanos rule and query nodes, metrics-server kubelet source and pod enricher

A shallow embedding of the parts of `cmd/thanos/rule.go`, `cmd/thanos/query.go`,
`metrics/sources/kubelet/kubelet.go` and `metrics/processors/pod_based_enricher.go`
that the specification talks about, followed by the theorems that settle its claims.
The definitions come first, for Thanos in the namespace `Thanos` and for metrics-server
in the namespace `MetricsServer`; the theorems follow in the same order.

Conventions of the embedding

* Go maps are association lists with pairwise distinct keys (`GoMap`); the order in
  which a `range` statement visits a map is not fixed by the language, so every model
  of such a loop takes a `seed` that selects the order (`pickOrder`).  The same device
  models `rand.Perm`.
* Counters (`prometheus.Counter`) are natural numbers threaded through the call.
* Functions of packages that are not part of the embedded files (the HTTP round trip,
  element decoders of `prometheus/common/model`, `strutil.TableLinkForExpression`,
  `url.Parse`, `net.SplitHostPort`, the DNS resolver, `filepath.Glob`, the loader of the
  rule manager) are parameters of the definitions that call them.  The two element
  decoders of a scalar result are, for the example of the spec, also given as the spec
  describes them (`timeUnmarshalJSON`, `sampleValueUnmarshalJSON`).
* A slice of pointers is a list of options, `none` being a nil pointer; a function that
  can stop with a run-time fault has the fault among its results.
* A task that waits in a `select` is a function of the sequence of events it receives;
  the channel of reload requests is a state machine over the sends and receives on it.
-/

namespace Thanos

/-! ## Orders chosen by the runtime -/

/-- The arrangement of `l` selected by `seed`.  Every arrangement of `l` is selected by
some seed and nothing but arrangements of `l` are ever selected (`pickOrder_perm`,
`pickOrder_complete`). -/
def pickOrder {α : Type} (seed : Nat) (l : List α) : List α :=
  (List.permutations' l).getD (seed % (List.permutations' l).length) l

/-- Go `rand.Perm(n)`: a pseudo-random permutation of the integers `[0,n)`. -/
def randPerm (seed n : Nat) : List Nat :=
  pickOrder seed (List.range n)

/-! ## Go maps keyed by strings -/

/-- Go `map[string]V`, as the list of its bindings. -/
abbrev GoMap (V : Type) := List (String × V)

namespace GoMap

/-- The keys of the map. -/
def keys {V : Type} (m : GoMap V) : List String := m.map Prod.fst

/-- Go `_, ok := m[k]`. -/
def contains {V : Type} (m : GoMap V) (k : String) : Bool :=
  m.any (fun e => decide (e.1 = k))

/-- Go `m[k]` with the comma-ok form: the value bound to `k`, if any. -/
def lookup {V : Type} : GoMap V → String → Option V
  | [], _ => none
  | (k', v) :: rest, k => if k' = k then some v else lookup rest k

/-- Go `m[k] = v`: overwrite the binding of `k`, or add one. -/
def set {V : Type} : GoMap V → String → V → GoMap V
  | [], k, v => [(k, v)]
  | (k', v') :: rest, k, v =>
    if k' = k then (k, v) :: rest else (k', v') :: set rest k v

/-- The bindings in the order a `for k, v := range m` statement visits them. -/
def range {V : Type} (seed : Nat) (m : GoMap V) : GoMap V := pickOrder seed m

end GoMap

/-! ## Deduplication of discovered addresses (`rule.go`, `query.go`) -/

/-- One iteration of the first loop of `removeDuplicateQueryAddrs`: the counter is
incremented when the address is already a key of `set`, then the key is stored. -/
def dedupQueryStep (st : GoMap Unit × Nat) (addr : String) : GoMap Unit × Nat :=
  let counter := if st.1.contains addr then st.2 + 1 else st.2
  (st.1.set addr (), counter)

/-- The function `removeDuplicateQueryAddrs` of `rule.go`.  `counter` is the value of
`duplicatedQueriers` before the call; the result is the returned slice together with the
value of the counter after the call.  `seed` selects the order of the final map range. -/
def removeDuplicateQueryAddrs (seed : Nat) (counter : Nat) (addrs : List String) :
    List String × Nat :=
  let st := addrs.foldl dedupQueryStep (([] : GoMap Unit), counter)
  let deduplicated := (GoMap.range seed st.1).foldl (fun acc e => acc ++ [e.1]) []
  (deduplicated, st.2)

/-- The implementations of `query.StoreSpec` built by the query node: `gossipSpec`
(declared in `query.go`) and the spec returned by `query.NewGRPCStoreSpec`. -/
inductive StoreSpec where
  | gossipSpec (id : String) (addr : String)
  | grpcStoreSpec (addr : String)
  deriving DecidableEq, Repr

/-- The method `Addr()` of a store spec. -/
def StoreSpec.Addr : StoreSpec → String
  | .gossipSpec _ addr => addr
  | .grpcStoreSpec addr => addr

/-- One iteration of the first loop of `removeDuplicateStoreSpecs`. -/
def dedupStoreStep (st : GoMap StoreSpec × Nat) (spec : StoreSpec) : GoMap StoreSpec × Nat :=
  let addr := spec.Addr
  let counter := if st.1.contains addr then st.2 + 1 else st.2
  (st.1.set addr spec, counter)

/-- The function `removeDuplicateStoreSpecs` of `query.go`; `counter` is the value of
`duplicatedStores` before the call, the second component its value after the call. -/
def removeDuplicateStoreSpecs (seed : Nat) (counter : Nat) (specs : List StoreSpec) :
    List StoreSpec × Nat :=
  let st := specs.foldl dedupStoreStep (([] : GoMap StoreSpec), counter)
  let deduplicated := (GoMap.range seed st.1).foldl (fun acc e => acc ++ [e.2]) []
  (deduplicated, st.2)

/-! ## Vectors handed to the rule manager -/

/-- An IEEE-754 binary64 value (Go `float64`), identified by its bit pattern.  The
embedded code only moves sample values around, it never computes with them. -/
structure Float64 where
  bits : Nat
  deriving DecidableEq, Repr

/-- A label of `prometheus/pkg/labels`. -/
structure Label where
  Name : String
  Value : String
  deriving DecidableEq, Repr

/-- A sample of `promql.Vector`: label set and point `(T, V)`. -/
structure PromSample where
  Metric : List Label
  T : Int
  V : Float64
  deriving DecidableEq, Repr

/-- Go `promql.Vector`. -/
abbrev PromVector := List PromSample

/-! ## The query function of the rule node (`rule.go`, `runRule`) -/

/-- The fields of `cluster.PeerState` read by the embedded code. -/
structure PeerState where
  QueryAPIAddr : String
  StoreAPIAddr : String
  deriving DecidableEq, Repr

/-- Go zero value of `PeerState`, the result of indexing a map at a missing key. -/
instance : Inhabited PeerState := ⟨⟨"", ""⟩⟩

/-- The comparison `strings.Compare(a, b) < 0`: `a` is before `b` in the
lexicographic order of their characters. -/
def idLess (a b : String) : Bool := decide (a.data < b.data)

/-- The call `sort.Slice(ids, less)` of `queryFn`, where `less` compares two identifiers
with `idLess`: afterwards no element is less than an element before it. -/
def sortIds (ids : List String) : List String :=
  ids.insertionSort (fun a b => idLess b a = false)

/-- The slice `addrs` of `queryFn` at the point where the permutation is drawn: the
query addresses of the gossip peers in the order of the sorted peer identifiers, then
the addresses of the DNS provider.  `peers` is the result of
`peer.PeerStates(cluster.PeerTypeQuery)`, `seedIds` selects the order in which the
identifiers are collected from that map. -/
def queryFnAddrs (seedIds : Nat) (peers : GoMap PeerState) (dnsAddrs : List String) :
    List String :=
  let ids := (GoMap.range seedIds peers).foldl (fun acc e => acc ++ [e.1]) []
  let ids := sortIds ids
  let addrs := ids.foldl (fun acc id => acc ++ [((peers.lookup id).getD default).QueryAPIAddr]) []
  addrs ++ dnsAddrs

/-- How a call of `queryFn` ends. -/
inductive QueryResult where
  /-- Result `(vec, nil)`. -/
  | vector (vec : PromVector)
  /-- Result `(nil, err)` with the message of `err`. -/
  | failure (msg : String)
  /-- Run-time fault: slice index out of range. -/
  | fault
  deriving DecidableEq, Repr

/-- What a call of `queryFn` did: its result and the indices of `addrs` to which an
instant query was issued, in the order of the requests. -/
structure QueryRun where
  result : QueryResult
  contacted : List Nat
  deriving DecidableEq, Repr

/-- The loop `for _, i := range rand.Perm(len(addrs))` of `queryFn`, over the
permutation still to be visited, and the statement after it.  `instant addr` is the
outcome of `queryPrometheusInstant(ctx, logger, addr, q, t)`. -/
def queryLoop (instant : String → Except String PromVector) (addrs : List String) :
    List Nat → QueryRun
  | [] => ⟨.failure "no query peer reachable", []⟩
  | i :: _ =>
    match addrs.get? i with
    | none => ⟨.fault, []⟩
    | some addr =>
      match instant addr with
      | .error err => ⟨.failure err, [i]⟩
      | .ok vec => ⟨.vector vec, [i]⟩

/-- The closure `queryFn` of `runRule`.  `counter` is the value of `duplicatedQuery`
before the call; the result is the run together with the counter after the call.
The slice returned by `removeDuplicateQueryAddrs` is not used by the source. -/
def queryFn (seedIds seedDedup seedPerm : Nat) (counter : Nat) (peers : GoMap PeerState)
    (dnsAddrs : List String) (instant : String → Except String PromVector) :
    QueryRun × Nat :=
  let addrs := queryFnAddrs seedIds peers dnsAddrs
  let counter := (removeDuplicateQueryAddrs seedDedup counter addrs).2
  (queryLoop instant addrs (randPerm seedPerm addrs.length), counter)

/-! ## The notify callback of the rule node (`rule.go`, `runRule`) -/

/-- Modelled from the spec: the declaration of `rules.AlertState` is not part of the
embedded files, which only name `rules.StatePending`.  The states are the ones the
specification distinguishes: inactive, pending and firing. -/
inductive AlertState where
  | StateInactive
  | StatePending
  | StateFiring
  deriving DecidableEq, Repr

/-- Go `time.Time`: an instant, counted in nanoseconds from the zero instant
(January 1, year 1, 00:00:00 UTC), and a location.  The zero value is `⟨0, 0⟩`. -/
structure GoTime where
  instant : Int
  loc : Nat
  deriving DecidableEq, Repr

/-- Go zero value of `time.Time`. -/
def GoTime.zero : GoTime := ⟨0, 0⟩

/-- The method `IsZero` of `time.Time`: the time is the zero instant. -/
def GoTime.IsZero (t : GoTime) : Bool := decide (t.instant = 0)

/-- The fields of `rules.Alert` read by `notify`. -/
structure RuleAlert where
  State : AlertState
  Labels : List Label
  Annotations : List Label
  FiredAt : GoTime
  ResolvedAt : GoTime
  deriving DecidableEq, Repr

/-- The type `alert.Alert`. -/
structure Alert where
  Labels : List Label
  Annotations : List Label
  StartsAt : GoTime
  EndsAt : GoTime
  GeneratorURL : String
  deriving DecidableEq, Repr

/-- The alert built by the body of the loop of `notify` for a rule alert that is not
skipped.  `queryURL` is `alertQueryURL.String()`, `tableLink` is
`strutil.TableLinkForExpression`. -/
def buildAlert (queryURL : String) (tableLink : String → String) (expr : String)
    (alrt : RuleAlert) : Alert :=
  let a : Alert :=
    { StartsAt := alrt.FiredAt
      Labels := alrt.Labels
      Annotations := alrt.Annotations
      GeneratorURL := queryURL ++ tableLink expr
      EndsAt := GoTime.zero }
  if !alrt.ResolvedAt.IsZero then { a with EndsAt := alrt.ResolvedAt } else a

/-- One iteration of the loop of `notify`. -/
def notifyStep (queryURL : String) (tableLink : String → String) (expr : String)
    (res : List Alert) (alrt : RuleAlert) : List Alert :=
  if alrt.State = AlertState.StatePending then res
  else res ++ [buildAlert queryURL tableLink expr alrt]

/-- What a call of `notify` did: the slice handed to `alertQ.Push` and the returned
error (`none` for `nil`). -/
structure NotifyRun where
  pushed : List Alert
  err : Option String
  deriving DecidableEq, Repr

/-- The closure `notify` of `runRule`. -/
def notify (queryURL : String) (tableLink : String → String) (expr : String)
    (alerts : List RuleAlert) : NotifyRun :=
  let res := alerts.foldl (notifyStep queryURL tableLink expr) []
  { pushed := res, err := none }

/-! ## Decoding a scalar response (`rule.go`) -/

/-- A JSON document. -/
inductive JSON where
  | null
  | bool (b : Bool)
  | number (literal : String)
  | string (s : String)
  | array (elems : List JSON)
  | object (members : List (String × JSON))

/-- Go `json.RawMessage`: a sequence of bytes, which is the text of a JSON document or
is not (`none`). -/
abbrev RawMessage := Option JSON

/-- `json.Unmarshal(raw, &slice)` for a `[]json.RawMessage`: an array gives its elements,
`null` gives the nil slice, every other document and every text that is no JSON document
is an error. -/
def unmarshalRawSlice : RawMessage → Except String (List RawMessage)
  | some (.array elems) => .ok (elems.map some)
  | some .null => .ok []
  | some _ => .error "json: cannot unmarshal value into Go value of type []json.RawMessage"
  | none => .error "invalid character looking for beginning of value"

/-- The type `model.Sample`; `Timestamp` is a `model.Time` (an `int64`), `Metric` a
`model.Metric` (a map from label names to label values). -/
structure Sample where
  Metric : GoMap String
  Value : Float64
  Timestamp : Int
  deriving DecidableEq, Repr

/-- Go `model.Vector`, a slice of pointers to samples; `none` is a nil pointer. -/
abbrev Vector := List (Option Sample)

/-- The function `convertScalarJSONToVector` of `rule.go`.  `unmarshalTime` and
`unmarshalValue` are `json.Unmarshal` into a `model.Time` and into a
`model.SampleValue`, whose decoders belong to `prometheus/common/model`. -/
def convertScalarJSONToVector (unmarshalTime : RawMessage → Except String Int)
    (unmarshalValue : RawMessage → Except String Float64)
    (scalarJSONResult : RawMessage) : Except String Vector :=
  match unmarshalRawSlice scalarJSONResult with
  | .error err => .error err
  | .ok resultPointSlice =>
    if resultPointSlice.length ≠ 2 then
      .error "invalid scalar result format, expected timestamp -> value tuple"
    else
      match unmarshalTime (resultPointSlice.getD 0 none) with
      | .error err => .error ("unmarshaling scalar time: " ++ err)
      | .ok resultTime =>
        match unmarshalValue (resultPointSlice.getD 1 none) with
        | .error err => .error ("unmarshaling scalar value: " ++ err)
        | .ok resultValue =>
          .ok [some { Metric := [], Value := resultValue, Timestamp := resultTime }]

/-! ### The element decoders of the scalar response, as the spec describes them -/

/-- The number written by a non-empty text of decimal digits. -/
def decimalNat (cs : List Char) : Option Nat :=
  if cs = [] then none
  else
    cs.foldl (fun acc c =>
      acc.bind (fun n => if c.isDigit then some (10 * n + (c.toNat - 48)) else none))
      (some 0)

/-- The fraction `(n, d)` written by a decimal literal: digits, optionally followed by
`.` and digits. -/
def decimalFraction (cs : List Char) : Option (Nat × Nat) :=
  match cs.dropWhile (fun c => c != '.') with
  | [] => (decimalNat cs).map (fun n => (n, 1))
  | _ :: frac =>
    match decimalNat (cs.takeWhile (fun c => c != '.')), decimalNat frac with
    | some a, some b => some (a * 10 ^ frac.length + b, 10 ^ frac.length)
    | _, _ => none

/-- The number of binary digits of `n` minus one; `fuel` bounds the search. -/
def floorLog2 : Nat → Nat → Nat
  | 0, _ => 0
  | fuel + 1, n => if n < 2 then 0 else floorLog2 fuel (n / 2) + 1

/-- The binary64 value nearest to the fraction `n / d` (ties to even), when that value is
zero or a normal number: exponent `e` with `2 ^ e ≤ n / d < 2 ^ (e + 1)`, significand
`n / d * 2 ^ (52 - e)` rounded, bit pattern `(e + 1023) * 2 ^ 52 + (m - 2 ^ 52)`. -/
def binary64 (n d : Nat) : Option Float64 :=
  if d = 0 then none
  else if n = 0 then some ⟨0⟩
  else
    let e0 : Int := (floorLog2 n n : Int) - (floorLog2 d d : Int)
    let atLeast : Bool :=
      if e0 ≥ 0 then decide (d * 2 ^ e0.toNat ≤ n) else decide (d ≤ n * 2 ^ (-e0).toNat)
    let e : Int := if atLeast then e0 else e0 - 1
    let k : Int := 52 - e
    let num : Nat := if k ≥ 0 then n * 2 ^ k.toNat else n
    let den : Nat := if k ≥ 0 then d else d * 2 ^ (-k).toNat
    let q := num / den
    let r := num % den
    let m := if 2 * r > den ∨ (2 * r = den ∧ q % 2 = 1) then q + 1 else q
    let e' : Int := if m = 2 ^ 53 then e + 1 else e
    let m' : Nat := if m = 2 ^ 53 then 2 ^ 52 else m
    if e' < -1022 ∨ e' > 1023 then none
    else some ⟨(e' + 1023).toNat * 2 ^ 52 + (m' - 2 ^ 52)⟩

/-- Modelled from the spec: the decoder of `model.Time` is declared outside the embedded
files.  In the spec's example the element `"1700000000"` of a scalar result decodes as
the timestamp 1700000000: an element that is a string or a number written as a decimal
integer decodes as that integer; every other element is an error. -/
def timeUnmarshalJSON : RawMessage → Except String Int
  | some (.string s) =>
    match decimalNat s.data with
    | some n => .ok n
    | none => .error "invalid time"
  | some (.number s) =>
    match decimalNat s.data with
    | some n => .ok n
    | none => .error "invalid time"
  | _ => .error "invalid time"

/-- Modelled from the spec: the decoder of `model.SampleValue` is declared outside the
embedded files.  In the spec's example the element `"42.5"` decodes as the value 42.5: an
element that is a string holding a decimal literal decodes as the binary64 value nearest
to the number written; every other element is an error. -/
def sampleValueUnmarshalJSON : RawMessage → Except String Float64
  | some (.string s) =>
    match (decimalFraction s.data).bind (fun nd => binary64 nd.1 nd.2) with
    | some v => .ok v
    | none => .error "invalid sample value"
  | _ => .error "invalid sample value"

/-! ## The instant query against one peer (`rule.go`) -/

/-- Modelled from the spec: the constant `promql.ValueTypeVector` is declared outside the
embedded files; the typed result of the envelope is `vector` or `scalar`. -/
def ValueTypeVector : String := "vector"

/-- Modelled from the spec: the constant `promql.ValueTypeScalar`, see `ValueTypeVector`. -/
def ValueTypeScalar : String := "scalar"

/-- The field `Data` of the envelope `m` decoded by `queryPrometheusInstant`.  A missing
`resultType` leaves `ResultType` at the empty string. -/
structure ResponseData where
  ResultType : String
  Result : RawMessage

/-- Modelled from the spec: the method `Less` of `promlabels.Labels`, used by
`sort.Sort(lset)`, is declared outside the embedded files; label sets are put in the
order of their label names. -/
def labelLess (a b : Label) : Bool := decide (a.Name.data < b.Name.data)

/-- The call `sort.Sort(lset)` of `queryPrometheusInstant`: afterwards no label is less
than a label before it. -/
def sortLabels (lset : List Label) : List Label :=
  lset.insertionSort (fun a b => labelLess b a = false)

/-- The label set built by the body of the conversion loop of `queryPrometheusInstant`
for the metric `e.Metric`; `seed` selects the order of the range over the metric. -/
def sampleLabels (seed : Nat) (metric : GoMap String) : List Label :=
  let lset := (GoMap.range seed metric).foldl
    (fun acc kv => acc ++ [({ Name := kv.1, Value := kv.2 } : Label)]) []
  sortLabels lset

/-- The conversion loop at the end of `queryPrometheusInstant` over the elements still to
be visited, `i` being the index of the next one and `vec` the vector built so far;
`seeds i` selects the order of the range over the metric of the sample at index `i`.  The
body reads `e.Metric`: on a nil element the loop stops with a run-time fault (`none`). -/
def toPromVectorFrom (seeds : Nat → Nat) : Nat → Vector → PromVector → Option PromVector
  | _, [], vec => some vec
  | _, none :: _, _ => none
  | i, some e :: rest, vec =>
    toPromVectorFrom seeds (i + 1) rest
      (vec ++ [({ Metric := sampleLabels (seeds i) e.Metric
                  T := e.Timestamp
                  V := e.Value } : PromSample)])

/-- The conversion loop at the end of `queryPrometheusInstant`: the vector it builds,
`none` when it stops with a run-time fault. -/
def toPromVector (seeds : Nat → Nat) (vectorResult : Vector) : Option PromVector :=
  toPromVectorFrom seeds 0 vectorResult []

/-- What a call of `queryPrometheusInstant` does: it returns an error, it returns a
vector, or it stops with a run-time fault (the dereference of a nil sample). -/
inductive InstantResult where
  | error (err : String)
  | ok (vec : PromVector)
  | fault
  deriving DecidableEq, Repr

/-- The function `queryPrometheusInstant` of `rule.go`.  `fetch addr query t` is
everything up to and including the decoding of the envelope: the decoded `m.Data`, or the
error of building the URL or the request, of the round trip or of the decoder of the body.
`unmarshalVector` is `json.Unmarshal` into a `model.Vector`; `unmarshalTime` and
`unmarshalValue` are the element decoders of `convertScalarJSONToVector`. -/
def queryPrometheusInstant (fetch : String → String → GoTime → Except String ResponseData)
    (unmarshalVector : RawMessage → Except String Vector)
    (unmarshalTime : RawMessage → Except String Int)
    (unmarshalValue : RawMessage → Except String Float64)
    (seeds : Nat → Nat) (addr query : String) (t : GoTime) : InstantResult :=
  match fetch addr query t with
  | .error err => .error err
  | .ok m =>
    let decoded : Except String Vector :=
      if m.ResultType = ValueTypeVector then
        unmarshalVector m.Result
      else if m.ResultType = ValueTypeScalar then
        convertScalarJSONToVector unmarshalTime unmarshalValue m.Result
      else
        .error ("unknown response type: " ++ m.ResultType)
    match decoded with
    | .error err => .error err
    | .ok vectorResult =>
      match toPromVector seeds vectorResult with
      | some vec => .ok vec
      | none => .fault

/-! ## Store discovery of the query node (`query.go`, `runQuery`) -/

/-- One iteration of the first loop of the spec function given to `query.NewStoreSet`: a
peer with an empty store address is skipped, any other peer adds a `gossipSpec`. -/
def gossipSpecStep (specs : List StoreSpec) (e : String × PeerState) : List StoreSpec :=
  if e.2.StoreAPIAddr = "" then specs
  else specs ++ [StoreSpec.gossipSpec e.1 e.2.StoreAPIAddr]

/-- The spec function given to `query.NewStoreSet` in `runQuery`.  `peers` is the result
of `peer.PeerStates(cluster.PeerTypesStoreAPIs()...)`, `dnsAddrs` the result of
`dnsProvider.Addresses()`, `counter` the value of `duplicatedStores` before the call.
The result is the returned slice and the counter after the call. -/
def storeSpecs (seedPeers seedDedup : Nat) (counter : Nat) (peers : GoMap PeerState)
    (dnsAddrs : List String) : List StoreSpec × Nat :=
  let specs := (GoMap.range seedPeers peers).foldl gossipSpecStep []
  let specs := dnsAddrs.foldl (fun acc addr => acc ++ [StoreSpec.grpcStoreSpec addr]) specs
  removeDuplicateStoreSpecs seedDedup counter specs

/-! ## The alertmanager set (`rule.go`) -/

/-- The fields of `url.URL` that matter to `alertmanagerSet.update`: the four it copies,
and the query and fragment as fields it does not copy.  `User` is the `*url.Userinfo`,
`none` for `nil`. -/
structure URL where
  Scheme : String
  Host : String
  Path : String
  User : Option String
  RawQuery : String
  Fragment : String
  deriving DecidableEq, Repr

/-- Go `strings.SplitN(addr, "+", 2)`: the address itself when it holds no `+`, else the
text before the first `+` and the text after it. -/
def splitPlus (addr : String) : List String :=
  match addr.data.dropWhile (fun c => c != '+') with
  | [] => [addr]
  | _ :: rest => [String.mk (addr.data.takeWhile (fun c => c != '+')), String.mk rest]

/-- Modelled from the spec: the constant `dns.A` is declared outside the embedded files.
It is the tag of the single-record lookup, written `dns+` in front of an address (the
other tag, `dnssrv+`, selects the service-record lookup). -/
def dnsA : String := "dns"

/-- The constant `defaultAlertmanagerPort`. -/
def defaultAlertmanagerPort : Nat := 9093

/-- The type `alertmanagerSet` without its resolver and mutex. -/
structure AlertmanagerSet where
  addrs : List String
  current : List URL
  deriving DecidableEq, Repr

/-- What the loop of `alertmanagerSet.update`, or a part of it, did: the URLs collected
(or the returned error), and the calls `s.resolver.Resolve(ctx, host, qtype)` as pairs
`(host, qtype)` in the order they were made. -/
structure UpdateLoopRun where
  outcome : Except String (List URL)
  lookups : List (String × String)

/-- The body of the loop of `alertmanagerSet.update` for one address, up to the inner loop
over `resolvedDomain`: the URLs it appends to `result` (or the error it returns) and the
resolver calls it makes.  `parseURL` is `url.Parse`, `splitHostPortFails host` tells
whether `net.SplitHostPort(host)` returns an error, `resolve host qtype` is
`s.resolver.Resolve(ctx, host, qtype)`. -/
def updateAddr (parseURL : String → Except String URL) (splitHostPortFails : String → Bool)
    (resolve : String → String → Except String (List String)) (addr : String) :
    UpdateLoopRun :=
  let nameQtype := splitPlus addr
  let name := if nameQtype.length = 2 then nameQtype.getD 1 "" else addr
  let qtype := if nameQtype.length = 2 then nameQtype.getD 0 "" else ""
  match parseURL name with
  | .error err => ⟨.error ("parse URL " ++ name ++ ": " ++ err), []⟩
  | .ok u =>
    if qtype ≠ "" then
      let host :=
        if qtype = dnsA then
          if splitHostPortFails u.Host then
            u.Host ++ ":" ++ toString defaultAlertmanagerPort
          else u.Host
        else u.Host
      match resolve host qtype with
      | .error err => ⟨.error ("alertmanager resolve: " ++ err), [(host, qtype)]⟩
      | .ok resolvedDomain =>
        ⟨.ok (resolvedDomain.map (fun resolved =>
            ({ Scheme := u.Scheme, Host := resolved, Path := u.Path, User := u.User
               RawQuery := "", Fragment := "" } : URL))),
          [(host, qtype)]⟩
    else
      ⟨.ok [({ Scheme := u.Scheme, Host := u.Host, Path := u.Path, User := u.User
               RawQuery := "", Fragment := "" } : URL)], []⟩

/-- The loop `for _, addr := range s.addrs` of `alertmanagerSet.update` over the
addresses still to be visited, with the slice `result` and the resolver calls so far. -/
def updateLoop (parseURL : String → Except String URL) (splitHostPortFails : String → Bool)
    (resolve : String → String → Except String (List String)) :
    List String → List URL → List (String × String) → UpdateLoopRun
  | [], result, lookups => ⟨.ok result, lookups⟩
  | addr :: rest, result, lookups =>
    match updateAddr parseURL splitHostPortFails resolve addr with
    | ⟨.error err, made⟩ => ⟨.error err, lookups ++ made⟩
    | ⟨.ok urls, made⟩ =>
      updateLoop parseURL splitHostPortFails resolve rest (result ++ urls) (lookups ++ made)

/-- What a call of `alertmanagerSet.update` did: the set afterwards, the returned error
(`none` for `nil`) and the resolver calls. -/
structure UpdateRun where
  state : AlertmanagerSet
  err : Option String
  lookups : List (String × String)

/-- The method `alertmanagerSet.update`. -/
def AlertmanagerSet.update (parseURL : String → Except String URL)
    (splitHostPortFails : String → Bool)
    (resolve : String → String → Except String (List String)) (s : AlertmanagerSet) :
    UpdateRun :=
  let run := updateLoop parseURL splitHostPortFails resolve s.addrs [] []
  match run.outcome with
  | .error err => { state := s, err := some err, lookups := run.lookups }
  | .ok result => { state := { s with current := result }, err := none, lookups := run.lookups }

/-- The method `alertmanagerSet.get`. -/
def AlertmanagerSet.get (s : AlertmanagerSet) : List URL := s.current

/-! ### The parts of an address, for stating what `update` publishes -/

/-- The lookup type written in front of an address: the text before its first `+`, the
empty string when the address holds no `+`. -/
def addrQtype (addr : String) : String :=
  if '+' ∈ addr.data then String.mk (addr.data.takeWhile (fun c => c != '+')) else ""

/-- The name of an address, which `update` parses as a URL: the text after its first `+`,
the address itself when it holds no `+`. -/
def addrName (addr : String) : String :=
  if '+' ∈ addr.data then String.mk ((addr.data.dropWhile (fun c => c != '+')).drop 1)
  else addr

/-- The host that the resolver is asked for: for the lookup type `dns` the host of the URL
followed by `:9093` when `net.SplitHostPort` rejects it, the host of the URL otherwise. -/
def resolverHost (splitHostPortFails : String → Bool) (qtype host : String) : String :=
  if qtype = "dns" ∧ splitHostPortFails host = true then host ++ ":9093" else host

/-- The URL that `update` publishes for the parsed URL `u` and the host `host`: scheme,
path and user of `u`, nothing else. -/
def publishedURL (u : URL) (host : String) : URL :=
  { Scheme := u.Scheme, Host := host, Path := u.Path, User := u.User
    RawQuery := "", Fragment := "" }

/-! ## The reload task of the rule node (`rule.go`, `runRule`) -/

/-- What the reload task reads of a `rules.Group`: `File()`, `Name()` and `Rules()`. -/
structure RuleGroup where
  File : String
  Name : String
  Rules : List String
  deriving DecidableEq, Repr

/-- The gauge vector `rulesLoaded`: the value of every child, keyed by its label values
`(file, group)`. -/
abbrev GaugeVec := List ((String × String) × Nat)

/-- The call `WithLabelValues(file, group).Set(v)` on a gauge vector: overwrite the value
of the child, or add the child. -/
def GaugeVec.set : GaugeVec → String × String → Nat → GaugeVec
  | [], k, v => [(k, v)]
  | (k', v') :: rest, k, v =>
    if k' = k then (k, v) :: rest else (k', v') :: GaugeVec.set rest k v

/-- The value of the child with the label values `k`, if the vector has that child. -/
def GaugeVec.value : GaugeVec → String × String → Option Nat
  | [], _ => none
  | (k', v) :: rest, k => if k' = k then some v else GaugeVec.value rest k

/-- The state the reload task works on: the gauges `configSuccess`, `configSuccessTime`
(as the `UnixNano` instant whose value in seconds the gauge shows) and `rulesLoaded`, the
groups installed in the rule manager (`mgr.RuleGroups()`), and the file lists handed to
`mgr.Update` so far. -/
structure RuleNode where
  configSuccess : Nat
  configSuccessTime : Int
  rulesLoaded : GaugeVec
  groups : List RuleGroup
  updates : List (List String)
  deriving DecidableEq, Repr

/-- Modelled from the spec: `rules.Manager` is declared outside the embedded files.
Its loader is the field `load`: `mgr.Update(evalInterval, files)` installs the groups
`load files`, and on a load failure it returns the error and the previous rule set
remains active.  The other fields are the rest of the surroundings of one reload cycle:
`glob` is `filepath.Glob` on the file system of that moment, `now` is
`time.Now().UnixNano()`. -/
structure ReloadEnv where
  glob : String → Except String (List String)
  load : List String → Except String (List RuleGroup)
  now : Int

/-- The loop over `ruleFiles` of the reload task: the slice `files` after it. -/
def expandRuleFiles (glob : String → Except String (List String))
    (ruleFiles : List String) : List String :=
  ruleFiles.foldl
    (fun files pat =>
      match glob pat with
      | .error _ => files
      | .ok fs => files ++ fs) []

/-- One reload cycle: the body of the loop of the reload task after a reload request was
received. -/
def reloadCycle (ruleFiles : List String) (env : ReloadEnv) (st : RuleNode) : RuleNode :=
  let files := expandRuleFiles env.glob ruleFiles
  match env.load files with
  | .error _ =>
    { st with configSuccess := 0, updates := st.updates ++ [files] }
  | .ok groups =>
    { configSuccess := 1
      configSuccessTime := env.now
      rulesLoaded := groups.foldl
        (fun vec group => vec.set (group.File, group.Name) group.Rules.length) []
      groups := groups
      updates := st.updates ++ [files] }

/-- What the `select` of the reload task receives. -/
inductive TaskEvent where
  /-- The channel `cancel` was closed. -/
  | cancel
  /-- A request was received from the channel `reload`. -/
  | reload (env : ReloadEnv)

/-- The reload task over the events it receives: the error it returns (`none` while it
is still running, waiting in its `select`) and the state it leaves. -/
def reloadTask (ruleFiles : List String) : List TaskEvent → RuleNode → Option String × RuleNode
  | [], st => (none, st)
  | .cancel :: _, st => (some "canceled", st)
  | .reload env :: rest, st => reloadTask ruleFiles rest (reloadCycle ruleFiles env st)

/-! ## The channel of reload requests (`rule.go`, `runRule`) -/

/-- The channel `reload`, made with capacity 1, and the goroutines around it:
`buffered` requests are in the buffer, `blocked` goroutines are blocked in a send on the
full channel, and the reload task has started `cycles` reload cycles. -/
structure ReloadChan where
  buffered : Nat
  blocked : Nat
  cycles : Nat
  deriving DecidableEq, Repr

/-- The state after `reload <- struct{}{} // initial reload`. -/
def ReloadChan.initial : ReloadChan := ⟨1, 0, 0⟩

/-- The number of reload requests that are pending: sent or being sent and not yet
received by the reload task. -/
def ReloadChan.pending (c : ReloadChan) : Nat := c.buffered + c.blocked

/-- What happens around the channel `reload`. -/
inductive ReloadEvent where
  /-- SIGHUP arrives: the signal task runs `select` with the cases
  `reload <- struct` and `default`. -/
  | sighup
  /-- A request to the reload endpoint of the HTTP server arrives: its handler runs
  `reload <- struct`. -/
  | httpReload
  /-- The reload task is at its `select` and takes the case `<-reload` if it can. -/
  | receive
  deriving DecidableEq, Repr

/-- One step of the channel.  A send into a buffer with room succeeds; on a full buffer
the signal task takes its `default` case and the HTTP handler blocks.  A receive takes the
buffered request and starts a cycle; a blocked sender, if any, then completes its send. -/
def ReloadChan.step (c : ReloadChan) : ReloadEvent → ReloadChan
  | .sighup => if c.buffered < 1 then { c with buffered := 1 } else c
  | .httpReload =>
    if c.buffered < 1 then { c with buffered := 1 } else { c with blocked := c.blocked + 1 }
  | .receive =>
    if c.buffered = 0 then c
    else if 0 < c.blocked then { c with blocked := c.blocked - 1, cycles := c.cycles + 1 }
    else { c with buffered := 0, cycles := c.cycles + 1 }

/-- The channel after a sequence of events. -/
def ReloadChan.run (c : ReloadChan) (events : List ReloadEvent) : ReloadChan :=
  events.foldl ReloadChan.step c

/-! ## The file-discovery update tasks (`rule.go`, `query.go`) -/

/-- The fields `Source` and `Targets` of a `targetgroup.Group`. -/
structure TargetGroup where
  Source : String
  Targets : List String
  deriving DecidableEq, Repr

/-- A value of type `[]*targetgroup.Group` that is not `nil`: its elements, `none` for a
nil pointer. -/
abbrev TargetGroups := List (Option TargetGroup)

/-- What the `select` of a file-discovery update task receives. -/
inductive SDEvent where
  /-- A value from the channel `fileSDUpdates`; `none` is the `nil` slice. -/
  | update (update : Option TargetGroups)
  /-- The context of the task was cancelled. -/
  | done
  deriving DecidableEq, Repr

/-- The file-discovery cache `fileSDCache`, of a type `C` declared outside the embedded
files, with the arguments of the calls `fileSDCache.Update(update)` made so far and, for
the query node, the number of calls `stores.Update(ctxUpdate)` of the update task. -/
structure FileSD (C : Type) where
  cache : C
  cacheUpdates : List TargetGroups
  storeUpdates : Nat

/-- The update task of the rule node (`runRule`) over the events it receives:
whether it has returned, and the state it leaves.  `cacheUpdate` is the method `Update`
of the cache. -/
def ruleFileSDTask {C : Type} (cacheUpdate : TargetGroups → C → C) :
    List SDEvent → FileSD C → Bool × FileSD C
  | [], st => (false, st)
  | .done :: _, st => (true, st)
  | .update none :: rest, st => ruleFileSDTask cacheUpdate rest st
  | .update (some update) :: rest, st =>
    ruleFileSDTask cacheUpdate rest
      { st with cache := cacheUpdate update st.cache
                cacheUpdates := st.cacheUpdates ++ [update] }

/-- The update task of the query node (`runQuery`), which also refreshes the store set
after every update of the cache. -/
def queryFileSDTask {C : Type} (cacheUpdate : TargetGroups → C → C) :
    List SDEvent → FileSD C → Bool × FileSD C
  | [], st => (false, st)
  | .done :: _, st => (true, st)
  | .update none :: rest, st => queryFileSDTask cacheUpdate rest st
  | .update (some update) :: rest, st =>
    queryFileSDTask cacheUpdate rest
      { cache := cacheUpdate update st.cache
        cacheUpdates := st.cacheUpdates ++ [update]
        storeUpdates := st.storeUpdates + 1 }

end Thanos

namespace MetricsServer

open Thanos

/-!
# metrics-server: the kubelet metrics source and the pod based enricher

A shallow embedding of `metrics/sources/kubelet/kubelet.go` and
`metrics/processors/pod_based_enricher.go`.  A Go string is a sequence of bytes; it is
embedded as the `String` whose characters are those bytes, which for ASCII text is the
string itself.  A map whose values are pointers to metric sets is embedded as the map of
the metric sets pointed to, and a function that writes through such a pointer returns the
metric set it leaves.
-/

/-! ## Keys, labels and values of metric sets (package `core`) -/

/-- Modelled from the spec: `core.NodeKey` is declared outside the embedded files; the
key of a node is `node:<nodename>`. -/
def NodeKey (node : String) : String := "node:" ++ node

/-- Modelled from the spec: `core.NodeContainerKey`, the key
`node:<nodename>/container:<name>` of a system container. -/
def NodeContainerKey (node container : String) : String :=
  "node:" ++ node ++ "/container:" ++ container

/-- Modelled from the spec: `core.PodKey`, the key `namespace:<ns>/pod:<pod>` of a pod. -/
def PodKey (ns podName : String) : String :=
  "namespace:" ++ ns ++ "/pod:" ++ podName

/-- Modelled from the spec: `core.PodContainerKey`, the key
`namespace:<ns>/pod:<pod>/container:<c>` of a container of a pod. -/
def PodContainerKey (ns podName containerName : String) : String :=
  "namespace:" ++ ns ++ "/pod:" ++ podName ++ "/container:" ++ containerName

/-- Modelled from the spec: the key `core.LabelMetricSetType.Key`, under which a metric
set carries its type. -/
def LabelMetricSetType : String := "type"

/-- Modelled from the spec: the key `core.LabelContainerName.Key`. -/
def LabelContainerName : String := "container_name"

/-- Modelled from the spec: the key `core.LabelContainerBaseImage.Key`. -/
def LabelContainerBaseImage : String := "container_base_image"

/-- Modelled from the spec: the key `core.LabelPodId.Key`, under which a metric set
carries the UID of its pod. -/
def LabelPodId : String := "pod_id"

/-- Modelled from the spec: the key `core.LabelPodName.Key`. -/
def LabelPodName : String := "pod_name"

/-- Modelled from the spec: the key `core.LabelNamespaceName.Key`. -/
def LabelNamespaceName : String := "namespace_name"

/-- Modelled from the spec: the key `core.LabelLabels.Key`, under which a metric set
carries the labels of its pod. -/
def LabelLabels : String := "labels"

/-- Modelled from the spec: the key `core.LabelNodename.Key`. -/
def LabelNodename : String := "nodename"

/-- Modelled from the spec: the key `core.LabelHostname.Key`. -/
def LabelHostname : String := "hostname"

/-- Modelled from the spec: the key `core.LabelHostID.Key`. -/
def LabelHostID : String := "host_id"

/-- Modelled from the spec: the metric set type `core.MetricSetTypeNode`. -/
def MetricSetTypeNode : String := "node"

/-- Modelled from the spec: the metric set type `core.MetricSetTypeSystemContainer`. -/
def MetricSetTypeSystemContainer : String := "sys_container"

/-- Modelled from the spec: the metric set type `core.MetricSetTypePod`. -/
def MetricSetTypePod : String := "pod"

/-- Modelled from the spec: the metric set type `core.MetricSetTypePodContainer`. -/
def MetricSetTypePodContainer : String := "pod_container"

/-- Modelled from the spec: the name `core.MetricCpuRequest.Name` of the cpu request
value. -/
def MetricCpuRequest : String := "cpu/request"

/-- Modelled from the spec: the name `core.MetricMemoryRequest.Name`. -/
def MetricMemoryRequest : String := "memory/request"

/-- Modelled from the spec: the name `core.MetricCpuLimit.Name`. -/
def MetricCpuLimit : String := "cpu/limit"

/-- Modelled from the spec: the name `core.MetricMemoryLimit.Name`. -/
def MetricMemoryLimit : String := "memory/limit"

/-- Modelled from the spec: the prefix `core.CustomMetricPrefix`. -/
def CustomMetricPrefix : String := "custom/"

/-- An IEEE-754 binary32 value (Go `float32`), identified by its bit pattern. -/
structure Float32 where
  bits : Nat
  deriving DecidableEq, Repr

/-- The type `core.MetricType`. -/
inductive MetricType where
  | MetricCumulative
  | MetricGauge
  | MetricDelta
  deriving DecidableEq, Repr

/-- The type `core.ValueType`. -/
inductive ValueType where
  | ValueInt64
  | ValueFloat
  deriving DecidableEq, Repr

/-- The type `core.MetricValue`. -/
structure MetricValue where
  IntValue : Int
  FloatValue : Float32
  MetricType : MetricType
  ValueType : ValueType
  deriving DecidableEq, Repr

/-- The type `core.LabeledMetric`. -/
structure LabeledMetric where
  Name : String
  Labels : GoMap String
  Value : MetricValue
  deriving DecidableEq, Repr

/-- The type `core.MetricSet`. -/
structure MetricSet where
  CreateTime : GoTime
  ScrapeTime : GoTime
  MetricValues : GoMap MetricValue
  Labels : GoMap String
  LabeledMetrics : List LabeledMetric
  deriving DecidableEq, Repr

/-- The type `core.DataBatch`. -/
structure DataBatch where
  Timestamp : GoTime
  MetricSets : GoMap MetricSet
  deriving DecidableEq, Repr

/-- The value `m[k]` of a map of strings: the value bound to `k`, the empty string when
there is none. -/
def labelOf (m : GoMap String) (k : String) : String := (m.lookup k).getD ""

/-! ## Go string operations used by the kubelet source -/

/-- Go `strings.Index(s, sep)` for a separator `sep` of one byte: the position of the
first occurrence, or `-1`. -/
def stringsIndex (s : String) (sep : Char) : Int :=
  if sep ∈ s.data then ((s.data.takeWhile (fun c => c != sep)).length : Int) else -1

/-- Go `strings.SplitN(s, sep, 2)` for a separator `sep` of one byte. -/
def stringsSplitN2 (s : String) (sep : Char) : List String :=
  match s.data.dropWhile (fun c => c != sep) with
  | [] => [s]
  | _ :: rest => [String.mk (s.data.takeWhile (fun c => c != sep)), String.mk rest]

/-- The Go slice expression `s[lo:hi]` on a string: `none` is the run-time fault "slice
bounds out of range". -/
def goSlice (s : String) (lo hi : Nat) : Option String :=
  if lo ≤ hi ∧ hi ≤ s.length then some (String.mk ((s.data.take hi).drop lo)) else none

/-! ## The kubelet metrics source (`kubelet.go`) -/

/-- The constant `infraContainerName`. -/
def infraContainerName : String := "POD"

/-- The constant `kubernetesPodNameLabel`. -/
def kubernetesPodNameLabel : String := "io.kubernetes.pod.name"

/-- The constant `kubernetesPodNamespaceLabel`. -/
def kubernetesPodNamespaceLabel : String := "io.kubernetes.pod.namespace"

/-- The constant `kubernetesPodUID`. -/
def kubernetesPodUID : String := "io.kubernetes.pod.uid"

/-- The constant `kubernetesContainerLabel`. -/
def kubernetesContainerLabel : String := "io.kubernetes.container.name"

/-- The field `Type` of a `cadvisor.MetricSpec`, as far as `decodeMetrics` tells its
values apart. -/
inductive CustomMetricType where
  | MetricGauge
  | MetricCumulative
  | other (name : String)
  deriving DecidableEq, Repr

/-- The field `Format` of a `cadvisor.MetricSpec`, as far as `decodeMetrics` tells its
values apart. -/
inductive CustomMetricFormat where
  | IntType
  | FloatType
  | other (name : String)
  deriving DecidableEq, Repr

/-- The type `cadvisor.MetricSpec`. -/
structure MetricSpec where
  Name : String
  Typ : CustomMetricType
  Format : CustomMetricFormat
  deriving DecidableEq, Repr

/-- The type `cadvisor.MetricVal`. -/
structure MetricVal where
  Label : String
  Timestamp : GoTime
  IntValue : Int
  FloatValue : Float64
  deriving DecidableEq, Repr

/-- The fields of `cadvisor.ContainerSpec` read by `decodeMetrics`; `Resources` stands
for the fields (`HasCpu`, `HasMemory`, ...) that only the metric tables read. -/
structure ContainerSpec where
  CreationTime : GoTime
  Labels : GoMap String
  Image : String
  HasCustomMetrics : Bool
  CustomMetrics : List MetricSpec
  Resources : List String
  deriving DecidableEq, Repr

/-- The fields of `cadvisor.ContainerStats` read by `decodeMetrics`; `Usage` stands for
the measurements that only the metric tables read. -/
structure ContainerStats where
  Timestamp : GoTime
  CustomMetrics : GoMap (List MetricVal)
  Usage : List Int
  deriving DecidableEq, Repr

/-- The type `cadvisor.ContainerInfo`; its stats are taken to be non-nil pointers. -/
structure ContainerInfo where
  Name : String
  Spec : ContainerSpec
  Stats : List ContainerStats
  deriving DecidableEq, Repr

/-- An element of the table `core.StandardMetrics`. -/
structure StandardMetric where
  Name : String
  HasValue : Option (ContainerSpec → Bool)
  GetValue : ContainerSpec → ContainerStats → MetricValue

/-- An element of the table `core.LabeledMetrics`. -/
structure LabeledMetricSource where
  HasLabeledMetric : Option (ContainerSpec → Bool)
  GetLabeledMetric : ContainerSpec → ContainerStats → List LabeledMetric

/-- What `decodeMetrics` uses of the package `core` and of the language: the tables
`StandardMetrics` and `LabeledMetrics` and the conversion `float32(x)`. -/
structure MetricTables where
  StandardMetrics : List StandardMetric
  LabeledMetrics : List LabeledMetricSource
  float32 : Float64 → Float32

/-- The type `kubeletMetricsSource` without its client and host. -/
structure KubeletMetricsSource where
  nodename : String
  hostname : String
  hostId : String
  deriving DecidableEq, Repr

/-- Modelled from the spec: the function `isNode` is declared outside the embedded
files; the node is the root container, whose name is `/`. -/
def isNode (c : ContainerInfo) : Bool := decide (c.Name = "/")

/-- The method `handleSystemContainer`: the key it returns and the metric set it
leaves. -/
def handleSystemContainer (this : KubeletMetricsSource) (c : ContainerInfo)
    (cMetrics : MetricSet) : String × MetricSet :=
  let cName := if ("/".data).isPrefixOf c.Name.data then String.mk (c.Name.data.drop 1)
    else c.Name
  let labels := cMetrics.Labels.set LabelMetricSetType MetricSetTypeSystemContainer
  let labels := labels.set LabelContainerName cName
  (NodeContainerKey this.nodename cName, { cMetrics with Labels := labels })

/-- The method `handleKubernetesContainer`: the key it returns and the metric set it
leaves. -/
def handleKubernetesContainer (cName ns podName : String) (c : ContainerInfo)
    (cMetrics : MetricSet) : String × MetricSet :=
  let keyed : String × GoMap String :=
    if cName = infraContainerName then
      (PodKey ns podName, cMetrics.Labels.set LabelMetricSetType MetricSetTypePod)
    else
      let labels := cMetrics.Labels.set LabelMetricSetType MetricSetTypePodContainer
      let labels := labels.set LabelContainerName cName
      let labels := labels.set LabelContainerBaseImage c.Spec.Image
      (PodContainerKey ns podName cName, labels)
  let labels := keyed.2.set LabelPodId (labelOf c.Spec.Labels kubernetesPodUID)
  let labels := labels.set LabelPodName podName
  let labels := labels.set LabelNamespaceName ns
  (keyed.1, { cMetrics with Labels := labels })

/-- The block "Support for kubernetes 1.0.*" of `decodeMetrics`: the values of `ns` and
`podName` after it. -/
def legacyPodNames (ns podName : String) : String × String :=
  if ns = "" ∧ '/' ∈ podName.data then
    let tokens := stringsSplitN2 podName '/'
    if tokens.length = 2 then (tokens.getD 0 "", tokens.getD 1 "") else (ns, podName)
  else (ns, podName)

/-- The block `if cName == ""` of `decodeMetrics`: the value of `cName` after it, `none`
when the slice expression `c.Name[len("k8s_"):pos]` faults. -/
def legacyContainerName (cName name : String) : Option String :=
  if cName = "" then
    let pos := stringsIndex name '.'
    if pos ≥ 0 then goSlice name "k8s_".length pos.toNat else some cName
  else some cName

/-- The classification of `decodeMetrics`: the key and the metric set after the branch on
`isNode(c)`, `none` when the branch faults. -/
def classify (this : KubeletMetricsSource) (c : ContainerInfo) (cMetrics : MetricSet) :
    Option (String × MetricSet) :=
  if isNode c then
    some (NodeKey this.nodename,
      { cMetrics with Labels := cMetrics.Labels.set LabelMetricSetType MetricSetTypeNode })
  else
    let cName := labelOf c.Spec.Labels kubernetesContainerLabel
    let ns := labelOf c.Spec.Labels kubernetesPodNamespaceLabel
    let podName := labelOf c.Spec.Labels kubernetesPodNameLabel
    let names := legacyPodNames ns podName
    match legacyContainerName cName c.Name with
    | none => none
    | some cName =>
      if cName = "" ∨ names.1 = "" ∨ names.2 = "" then
        some (handleSystemContainer this c cMetrics)
      else
        some (handleKubernetesContainer cName names.1 names.2 c cMetrics)

/-- One iteration of the loop over `StandardMetrics`. -/
def standardMetricStep (spec : ContainerSpec) (stat : ContainerStats)
    (values : GoMap MetricValue) (metric : StandardMetric) : GoMap MetricValue :=
  match metric.HasValue with
  | none => values
  | some hasValue =>
    if hasValue spec then values.set metric.Name (metric.GetValue spec stat) else values

/-- One iteration of the loop over `LabeledMetrics`. -/
def labeledMetricStep (spec : ContainerSpec) (stat : ContainerStats)
    (labeled : List LabeledMetric) (metric : LabeledMetricSource) : List LabeledMetric :=
  match metric.HasLabeledMetric with
  | none => labeled
  | some hasLabeledMetric =>
    if hasLabeledMetric spec then labeled ++ metric.GetLabeledMetric spec stat else labeled

/-- One iteration of the loop `metricloop` over the custom metrics of the container. -/
def customMetricStep (float32 : Float64 → Float32) (stat : ContainerStats)
    (values : GoMap MetricValue) (spec : MetricSpec) : GoMap MetricValue :=
  match stat.CustomMetrics.lookup spec.Name with
  | none => values
  | some [] => values
  | some (first :: more) =>
    let newest := (first :: more).foldl
      (fun newest metricVal =>
        if newest.Timestamp.instant < metricVal.Timestamp.instant then metricVal else newest)
      first
    match spec.Typ, spec.Format with
    | .other _, _ => values
    | _, .other _ => values
    | .MetricGauge, .IntType =>
      values.set (CustomMetricPrefix ++ spec.Name)
        ⟨newest.IntValue, ⟨0⟩, .MetricGauge, .ValueInt64⟩
    | .MetricCumulative, .IntType =>
      values.set (CustomMetricPrefix ++ spec.Name)
        ⟨newest.IntValue, ⟨0⟩, .MetricCumulative, .ValueInt64⟩
    | .MetricGauge, .FloatType =>
      values.set (CustomMetricPrefix ++ spec.Name)
        ⟨0, float32 newest.FloatValue, .MetricGauge, .ValueFloat⟩
    | .MetricCumulative, .FloatType =>
      values.set (CustomMetricPrefix ++ spec.Name)
        ⟨0, float32 newest.FloatValue, .MetricCumulative, .ValueFloat⟩

/-- How a call of `decodeMetrics` ends. -/
inductive DecodeResult where
  /-- A run-time fault. -/
  | fault
  /-- The returned key and metric set, `none` for the `nil` metric set. -/
  | returned (metricSetKey : String) (cMetrics : Option MetricSet)
  deriving DecidableEq, Repr

/-- The metric set `cMetrics` that `decodeMetrics` starts from; `stat` is `c.Stats[0]`. -/
def initialMetricSet (this : KubeletMetricsSource) (c : ContainerInfo)
    (stat : ContainerStats) : MetricSet :=
  { CreateTime := c.Spec.CreationTime
    ScrapeTime := stat.Timestamp
    MetricValues := []
    Labels := [(LabelNodename, this.nodename), (LabelHostname, this.hostname),
      (LabelHostID, this.hostId)]
    LabeledMetrics := [] }

/-- The method `decodeMetrics`. -/
def decodeMetrics (tables : MetricTables) (this : KubeletMetricsSource)
    (c : ContainerInfo) : DecodeResult :=
  match c.Stats with
  | [] => .returned "" none
  | stat :: _ =>
    let cMetrics := initialMetricSet this c stat
    match classify this c cMetrics with
    | none => .fault
    | some (metricSetKey, cMetrics) =>
      let values := tables.StandardMetrics.foldl (standardMetricStep c.Spec stat)
        cMetrics.MetricValues
      let labeled := tables.LabeledMetrics.foldl (labeledMetricStep c.Spec stat)
        cMetrics.LabeledMetrics
      let values :=
        if c.Spec.HasCustomMetrics then
          c.Spec.CustomMetrics.foldl (customMetricStep tables.float32 stat) values
        else values
      .returned metricSetKey
        (some { cMetrics with MetricValues := values, LabeledMetrics := labeled })

/-- The fields of a `corev1.NodeCondition` read by `getNodeHostnameAndIP`. -/
structure NodeCondition where
  Typ : String
  Status : String
  deriving DecidableEq, Repr

/-- The type `corev1.NodeAddress`. -/
structure NodeAddress where
  Typ : String
  Address : String
  deriving DecidableEq, Repr

/-- The fields of a `corev1.Node` read by `getNodeHostnameAndIP`: `Name`, and
`Status.Conditions` and `Status.Addresses`. -/
structure Node where
  Name : String
  Conditions : List NodeCondition
  Addresses : List NodeAddress
  deriving DecidableEq, Repr

/-- Modelled from the spec: the constant `corev1.NodeReady` is declared outside the
embedded files; it names the Ready condition. -/
def NodeReady : String := "Ready"

/-- Modelled from the spec: the constant `corev1.ConditionTrue`, the status True. -/
def ConditionTrue : String := "True"

/-- Modelled from the spec: the constant `corev1.NodeHostName`, the type of a Hostname
address. -/
def NodeHostName : String := "Hostname"

/-- Modelled from the spec: the constant `corev1.NodeInternalIP`, the type of an
InternalIP address. -/
def NodeInternalIP : String := "InternalIP"

/-- The three results of `getNodeHostnameAndIP`; `err` is `none` for `nil`. -/
structure HostnameAndIP where
  hostname : String
  ip : String
  err : Option String
  deriving DecidableEq, Repr

/-- One iteration of the loop over `node.Status.Addresses`, on the pair
`(hostname, ip)`.  `isIPv4 a` is `net.ParseIP(a).To4() != nil`. -/
def addressStep (isIPv4 : String → Bool) (st : String × String) (addr : NodeAddress) :
    String × String :=
  let hostname := if addr.Typ = NodeHostName ∧ addr.Address ≠ "" then addr.Address else st.1
  let ip :=
    if addr.Typ = NodeInternalIP ∧ addr.Address ≠ "" then
      if isIPv4 addr.Address then addr.Address else st.2
    else st.2
  (hostname, ip)

/-- The function `getNodeHostnameAndIP`. -/
def getNodeHostnameAndIP (isIPv4 : String → Bool) (node : Node) : HostnameAndIP :=
  if node.Conditions.any (fun c => decide (c.Typ = NodeReady ∧ c.Status ≠ ConditionTrue)) then
    ⟨"", "", some ("Node " ++ node.Name ++ " is not ready")⟩
  else
    let found := node.Addresses.foldl (addressStep isIPv4) (node.Name, "")
    if found.2 ≠ "" then ⟨found.1, found.2, none⟩
    else ⟨"", "", some ("Node " ++ node.Name ++ " has no valid hostname and/or IP address: " ++
      found.1 ++ " " ++ found.2)⟩

/-! ## The pod based enricher (`pod_based_enricher.go`) -/

/-- A `resource.Quantity`, as the results of its methods `MilliValue()` and `Value()`. -/
structure Quantity where
  MilliValue : Int
  Value : Int
  deriving DecidableEq, Repr

/-- Modelled from the spec: the constant `corev1.ResourceCPU` is declared outside the
embedded files; it names the cpu resource. -/
def ResourceCPU : String := "cpu"

/-- Modelled from the spec: the constant `corev1.ResourceMemory`, the memory resource. -/
def ResourceMemory : String := "memory"

/-- The fields of a `corev1.Container` read by the enricher; `Requests` and `Limits` are
the resource lists of `Resources`. -/
structure Container where
  Name : String
  Image : String
  Requests : GoMap Quantity
  Limits : GoMap Quantity
  deriving DecidableEq, Repr

/-- The fields of a `corev1.Pod` read by the enricher; `Containers` is
`Spec.Containers`. -/
structure Pod where
  Name : String
  Namespace : String
  UID : String
  Labels : GoMap String
  Containers : List Container
  deriving DecidableEq, Repr

/-- What the enricher uses from outside the embedded files: `getPod ns name` is the pod
returned by the method `getPod` (`none` when the lister fails or returns no pod), and
`labelsToString` is `util.LabelsToString`. -/
structure PodBasedEnricher where
  getPod : String → String → Option Pod
  labelsToString : GoMap String → String

/-- The function `intValue`. -/
def intValue (value : Int) : MetricValue :=
  { IntValue := value, FloatValue := ⟨0⟩, MetricType := .MetricGauge, ValueType := .ValueInt64 }

/-- The value stored for a resource of a resource list: `measure val` if the list has
the resource, 0 if not. -/
def resourceValue (list : GoMap Quantity) (resource : String) (measure : Quantity → Int) :
    MetricValue :=
  match list.lookup resource with
  | some val => intValue (measure val)
  | none => intValue 0

/-- The function `updateContainerResourcesAndLimits`: the metric set it leaves. -/
def updateContainerResourcesAndLimits (metricSet : MetricSet) (container : Container) :
    MetricSet :=
  let values := metricSet.MetricValues.set MetricCpuRequest
    (resourceValue container.Requests ResourceCPU Quantity.MilliValue)
  let values := values.set MetricMemoryRequest
    (resourceValue container.Requests ResourceMemory Quantity.Value)
  let values := values.set MetricCpuLimit
    (resourceValue container.Limits ResourceCPU Quantity.MilliValue)
  let values := values.set MetricMemoryLimit
    (resourceValue container.Limits ResourceMemory Quantity.Value)
  { metricSet with MetricValues := values }

/-- The stub that `addPodInfo` creates for a container of the pod: the metric set of the
literal, after `updateContainerResourcesAndLimits`. -/
def containerStub (this : PodBasedEnricher) (podMs : MetricSet) (pod : Pod)
    (container : Container) : MetricSet :=
  let containerMs : MetricSet :=
    { CreateTime := GoTime.zero
      ScrapeTime := GoTime.zero
      MetricValues := []
      Labels := [(LabelMetricSetType, MetricSetTypePodContainer),
        (LabelNamespaceName, pod.Namespace),
        (LabelPodName, pod.Name),
        (LabelContainerName, container.Name),
        (LabelContainerBaseImage, container.Image),
        (LabelPodId, pod.UID),
        (LabelLabels, this.labelsToString pod.Labels),
        (LabelNodename, labelOf podMs.Labels LabelNodename),
        (LabelHostname, labelOf podMs.Labels LabelHostname),
        (LabelHostID, labelOf podMs.Labels LabelHostID)]
      LabeledMetrics := [] }
  updateContainerResourcesAndLimits containerMs container

/-- One iteration of the loop of `addPodInfo` over the containers of the pod: a stub is
added to `newMs` for a container that has a metric set neither in the batch nor in
`newMs`. -/
def containerStubStep (this : PodBasedEnricher) (podMs : MetricSet) (pod : Pod)
    (batch : GoMap MetricSet) (newMs : GoMap MetricSet) (container : Container) :
    GoMap MetricSet :=
  let containerKey := PodContainerKey pod.Namespace pod.Name container.Name
  if batch.contains containerKey then newMs
  else if newMs.contains containerKey then newMs
  else newMs.set containerKey (containerStub this podMs pod container)

/-- The function `addPodInfo`: the metric set it leaves in `podMs`, and `newMs` after
it. -/
def addPodInfo (this : PodBasedEnricher) (podMs : MetricSet) (pod : Pod)
    (batch : GoMap MetricSet) (newMs : GoMap MetricSet) : MetricSet × GoMap MetricSet :=
  let labels := podMs.Labels.set LabelPodId pod.UID
  let labels := labels.set LabelLabels (this.labelsToString pod.Labels)
  let podMs := { podMs with Labels := labels }
  (podMs, pod.Containers.foldl (containerStubStep this podMs pod batch) newMs)

/-- The first loop of `addContainerInfo`: the metric set left by the first container of
the pod whose key is `key`, if there is one. -/
def enrichContainer (key : String) (containerMs : MetricSet) (pod : Pod) :
    List Container → MetricSet
  | [] => containerMs
  | container :: rest =>
    if key = PodContainerKey pod.Namespace pod.Name container.Name then
      let containerMs := updateContainerResourcesAndLimits containerMs container
      if containerMs.Labels.contains LabelContainerBaseImage then containerMs
      else { containerMs with
        Labels := containerMs.Labels.set LabelContainerBaseImage container.Image }
    else enrichContainer key containerMs pod rest

/-- The first part of `addContainerInfo`, up to the two writes of labels: the metric set
it leaves in `containerMs`. -/
def enrichedContainerSet (this : PodBasedEnricher) (key : String) (containerMs : MetricSet)
    (pod : Pod) : MetricSet :=
  let containerMs := enrichContainer key containerMs pod pod.Containers
  let labels := containerMs.Labels.set LabelPodId pod.UID
  let labels := labels.set LabelLabels (this.labelsToString pod.Labels)
  { containerMs with Labels := labels }

/-- The stub that `addContainerInfo` creates for a pod, as the literal gives it. -/
def podStub (ns podName : String) (containerMs : MetricSet) : MetricSet :=
  { CreateTime := GoTime.zero
    ScrapeTime := GoTime.zero
    MetricValues := []
    Labels := [(LabelMetricSetType, MetricSetTypePod),
      (LabelNamespaceName, ns),
      (LabelPodName, podName),
      (LabelNodename, labelOf containerMs.Labels LabelNodename),
      (LabelHostname, labelOf containerMs.Labels LabelHostname),
      (LabelHostID, labelOf containerMs.Labels LabelHostID)]
    LabeledMetrics := [] }

/-- The function `addContainerInfo`: the metric set it leaves in `containerMs`, and
`newMs` after it. -/
def addContainerInfo (this : PodBasedEnricher) (key : String) (containerMs : MetricSet)
    (pod : Pod) (batch : GoMap MetricSet) (newMs : GoMap MetricSet) :
    MetricSet × GoMap MetricSet :=
  let containerMs := enrichedContainerSet this key containerMs pod
  let ns := labelOf containerMs.Labels LabelNamespaceName
  let podName := labelOf containerMs.Labels LabelPodName
  let podKey := PodKey ns podName
  if batch.contains podKey then (containerMs, newMs)
  else if newMs.contains podKey then (containerMs, newMs)
  else
    let podMs := podStub ns podName containerMs
    let newMs := newMs.set podKey podMs
    let added := addPodInfo this podMs pod batch newMs
    (containerMs, added.2.set podKey added.1)

/-- One iteration of the first loop of `Process`, on the metric sets of the batch and
`newMs`: the metric set `kv.2` found under the key `kv.1` is enriched in place. -/
def processStep (this : PodBasedEnricher) (st : GoMap MetricSet × GoMap MetricSet)
    (kv : String × MetricSet) : GoMap MetricSet × GoMap MetricSet :=
  let typ := labelOf kv.2.Labels LabelMetricSetType
  let ns := labelOf kv.2.Labels LabelNamespaceName
  let podName := labelOf kv.2.Labels LabelPodName
  if typ = MetricSetTypePod then
    match this.getPod ns podName with
    | none => st
    | some pod =>
      let done := addPodInfo this kv.2 pod st.1 st.2
      (st.1.set kv.1 done.1, done.2)
  else if typ = MetricSetTypePodContainer then
    match this.getPod ns podName with
    | none => st
    | some pod =>
      let done := addContainerInfo this kv.1 kv.2 pod st.1 st.2
      (st.1.set kv.1 done.1, done.2)
  else st

/-- The method `PodBasedEnricher.Process`: the batch it returns and the error (`none`
for `nil`).  `seed` selects the order of the range over the metric sets of the batch,
`seedNew` the order of the range over `newMs`. -/
def Process (this : PodBasedEnricher) (seed seedNew : Nat) (batch : DataBatch) :
    DataBatch × Option String :=
  let st := (GoMap.range seed batch.MetricSets).foldl (processStep this)
    (batch.MetricSets, [])
  let sets := (GoMap.range seedNew st.2).foldl (fun sets kv => sets.set kv.1 kv.2) st.1
  ({ batch with MetricSets := sets }, none)

/-! ## Properties of metric sets used to state the results of `Process` -/

/-- The metric set `s` carries the UID and the labels of `pod`. -/
def carriesPod (this : PodBasedEnricher) (pod : Pod) (s : MetricSet) : Prop :=
  labelOf s.Labels LabelPodId = pod.UID ∧
  labelOf s.Labels LabelLabels = this.labelsToString pod.Labels

/-- The metric set `s` holds the four request and limit values of `container`, each as a
gauge of 64-bit integer type: the value of the spec (cpu in milli-units), 0 for a resource
the spec does not set. -/
def carriesResources (container : Container) (s : MetricSet) : Prop :=
  s.MetricValues.lookup "cpu/request" =
    some { IntValue := ((container.Requests.lookup "cpu").map Quantity.MilliValue).getD 0
           FloatValue := ⟨0⟩
           MetricType := MetricType.MetricGauge
           ValueType := ValueType.ValueInt64 } ∧
  s.MetricValues.lookup "memory/request" =
    some { IntValue := ((container.Requests.lookup "memory").map Quantity.Value).getD 0
           FloatValue := ⟨0⟩
           MetricType := MetricType.MetricGauge
           ValueType := ValueType.ValueInt64 } ∧
  s.MetricValues.lookup "cpu/limit" =
    some { IntValue := ((container.Limits.lookup "cpu").map Quantity.MilliValue).getD 0
           FloatValue := ⟨0⟩
           MetricType := MetricType.MetricGauge
           ValueType := ValueType.ValueInt64 } ∧
  s.MetricValues.lookup "memory/limit" =
    some { IntValue := ((container.Limits.lookup "memory").map Quantity.Value).getD 0
           FloatValue := ⟨0⟩
           MetricType := MetricType.MetricGauge
           ValueType := ValueType.ValueInt64 }

/-- The metric set `s` stored under the key `a` is a stub of a pod that the lister finds:
it carries the UID and the labels of the pod and is stored either under the `PodKey` the
pod was asked for, or under the `PodContainerKey` of a container of the pod, whose
request and limit values it then holds. -/
def IsStub (this : PodBasedEnricher) (a : String) (s : MetricSet) : Prop :=
  ∃ ns name pod, this.getPod ns name = some pod ∧ carriesPod this pod s ∧
    (a = PodKey ns name ∨
      ∃ c ∈ pod.Containers, a = PodContainerKey pod.Namespace pod.Name c.Name ∧
        carriesResources c s)

/-! ## The fixtures of `TestPodEnricher` -/

/-- The pod of `TestPodEnricher`. -/
def testPod : Pod :=
  { Name := "pod1"
    Namespace := "ns1"
    UID := ""
    Labels := []
    Containers :=
      [ { Name := "c1", Image := "gcr.io/google_containers/pause:2.0",
          Requests := [("cpu", ⟨100, 1⟩), ("memory", ⟨555000, 555⟩)], Limits := [] },
        { Name := "nginx", Image := "gcr.io/google_containers/pause:2.0",
          Requests := [("cpu", ⟨333, 1⟩), ("memory", ⟨1000000, 1000⟩)],
          Limits := [("cpu", ⟨2222, 3⟩), ("memory", ⟨3333000, 3333⟩)] } ] }

/-- The enricher of `TestPodEnricher`: its lister holds `testPod` only; the labels of the
pod are empty and are rendered as the empty string. -/
def testEnricher : PodBasedEnricher :=
  { getPod := fun ns name => if ns = "ns1" ∧ name = "pod1" then some testPod else none
    labelsToString := fun _ => "" }

/-- The metric set of the container `c1` in the batches of `TestPodEnricher`. -/
def testContainerSet : MetricSet :=
  { CreateTime := GoTime.zero
    ScrapeTime := GoTime.zero
    MetricValues := []
    Labels := [("type", "pod_container"), ("pod_name", "pod1"), ("namespace_name", "ns1"),
      ("container_name", "c1")]
    LabeledMetrics := [] }

/-- The metric set of the pod in the batches of `TestPodEnricher`. -/
def testPodSet : MetricSet :=
  { CreateTime := GoTime.zero
    ScrapeTime := GoTime.zero
    MetricValues := []
    Labels := [("type", "pod"), ("pod_name", "pod1"), ("namespace_name", "ns1")]
    LabeledMetrics := [] }

/-- The first batch of `TestPodEnricher`: the container `c1` and its pod. -/
def testBatch1 : DataBatch :=
  { Timestamp := GoTime.zero
    MetricSets := [("namespace:ns1/pod:pod1/container:c1", testContainerSet),
      ("namespace:ns1/pod:pod1", testPodSet)] }

/-- The second batch of `TestPodEnricher`: the container `c1` alone. -/
def testBatch2 : DataBatch :=
  { Timestamp := GoTime.zero
    MetricSets := [("namespace:ns1/pod:pod1/container:c1", testContainerSet)] }

/-- A batch that holds the metric set of the pod of `TestPodEnricher` under a key that is
not the `PodKey` of the pod. -/
def misfiledBatch : DataBatch :=
  { Timestamp := GoTime.zero
    MetricSets := [("pod1", testPodSet)] }

end MetricsServer

namespace Thanos

/-! ## Lemmas on orders and maps -/

theorem pickOrder_perm {α : Type} (seed : Nat) (l : List α) : (pickOrder seed l).Perm l := by
  unfold pickOrder
  rw [List.getD_eq_getElem?_getD]
  cases h : (List.permutations' l)[seed % (List.permutations' l).length]? with
  | none => simp
  | some p =>
    have hp : p ∈ List.permutations' l := List.getElem?_mem h
    simpa using List.mem_permutations'.mp hp

theorem pickOrder_complete {α : Type} (l p : List α) (h : p.Perm l) :
    ∃ seed, pickOrder seed l = p := by
  have hp : p ∈ List.permutations' l := List.mem_permutations'.mpr h
  obtain ⟨i, hi, rfl⟩ := List.getElem_of_mem hp
  refine ⟨i, ?_⟩
  unfold pickOrder
  rw [Nat.mod_eq_of_lt hi, List.getD_eq_getElem?_getD, List.getElem?_eq_getElem hi]
  rfl

theorem foldl_append_singleton {α β : Type} (f : α → β) (l : List α) (init : List β) :
    l.foldl (fun acc e => acc ++ [f e]) init = init ++ l.map f := by
  induction l generalizing init with
  | nil => simp
  | cons x xs ih => simp [ih]

namespace GoMap

theorem contains_iff {V : Type} (m : GoMap V) (k : String) :
    m.contains k = true ↔ k ∈ m.keys := by
  induction m with
  | nil => simp [contains, keys]
  | cons e rest ih =>
    simp only [contains, keys, List.any_cons, List.map_cons, List.mem_cons, Bool.or_eq_true,
      decide_eq_true_eq] at ih ⊢
    rw [ih]
    constructor
    · rintro (h | h)
      · exact Or.inl h.symm
      · exact Or.inr h
    · rintro (h | h)
      · exact Or.inl h.symm
      · exact Or.inr h

theorem keys_set {V : Type} (m : GoMap V) (k : String) (v : V) :
    (m.set k v).keys = if k ∈ m.keys then m.keys else m.keys ++ [k] := by
  induction m with
  | nil => simp [set, keys]
  | cons e rest ih =>
    obtain ⟨k', v'⟩ := e
    by_cases hk : k' = k
    · subst hk
      simp [set, keys]
    · have hk2 : ¬ k = k' := fun h => hk h.symm
      simp only [keys] at ih
      simp only [set, hk, if_false, keys, List.map_cons, List.mem_cons, hk2, false_or, ih]
      split <;> simp

theorem mem_set {V : Type} (m : GoMap V) (k : String) (v : V) (e : String × V)
    (h : e ∈ m.set k v) : e ∈ m ∨ e = (k, v) := by
  induction m with
  | nil => simpa [set] using h
  | cons e' rest ih =>
    obtain ⟨k', v'⟩ := e'
    by_cases hk : k' = k
    · simp only [set, hk, if_true, List.mem_cons] at h
      rcases h with h | h
      · exact Or.inr h
      · exact Or.inl (List.mem_cons_of_mem _ h)
    · simp only [set, hk, if_false, List.mem_cons] at h
      rcases h with h | h
      · exact Or.inl (h ▸ List.mem_cons_self _ _)
      · rcases ih h with h2 | h2
        · exact Or.inl (List.mem_cons_of_mem _ h2)
        · exact Or.inr h2

end GoMap

/-! ## The counting insertion loop shared by both deduplication functions -/

theorem step_keys_nodup {V : Type} (m : GoMap V) (k : String) (v : V) (hm : m.keys.Nodup) :
    (m.set k v).keys.Nodup := by
  rw [GoMap.keys_set]
  split
  · exact hm
  · next hk =>
    rw [List.nodup_append]
    refine ⟨hm, List.nodup_singleton k, ?_⟩
    intro a ha hb
    rw [List.mem_singleton] at hb
    exact hk (hb ▸ ha)

theorem fold_dedup_inv {α V : Type} (step : GoMap V × Nat → α → GoMap V × Nat)
    (key : α → String) (val : α → V)
    (hstep : ∀ st x, step st x =
      (st.1.set (key x) (val x), if st.1.contains (key x) then st.2 + 1 else st.2))
    (xs : List α) (st0 : GoMap V × Nat) (hm : st0.1.keys.Nodup) :
    (xs.foldl step st0).1.keys.Nodup ∧
    (∀ k, k ∈ (xs.foldl step st0).1.keys ↔ k ∈ st0.1.keys ∨ k ∈ xs.map key) ∧
    (∀ e, e ∈ (xs.foldl step st0).1 → e ∈ st0.1 ∨ ∃ x, x ∈ xs ∧ e = (key x, val x)) ∧
    (xs.foldl step st0).2 + (xs.foldl step st0).1.keys.length =
      st0.2 + st0.1.keys.length + xs.length := by
  induction xs generalizing st0 with
  | nil => simp [hm]
  | cons x xs ih =>
    have hm1 : (step st0 x).1.keys.Nodup := by
      rw [hstep]; exact step_keys_nodup _ _ _ hm
    obtain ⟨h1, h2, h3, h4⟩ := ih (step st0 x) hm1
    simp only [List.foldl_cons]
    refine ⟨h1, ?_, ?_, ?_⟩
    · intro k
      rw [h2 k, hstep]
      simp only [GoMap.keys_set, List.map_cons, List.mem_cons]
      split
      · next hk =>
        constructor
        · rintro (h | h)
          · exact Or.inl h
          · exact Or.inr (Or.inr h)
        · rintro (h | h | h)
          · exact Or.inl h
          · exact Or.inl (h ▸ hk)
          · exact Or.inr h
      · simp only [List.mem_append, List.mem_singleton]
        tauto
    · intro e he
      rcases h3 e he with h | ⟨y, hy, hey⟩
      · rw [hstep] at h
        rcases GoMap.mem_set _ _ _ _ h with h' | h'
        · exact Or.inl h'
        · exact Or.inr ⟨x, List.mem_cons_self _ _, h'⟩
      · exact Or.inr ⟨y, List.mem_cons_of_mem _ hy, hey⟩
    · have h5 : (step st0 x).2 + (step st0 x).1.keys.length =
          st0.2 + st0.1.keys.length + 1 := by
        rw [hstep]
        simp only [GoMap.keys_set]
        by_cases hk : key x ∈ st0.1.keys
        · have hc : st0.1.contains (key x) = true := (GoMap.contains_iff _ _).mpr hk
          simp only [hk, hc, if_true]
          omega
        · have hc : ¬ st0.1.contains (key x) = true :=
            fun h => hk ((GoMap.contains_iff _ _).mp h)
          rw [if_neg hc, if_neg hk, List.length_append, List.length_singleton]
          omega
      simp only [List.length_cons]
      omega

theorem sum_count_pred (l d : List String) (hd : ∀ a ∈ d, 1 ≤ l.count a) :
    (d.map (fun a => l.count a - 1)).sum + d.length = (d.map (fun a => l.count a)).sum := by
  induction d with
  | nil => simp
  | cons a d ih =>
    have h1 := hd a (List.mem_cons_self _ _)
    have h2 := ih (fun b hb => hd b (List.mem_cons_of_mem _ hb))
    simp only [List.map_cons, List.sum_cons, List.length_cons]
    omega

theorem sum_extra_occurrences (l : List String) :
    (l.dedup.map (fun a => l.count a - 1)).sum = l.length - l.dedup.length := by
  have h := sum_count_pred l l.dedup (fun a ha =>
    List.count_pos_iff.mpr (List.mem_dedup.mp ha))
  have h2 : (l.dedup.map (fun a => l.count a)).sum = l.length :=
    List.sum_map_count_dedup_eq_length l
  omega

theorem nodup_length_eq_dedup (keys l : List String) (hn : keys.Nodup)
    (hmem : ∀ k, k ∈ keys ↔ k ∈ l) : keys.length = l.dedup.length := by
  apply List.Perm.length_eq
  rw [List.perm_ext_iff_of_nodup hn (List.nodup_dedup l)]
  intro a
  rw [hmem a, List.mem_dedup]

/-! ## Results of the two deduplication functions -/

theorem dedupQueryStep_eq (st : GoMap Unit × Nat) (addr : String) :
    dedupQueryStep st addr =
      (st.1.set (id addr) ((fun _ => ()) addr),
        if st.1.contains (id addr) then st.2 + 1 else st.2) := rfl

theorem dedupStoreStep_eq (st : GoMap StoreSpec × Nat) (spec : StoreSpec) :
    dedupStoreStep st spec =
      (st.1.set (StoreSpec.Addr spec) (id spec),
        if st.1.contains (StoreSpec.Addr spec) then st.2 + 1 else st.2) := rfl

theorem queryAddrs_result_perm (seed counter : Nat) (addrs : List String) :
    (removeDuplicateQueryAddrs seed counter addrs).1.Perm
      (addrs.foldl dedupQueryStep (([] : GoMap Unit), counter)).1.keys := by
  simp only [removeDuplicateQueryAddrs, foldl_append_singleton, List.nil_append, GoMap.range,
    GoMap.keys]
  exact (pickOrder_perm seed _).map _

theorem queryAddrs_result_nodup (seed counter : Nat) (addrs : List String) :
    (removeDuplicateQueryAddrs seed counter addrs).1.Nodup := by
  have h := fold_dedup_inv dedupQueryStep id (fun _ => ()) dedupQueryStep_eq addrs
    (([] : GoMap Unit), counter) (by simp [GoMap.keys])
  exact (queryAddrs_result_perm seed counter addrs).nodup_iff.mpr h.1

theorem queryAddrs_result_mem (seed counter : Nat) (addrs : List String) (a : String) :
    a ∈ (removeDuplicateQueryAddrs seed counter addrs).1 ↔ a ∈ addrs := by
  have h := fold_dedup_inv dedupQueryStep id (fun _ => ()) dedupQueryStep_eq addrs
    (([] : GoMap Unit), counter) (by simp [GoMap.keys])
  rw [(queryAddrs_result_perm seed counter addrs).mem_iff, h.2.1 a]
  simp [GoMap.keys]

theorem queryAddrs_counter (seed counter : Nat) (addrs : List String) :
    (removeDuplicateQueryAddrs seed counter addrs).2 =
      counter + (addrs.length - addrs.dedup.length) := by
  have h := fold_dedup_inv dedupQueryStep id (fun _ => ()) dedupQueryStep_eq addrs
    (([] : GoMap Unit), counter) (by simp [GoMap.keys])
  have hlen := nodup_length_eq_dedup _ addrs h.1 (fun k => by
    rw [h.2.1 k]; simp [GoMap.keys])
  have h4 := h.2.2.2
  have hle : addrs.dedup.length ≤ addrs.length := (List.dedup_sublist addrs).length_le
  simp only [removeDuplicateQueryAddrs]
  simp only [GoMap.keys, List.map_nil, List.length_nil] at h4
  simp only [GoMap.keys] at hlen
  omega

theorem storeSpecs_bindings (counter : Nat) (specs : List StoreSpec) (e : String × StoreSpec)
    (he : e ∈ (specs.foldl dedupStoreStep (([] : GoMap StoreSpec), counter)).1) :
    e.2 ∈ specs ∧ e.2.Addr = e.1 := by
  have h := fold_dedup_inv dedupStoreStep StoreSpec.Addr id dedupStoreStep_eq specs
    (([] : GoMap StoreSpec), counter) (by simp [GoMap.keys])
  rcases h.2.2.1 e he with h' | ⟨x, hx, rfl⟩
  · simp at h'
  · exact ⟨hx, rfl⟩

theorem storeSpecs_result_perm (seed counter : Nat) (specs : List StoreSpec) :
    ((removeDuplicateStoreSpecs seed counter specs).1.map StoreSpec.Addr).Perm
      (specs.foldl dedupStoreStep (([] : GoMap StoreSpec), counter)).1.keys := by
  simp only [removeDuplicateStoreSpecs, foldl_append_singleton, List.nil_append, GoMap.range,
    GoMap.keys, List.map_map]
  have hperm := pickOrder_perm seed (specs.foldl dedupStoreStep (([] : GoMap StoreSpec), counter)).1
  have hfun : List.map (StoreSpec.Addr ∘ fun e => e.2)
      (pickOrder seed (specs.foldl dedupStoreStep (([] : GoMap StoreSpec), counter)).1) =
      List.map Prod.fst
        (pickOrder seed (specs.foldl dedupStoreStep (([] : GoMap StoreSpec), counter)).1) := by
    apply List.map_congr_left
    intro e he
    exact (storeSpecs_bindings counter specs e (hperm.mem_iff.mp he)).2
  rw [hfun]
  exact hperm.map _

theorem storeSpecs_result_subset (seed counter : Nat) (specs : List StoreSpec) :
    (removeDuplicateStoreSpecs seed counter specs).1 ⊆ specs := by
  intro s hs
  simp only [removeDuplicateStoreSpecs, foldl_append_singleton, List.nil_append, GoMap.range,
    List.mem_map] at hs
  obtain ⟨e, he, rfl⟩ := hs
  exact (storeSpecs_bindings counter specs e ((pickOrder_perm seed _).mem_iff.mp he)).1

theorem storeSpecs_counter (seed counter : Nat) (specs : List StoreSpec) :
    (removeDuplicateStoreSpecs seed counter specs).2 =
      counter + (specs.length - (specs.map StoreSpec.Addr).dedup.length) := by
  have h := fold_dedup_inv dedupStoreStep StoreSpec.Addr id dedupStoreStep_eq specs
    (([] : GoMap StoreSpec), counter) (by simp [GoMap.keys])
  have hlen := nodup_length_eq_dedup _ (specs.map StoreSpec.Addr) h.1 (fun k => by
    rw [h.2.1 k]; simp [GoMap.keys])
  have h4 := h.2.2.2
  have hle : (specs.map StoreSpec.Addr).dedup.length ≤ specs.length := by
    have := (List.dedup_sublist (specs.map StoreSpec.Addr)).length_le
    simpa using this
  simp only [removeDuplicateStoreSpecs]
  simp only [GoMap.keys, List.map_nil, List.length_nil] at h4
  simp only [GoMap.keys] at hlen
  omega

/-! ## Deduplication: the claims -/

/-- C3: for every list of address strings `removeDuplicateQueryAddrs` returns a list in
which every address of the input occurs exactly once and no other address occurs; for
every list of store specs `removeDuplicateStoreSpecs` returns specs of the input whose
addresses are pairwise distinct and are exactly the addresses of the input.  This holds
for every order in which the final map range may run. -/
theorem removeDuplicate_each_address_once (seed counter : Nat) (addrs : List String)
    (specs : List StoreSpec) :
    (∀ a, (removeDuplicateQueryAddrs seed counter addrs).1.count a =
        if a ∈ addrs then 1 else 0) ∧
    ((removeDuplicateStoreSpecs seed counter specs).1.map StoreSpec.Addr).Nodup ∧
    (∀ a, a ∈ (removeDuplicateStoreSpecs seed counter specs).1.map StoreSpec.Addr ↔
        a ∈ specs.map StoreSpec.Addr) ∧
    (removeDuplicateStoreSpecs seed counter specs).1 ⊆ specs := by
  refine ⟨?_, ?_, ?_, storeSpecs_result_subset seed counter specs⟩
  · intro a
    by_cases ha : a ∈ addrs
    · rw [if_pos ha]
      exact List.count_eq_one_of_mem (queryAddrs_result_nodup seed counter addrs)
        ((queryAddrs_result_mem seed counter addrs a).mpr ha)
    · rw [if_neg ha]
      exact List.count_eq_zero_of_not_mem
        (fun h => ha ((queryAddrs_result_mem seed counter addrs a).mp h))
  · have h := fold_dedup_inv dedupStoreStep StoreSpec.Addr id dedupStoreStep_eq specs
      (([] : GoMap StoreSpec), counter) (by simp [GoMap.keys])
    exact (storeSpecs_result_perm seed counter specs).nodup_iff.mpr h.1
  · intro a
    have h := fold_dedup_inv dedupStoreStep StoreSpec.Addr id dedupStoreStep_eq specs
      (([] : GoMap StoreSpec), counter) (by simp [GoMap.keys])
    rw [(storeSpecs_result_perm seed counter specs).mem_iff, h.2.1 a]
    simp [GoMap.keys]

/-- C4: one call of `removeDuplicateQueryAddrs` raises the duplicate counter by the sum,
over the distinct addresses of the input, of (number of occurrences - 1), which is the
length of the input minus the number of distinct addresses; the counter is unchanged
exactly when no address is repeated.  The same holds for `removeDuplicateStoreSpecs`
with the addresses of the given specs. -/
theorem removeDuplicate_counter_increment (seed counter : Nat) (addrs : List String)
    (specs : List StoreSpec) :
    (removeDuplicateQueryAddrs seed counter addrs).2 =
        counter + (addrs.dedup.map (fun a => addrs.count a - 1)).sum ∧
    (removeDuplicateQueryAddrs seed counter addrs).2 =
        counter + (addrs.length - addrs.dedup.length) ∧
    ((removeDuplicateQueryAddrs seed counter addrs).2 = counter ↔ addrs.Nodup) ∧
    (removeDuplicateStoreSpecs seed counter specs).2 =
        counter + ((specs.map StoreSpec.Addr).dedup.map
          (fun a => (specs.map StoreSpec.Addr).count a - 1)).sum ∧
    (removeDuplicateStoreSpecs seed counter specs).2 =
        counter + (specs.length - (specs.map StoreSpec.Addr).dedup.length) ∧
    ((removeDuplicateStoreSpecs seed counter specs).2 = counter ↔
        (specs.map StoreSpec.Addr).Nodup) := by
  have hq := queryAddrs_counter seed counter addrs
  have hs := storeSpecs_counter seed counter specs
  have hnodup : ∀ l : List String, l.length - l.dedup.length = 0 ↔ l.Nodup := by
    intro l
    have hle : l.dedup.length ≤ l.length := (List.dedup_sublist l).length_le
    constructor
    · intro h
      have hEq : l.dedup = l :=
        (List.dedup_sublist l).eq_of_length_le (by omega)
      exact hEq ▸ List.nodup_dedup l
    · intro h
      rw [List.Nodup.dedup h]
      omega
  refine ⟨?_, hq, ?_, ?_, hs, ?_⟩
  · rw [hq, sum_extra_occurrences]
  · rw [hq, ← hnodup addrs]
    omega
  · rw [hs, sum_extra_occurrences, List.length_map]
  · rw [hs, ← hnodup (specs.map StoreSpec.Addr), List.length_map]
    omega

/-! ## The query function: what the loop does -/

theorem queryLoop_cons (instant : String → Except String PromVector) (addrs : List String)
    (i : Nat) (rest : List Nat) (addr : String) (h : addrs.get? i = some addr) :
    queryLoop instant addrs (i :: rest) =
      match instant addr with
      | .error err => ⟨.failure err, [i]⟩
      | .ok vec => ⟨.vector vec, [i]⟩ := by
  simp only [queryLoop, h]

/-- C1 (the code diverges from the claim): with the peers `a` and `b`, the permutation
`[0, 1]`, peer `a` failing and peer `b` ready to answer, `queryFn` contacts peer `a`
only and returns its error; the vector of peer `b` is not returned. -/
theorem queryFn_stops_at_first_error :
    randPerm 0 2 = [0, 1] ∧
    (fun a : String => if a = "a" then (Except.error "connection refused" : Except String PromVector)
      else Except.ok [⟨[⟨"job", "x"⟩], 1000, ⟨0⟩⟩]) "b" = Except.ok [⟨[⟨"job", "x"⟩], 1000, ⟨0⟩⟩] ∧
    (queryFn 0 0 0 0 [] ["a", "b"]
      (fun a => if a = "a" then Except.error "connection refused"
        else Except.ok [⟨[⟨"job", "x"⟩], 1000, ⟨0⟩⟩])).1 =
      ⟨QueryResult.failure "connection refused", [0]⟩ := by
  refine ⟨by decide, by simp, by decide⟩

/-- C2 (the code diverges from the claim): with two peers that both fail, whichever of
the two permutations is drawn, `queryFn` fails with the error of the peer it contacted
first, which is not the error "no query peer reachable". -/
theorem queryFn_all_fail_returns_peer_error :
    (queryFn 0 0 0 0 [] ["a", "b"] (fun a => Except.error ("refused by " ++ a))).1 =
      ⟨QueryResult.failure "refused by a", [0]⟩ ∧
    (queryFn 0 0 1 0 [] ["a", "b"] (fun a => Except.error ("refused by " ++ a))).1 =
      ⟨QueryResult.failure "refused by b", [1]⟩ ∧
    QueryResult.failure "refused by a" ≠ QueryResult.failure "no query peer reachable" ∧
    QueryResult.failure "refused by b" ≠ QueryResult.failure "no query peer reachable" := by
  refine ⟨by decide, by decide, by decide, by decide⟩

/-- C5 (the code diverges from the claim): a gossip peer advertises the query address
`q:10902` and the DNS provider resolves the same address.  The slice over which `queryFn`
draws its permutation holds the address twice, although `removeDuplicateQueryAddrs`
returns it once and counts the duplicate; with the permutation `[1, 0]` the request goes
to index 1, the second copy. -/
theorem queryFn_permutes_duplicated_addrs :
    queryFnAddrs 0 [("peer-1", ⟨"q:10902", ""⟩)] ["q:10902"] = ["q:10902", "q:10902"] ∧
    removeDuplicateQueryAddrs 0 0 ["q:10902", "q:10902"] = (["q:10902"], 1) ∧
    randPerm 1 2 = [1, 0] ∧
    queryFn 0 0 1 0 [("peer-1", ⟨"q:10902", ""⟩)] ["q:10902"] (fun _ => Except.ok []) =
      (⟨QueryResult.vector [], [1]⟩, 1) := by
  refine ⟨by decide, by decide, by decide, by decide⟩

/-! ## The notify callback -/

theorem notify_fold (queryURL : String) (tableLink : String → String) (expr : String)
    (alerts : List RuleAlert) (res : List Alert) :
    alerts.foldl (notifyStep queryURL tableLink expr) res =
      res ++ (alerts.filter (fun r => decide (r.State ≠ AlertState.StatePending))).map
        (buildAlert queryURL tableLink expr) := by
  induction alerts generalizing res with
  | nil => simp
  | cons r rest ih =>
    rw [List.foldl_cons, ih]
    by_cases h : r.State = AlertState.StatePending
    · simp [notifyStep, h]
    · simp [notifyStep, h]

theorem notify_pushed_eq (queryURL : String) (tableLink : String → String) (expr : String)
    (alerts : List RuleAlert) :
    (notify queryURL tableLink expr alerts).pushed =
      (alerts.filter (fun r => decide (r.State ≠ AlertState.StatePending))).map
        (buildAlert queryURL tableLink expr) := by
  simp [notify, notify_fold]

/-- C6: the list that `notify` hands to the alert queue is, in input order, one alert
for every input that is not pending and nothing else; in particular no alert of a
pending input is in it, and its length is the number of non-pending inputs.  The call
returns no error. -/
theorem notify_pushes_one_per_non_pending (queryURL : String) (tableLink : String → String)
    (expr : String) (alerts : List RuleAlert) :
    (notify queryURL tableLink expr alerts).pushed =
      (alerts.filter (fun r => decide (r.State ≠ AlertState.StatePending))).map
        (buildAlert queryURL tableLink expr) ∧
    (notify queryURL tableLink expr alerts).pushed.length =
      alerts.countP (fun r => decide (r.State ≠ AlertState.StatePending)) ∧
    (notify queryURL tableLink expr alerts).err = none := by
  refine ⟨notify_pushed_eq _ _ _ _, ?_, rfl⟩
  rw [notify_pushed_eq, List.length_map, List.countP_eq_length_filter]

/-- C7 (the code diverges from the claim): the rule alert below is inactive (resolved),
neither pending nor firing, and `notify` pushes the alert built from it with ends-at 9,
although the comment on the loop says `Only send actually firing alerts.`; so it is not
the case that every pushed alert is derived from a rule alert in the firing state. -/
theorem notify_pushes_inactive_alert :
    (notify "http://q" (fun e => "/graph?g0.expr=" ++ e) "up"
      [⟨AlertState.StateInactive, [], [], ⟨5, 0⟩, ⟨9, 0⟩⟩]).pushed =
      [⟨[], [], ⟨5, 0⟩, ⟨9, 0⟩, "http://q/graph?g0.expr=up"⟩] ∧
    ¬ (∀ (queryURL : String) (tableLink : String → String) (expr : String)
        (alerts : List RuleAlert) (a : Alert),
        a ∈ (notify queryURL tableLink expr alerts).pushed →
        ∃ r, r ∈ alerts ∧ r.State = AlertState.StateFiring ∧
          a = buildAlert queryURL tableLink expr r) := by
  refine ⟨by decide, ?_⟩
  intro h
  have hmem : buildAlert "http://q" (fun e => "/graph?g0.expr=" ++ e) "up"
      ⟨AlertState.StateInactive, [], [], ⟨5, 0⟩, ⟨9, 0⟩⟩ ∈
      (notify "http://q" (fun e => "/graph?g0.expr=" ++ e) "up"
        [⟨AlertState.StateInactive, [], [], ⟨5, 0⟩, ⟨9, 0⟩⟩]).pushed := by
    rw [notify_pushed_eq]
    simp
  obtain ⟨r, hr, hstate, _⟩ := h _ _ _ _ _ hmem
  rw [List.mem_singleton] at hr
  subst hr
  exact absurd hstate (by decide)

/-- The alerts that `notify` pushes as the code stands: an alert is pushed exactly when it
is the alert built from an input rule alert that is not pending, whether that rule alert
is firing or inactive. -/
theorem notify_pushed_iff_not_pending (queryURL : String) (tableLink : String → String)
    (expr : String) (alerts : List RuleAlert) (a : Alert) :
    a ∈ (notify queryURL tableLink expr alerts).pushed ↔
      ∃ r, r ∈ alerts ∧ r.State ≠ AlertState.StatePending ∧
        a = buildAlert queryURL tableLink expr r := by
  rw [notify_pushed_eq, List.mem_map]
  constructor
  · rintro ⟨r, hr, rfl⟩
    rw [List.mem_filter] at hr
    exact ⟨r, hr.1, by simpa using hr.2, rfl⟩
  · rintro ⟨r, hr, hs, rfl⟩
    exact ⟨r, List.mem_filter.mpr ⟨hr, by simpa using hs⟩, rfl⟩

/-- C8: for a rule alert `r` that is not pending, standing anywhere in the input of
`notify`, the alert pushed for it (after the alerts of the inputs before it and before
those of the inputs after it) has starts-at `r.FiredAt`, the labels and annotations of
`r`, the generator URL `queryURL` followed by the table link of the expression, and
ends-at `r.ResolvedAt` when that time is not the zero instant, the zero value otherwise. -/
theorem notify_alert_fields (queryURL : String) (tableLink : String → String)
    (expr : String) (before after : List RuleAlert) (r : RuleAlert)
    (h : r.State ≠ AlertState.StatePending) :
    (notify queryURL tableLink expr (before ++ r :: after)).pushed =
      (notify queryURL tableLink expr before).pushed ++
        { Labels := r.Labels
          Annotations := r.Annotations
          StartsAt := r.FiredAt
          EndsAt := if r.ResolvedAt.IsZero then GoTime.zero else r.ResolvedAt
          GeneratorURL := queryURL ++ tableLink expr } ::
        (notify queryURL tableLink expr after).pushed := by
  simp only [notify_pushed_eq, List.filter_append, List.map_append, List.filter_cons]
  have hd : decide (r.State ≠ AlertState.StatePending) = true := by simpa using h
  simp only [hd, if_true, List.map_cons]
  congr 2
  unfold buildAlert
  cases hz : r.ResolvedAt.IsZero <;> simp

/-- Witness of C8: a firing alert after a pending one; its resolved-at time is the zero
instant in a location other than UTC, so ends-at is the zero value. -/
theorem notify_alert_fields_witness :
    (⟨AlertState.StateFiring, [⟨"alertname", "Down"⟩], [⟨"summary", "s"⟩], ⟨7, 0⟩, ⟨0, 1⟩⟩ :
        RuleAlert).State ≠ AlertState.StatePending ∧
    (notify "http://q" (fun e => "/graph?g0.expr=" ++ e) "up"
      ([⟨AlertState.StatePending, [], [], ⟨0, 0⟩, ⟨0, 0⟩⟩] ++
        ⟨AlertState.StateFiring, [⟨"alertname", "Down"⟩], [⟨"summary", "s"⟩], ⟨7, 0⟩, ⟨0, 1⟩⟩ ::
        [⟨AlertState.StateInactive, [], [], ⟨3, 0⟩, ⟨9, 0⟩⟩])).pushed =
      [⟨[⟨"alertname", "Down"⟩], [⟨"summary", "s"⟩], ⟨7, 0⟩, ⟨0, 0⟩, "http://q/graph?g0.expr=up"⟩,
       ⟨[], [], ⟨3, 0⟩, ⟨9, 0⟩, "http://q/graph?g0.expr=up"⟩] :=
  ⟨by decide,
   (notify_alert_fields "http://q" (fun e => "/graph?g0.expr=" ++ e) "up"
      [⟨AlertState.StatePending, [], [], ⟨0, 0⟩, ⟨0, 0⟩⟩]
      [⟨AlertState.StateInactive, [], [], ⟨3, 0⟩, ⟨9, 0⟩⟩]
      ⟨AlertState.StateFiring, [⟨"alertname", "Down"⟩], [⟨"summary", "s"⟩], ⟨7, 0⟩, ⟨0, 1⟩⟩
      (by decide)).trans (by decide)⟩

/-! ## Decoding a scalar response -/

theorem unmarshalRawSlice_ok (raw : RawMessage) (slice : List RawMessage)
    (h : unmarshalRawSlice raw = .ok slice) :
    (∃ elems, raw = some (.array elems) ∧ slice = elems.map some) ∨
      (raw = some .null ∧ slice = []) := by
  unfold unmarshalRawSlice at h
  split at h
  · next elems =>
    injection h with h
    exact Or.inl ⟨elems, rfl, h.symm⟩
  · injection h with h
    exact Or.inr ⟨rfl, h.symm⟩
  · cases h
  · cases h

/-- C9: for every JSON array of exactly two elements whose first element decodes as the
timestamp `t` and whose second element decodes as the sample value `v`,
`convertScalarJSONToVector` returns, without error, the vector of the single sample with
timestamp `t`, value `v` and the empty label set. -/
theorem convertScalarJSONToVector_tuple (unmarshalTime : RawMessage → Except String Int)
    (unmarshalValue : RawMessage → Except String Float64) (e0 e1 : JSON) (t : Int)
    (v : Float64) (h0 : unmarshalTime (some e0) = .ok t)
    (h1 : unmarshalValue (some e1) = .ok v) :
    convertScalarJSONToVector unmarshalTime unmarshalValue (some (.array [e0, e1])) =
      .ok [some { Metric := [], Value := v, Timestamp := t }] := by
  simp [convertScalarJSONToVector, unmarshalRawSlice, h0, h1]

/-- Witness of C9: the example of the spec.  With the element decoders as the spec
describes them, the scalar result `["1700000000", "42.5"]` gives the single sample with
timestamp 1700000000, the empty label set and the value 42.5, whose binary64 bit pattern
is 4631178160564600832: sign 0, exponent 5, significand 85/64. -/
theorem convertScalarJSONToVector_tuple_witness :
    convertScalarJSONToVector timeUnmarshalJSON sampleValueUnmarshalJSON
      (some (JSON.array [JSON.string "1700000000", JSON.string "42.5"])) =
      Except.ok [some { Metric := [], Value := ⟨4631178160564600832⟩,
                        Timestamp := 1700000000 }] ∧
    4631178160564600832 = (5 + 1023) * 2 ^ 52 + (85 * 2 ^ 46 - 2 ^ 52) ∧
    binary64 85 2 = some ⟨4631178160564600832⟩ :=
  ⟨convertScalarJSONToVector_tuple timeUnmarshalJSON sampleValueUnmarshalJSON
      (JSON.string "1700000000") (JSON.string "42.5") 1700000000
      ⟨4631178160564600832⟩ (by rfl) (by rfl),
    by decide, by decide⟩

/-- C10: for every input that is a JSON array whose length is not 2 and for every input
that is not a JSON array (another JSON document, or bytes that are no JSON document),
`convertScalarJSONToVector` returns an error, hence no vector, whatever the element
decoders do. -/
theorem convertScalarJSONToVector_rejects (unmarshalTime : RawMessage → Except String Int)
    (unmarshalValue : RawMessage → Except String Float64) (raw : RawMessage)
    (h : ∀ elems, raw = some (.array elems) → elems.length ≠ 2) :
    ∃ err, convertScalarJSONToVector unmarshalTime unmarshalValue raw = .error err := by
  unfold convertScalarJSONToVector
  cases hs : unmarshalRawSlice raw with
  | error err => exact ⟨err, rfl⟩
  | ok slice =>
    have hlen : slice.length ≠ 2 := by
      rcases unmarshalRawSlice_ok raw slice hs with ⟨elems, hraw, hslice⟩ | ⟨_, hslice⟩
      · rw [hslice, List.length_map]
        exact h elems hraw
      · rw [hslice]
        decide
    simp only [hlen, ne_eq, not_false_eq_true, if_true]
    exact ⟨_, rfl⟩

/-- Witness of C10: a three-element array is rejected although each of its elements
would decode. -/
theorem convertScalarJSONToVector_rejects_witness :
    (∀ elems, some (JSON.array [JSON.number "1", JSON.string "2", JSON.string "3"]) =
        some (JSON.array elems) → elems.length ≠ 2) ∧
    ∃ err, convertScalarJSONToVector (fun _ => Except.ok 1) (fun _ => Except.ok ⟨0⟩)
      (some (JSON.array [JSON.number "1", JSON.string "2", JSON.string "3"])) =
        Except.error err :=
  ⟨fun elems he => by
      injection he with he
      injection he with he
      subst he
      decide,
   convertScalarJSONToVector_rejects _ _ _ (fun elems he => by
      injection he with he
      injection he with he
      subst he
      decide)⟩

/-! ## The instant query against one peer -/

theorem labelLess_false_iff (a b : Label) :
    labelLess b a = false ↔ a.Name.data ≤ b.Name.data := by
  simp [labelLess]

theorem sortLabels_sorted (lset : List Label) :
    List.Sorted (fun a b : Label => a.Name.data ≤ b.Name.data) (sortLabels lset) := by
  haveI : IsTotal Label (fun a b => labelLess b a = false) :=
    ⟨fun a b => by
      rw [labelLess_false_iff, labelLess_false_iff]
      exact le_total _ _⟩
  haveI : IsTrans Label (fun a b => labelLess b a = false) :=
    ⟨fun a b c hab hbc => by
      rw [labelLess_false_iff] at *
      exact le_trans hab hbc⟩
  have h := List.sorted_insertionSort (fun a b : Label => labelLess b a = false) lset
  exact List.Pairwise.imp (fun {a b} hab => (labelLess_false_iff a b).mp hab) h

theorem sortLabels_perm (lset : List Label) : (sortLabels lset).Perm lset :=
  List.perm_insertionSort _ lset

theorem sampleLabels_sorted (seed : Nat) (metric : GoMap String) :
    List.Sorted (fun a b : Label => a.Name.data ≤ b.Name.data) (sampleLabels seed metric) :=
  sortLabels_sorted _

theorem sampleLabels_perm (seed : Nat) (metric : GoMap String) :
    (sampleLabels seed metric).Perm
      (metric.map (fun kv => ({ Name := kv.1, Value := kv.2 } : Label))) := by
  unfold sampleLabels
  simp only [foldl_append_singleton, List.nil_append, GoMap.range]
  exact (sortLabels_perm _).trans ((pickOrder_perm seed metric).map _)

theorem toPromVectorFrom_some (seeds : Nat → Nat) (samples : List Sample) (i : Nat)
    (vec : PromVector) :
    toPromVectorFrom seeds i (samples.map some) vec =
      some (vec ++ (samples.enumFrom i).map (fun ie =>
        ({ Metric := sampleLabels (seeds ie.1) ie.2.Metric
           T := ie.2.Timestamp
           V := ie.2.Value } : PromSample))) := by
  induction samples generalizing i vec with
  | nil => simp [toPromVectorFrom]
  | cons e rest ih =>
    simp only [List.map_cons, toPromVectorFrom, ih, List.enumFrom_cons, List.append_assoc,
      List.singleton_append]

theorem toPromVectorFrom_nil_sample (seeds : Nat → Nat) (vectorResult : Vector)
    (h : none ∈ vectorResult) (i : Nat) (vec : PromVector) :
    toPromVectorFrom seeds i vectorResult vec = none := by
  induction vectorResult generalizing i vec with
  | nil => simp at h
  | cons x rest ih =>
    cases x with
    | none => rfl
    | some e =>
      have hr : none ∈ rest := by simpa using h
      simp only [toPromVectorFrom]
      exact ih hr _ _

theorem toPromVector_eq (seeds : Nat → Nat) (samples : List Sample) :
    toPromVector seeds (samples.map some) =
      some (samples.enum.map (fun ie =>
        ({ Metric := sampleLabels (seeds ie.1) ie.2.Metric
           T := ie.2.Timestamp
           V := ie.2.Value } : PromSample))) := by
  unfold toPromVector
  rw [toPromVectorFrom_some, List.nil_append]
  rfl

theorem forall₂_map_enumFrom {α β : Type} (R : β → α → Prop) (f : Nat × α → β)
    (hf : ∀ i e, R (f (i, e)) e) (l : List α) (n : Nat) :
    List.Forall₂ R ((l.enumFrom n).map f) l := by
  induction l generalizing n with
  | nil => exact List.Forall₂.nil
  | cons e rest ih => exact List.Forall₂.cons (hf n e) (ih (n + 1))

theorem toPromVector_samples (seeds : Nat → Nat) (samples : List Sample) :
    ∃ vec, toPromVector seeds (samples.map some) = some vec ∧
      List.Forall₂
        (fun (s : PromSample) (e : Sample) =>
          s.T = e.Timestamp ∧ s.V = e.Value ∧
          List.Sorted (fun a b : Label => a.Name.data ≤ b.Name.data) s.Metric ∧
          s.Metric.Perm (e.Metric.map (fun kv => ({ Name := kv.1, Value := kv.2 } : Label))))
        vec samples :=
  ⟨_, toPromVector_eq seeds samples, forall₂_map_enumFrom _ _
    (fun _ _ => ⟨rfl, rfl, sampleLabels_sorted _ _, sampleLabels_perm _ _⟩) samples 0⟩

/-- C11: when the envelope of the peer's response was fetched and decoded, a result type
that is neither `vector` nor `scalar` (the empty string of a missing result type
included) makes `queryPrometheusInstant` return an error and no vector; for the result
type `vector` it returns an error exactly when decoding the result into a vector fails,
and for the result type `scalar` exactly when `convertScalarJSONToVector` fails. -/
theorem queryPrometheusInstant_result_type
    (fetch : String → String → GoTime → Except String ResponseData)
    (unmarshalVector : RawMessage → Except String Vector)
    (unmarshalTime : RawMessage → Except String Int)
    (unmarshalValue : RawMessage → Except String Float64)
    (seeds : Nat → Nat) (addr query : String) (t : GoTime) (m : ResponseData)
    (hm : fetch addr query t = .ok m) :
    (m.ResultType ≠ "vector" → m.ResultType ≠ "scalar" →
      ∃ err, queryPrometheusInstant fetch unmarshalVector unmarshalTime unmarshalValue
        seeds addr query t = .error err) ∧
    (m.ResultType = "vector" →
      ((∃ err, queryPrometheusInstant fetch unmarshalVector unmarshalTime unmarshalValue
          seeds addr query t = .error err) ↔
        ∃ err, unmarshalVector m.Result = .error err)) ∧
    (m.ResultType = "scalar" →
      ((∃ err, queryPrometheusInstant fetch unmarshalVector unmarshalTime unmarshalValue
          seeds addr query t = .error err) ↔
        ∃ err, convertScalarJSONToVector unmarshalTime unmarshalValue m.Result =
          .error err)) := by
  refine ⟨?_, ?_, ?_⟩
  · intro hv hs
    refine ⟨"unknown response type: " ++ m.ResultType, ?_⟩
    simp [queryPrometheusInstant, hm, ValueTypeVector, ValueTypeScalar, hv, hs]
  · intro hv
    simp only [queryPrometheusInstant, hm, ValueTypeVector, hv, if_true]
    cases unmarshalVector m.Result with
    | error err => simp
    | ok vectorResult => cases h : toPromVector seeds vectorResult <;> simp [h]
  · intro hs
    have hv : ¬ m.ResultType = "vector" := by rw [hs]; decide
    simp only [queryPrometheusInstant, hm, ValueTypeVector, ValueTypeScalar, hv, hs,
      if_true, if_false]
    cases convertScalarJSONToVector unmarshalTime unmarshalValue m.Result with
    | error err => simp
    | ok vectorResult => cases h : toPromVector seeds vectorResult <;> simp [h]

/-- Witness of C11: an envelope of result type `matrix`, and one without a result type,
are rejected although the payload would decode as a vector. -/
theorem queryPrometheusInstant_result_type_witness :
    (∃ err, queryPrometheusInstant
      (fun _ _ _ => Except.ok ⟨"matrix", some (JSON.array [])⟩)
      (fun _ => Except.ok []) (fun _ => Except.ok 0) (fun _ => Except.ok ⟨0⟩)
      (fun _ => 0) "q:10902" "up" ⟨0, 0⟩ = InstantResult.error err) ∧
    (∃ err, queryPrometheusInstant
      (fun _ _ _ => Except.ok ⟨"", some (JSON.array [])⟩)
      (fun _ => Except.ok []) (fun _ => Except.ok 0) (fun _ => Except.ok ⟨0⟩)
      (fun _ => 0) "q:10902" "up" ⟨0, 0⟩ = InstantResult.error err) :=
  ⟨(queryPrometheusInstant_result_type
      (fun _ _ _ => Except.ok ⟨"matrix", some (JSON.array [])⟩)
      (fun _ => Except.ok []) (fun _ => Except.ok 0) (fun _ => Except.ok ⟨0⟩)
      (fun _ => 0) "q:10902" "up" ⟨0, 0⟩ ⟨"matrix", some (JSON.array [])⟩ rfl).1
      (by decide) (by decide),
   (queryPrometheusInstant_result_type
      (fun _ _ _ => Except.ok ⟨"", some (JSON.array [])⟩)
      (fun _ => Except.ok []) (fun _ => Except.ok 0) (fun _ => Except.ok ⟨0⟩)
      (fun _ => 0) "q:10902" "up" ⟨0, 0⟩ ⟨"", some (JSON.array [])⟩ rfl).1
      (by decide) (by decide)⟩

/-- The samples of a decoded result without nil element: when the envelope was fetched and
its result decoded into a vector whose elements are the samples `samples`, none of them a
nil pointer (as a `vector`, or as a `scalar` through `convertScalarJSONToVector`),
`queryPrometheusInstant` returns a vector with one sample for each decoded sample, in the
same order, with the same timestamp and value, whose label set is sorted by label name
and holds exactly the name/value pairs of the decoded metric. -/
theorem queryPrometheusInstant_samples
    (fetch : String → String → GoTime → Except String ResponseData)
    (unmarshalVector : RawMessage → Except String Vector)
    (unmarshalTime : RawMessage → Except String Int)
    (unmarshalValue : RawMessage → Except String Float64)
    (seeds : Nat → Nat) (addr query : String) (t : GoTime) (m : ResponseData)
    (samples : List Sample) (hm : fetch addr query t = .ok m)
    (hdec : (m.ResultType = "vector" ∧ unmarshalVector m.Result = .ok (samples.map some)) ∨
      (m.ResultType = "scalar" ∧
        convertScalarJSONToVector unmarshalTime unmarshalValue m.Result =
          .ok (samples.map some))) :
    ∃ vec, queryPrometheusInstant fetch unmarshalVector unmarshalTime unmarshalValue
        seeds addr query t = .ok vec ∧
      List.Forall₂
        (fun (s : PromSample) (e : Sample) =>
          s.T = e.Timestamp ∧ s.V = e.Value ∧
          List.Sorted (fun a b : Label => a.Name.data ≤ b.Name.data) s.Metric ∧
          s.Metric.Perm
            (e.Metric.map (fun kv => ({ Name := kv.1, Value := kv.2 } : Label))))
        vec samples := by
  obtain ⟨vec, hvec, hall⟩ := toPromVector_samples seeds samples
  refine ⟨vec, ?_, hall⟩
  rcases hdec with ⟨hv, hd⟩ | ⟨hs, hd⟩
  · simp [queryPrometheusInstant, hm, ValueTypeVector, hv, hd, hvec]
  · have hv : ¬ m.ResultType = "vector" := by rw [hs]; decide
    simp [queryPrometheusInstant, hm, ValueTypeVector, ValueTypeScalar, hv, hs, hd, hvec]

/-- C12 (the code diverges from the claim): a peer answers with the result type `vector`
and the result `[null]`, which decodes without error into a vector whose one element is
a nil pointer; the conversion loop of `queryPrometheusInstant` reads `e.Metric` of that
element and stops with a run-time fault, so no vector is returned.  The same happens for
every decoded vector that holds a nil element. -/
theorem queryPrometheusInstant_faults_on_nil_sample :
    queryPrometheusInstant
      (fun _ _ _ => Except.ok ⟨"vector", some (JSON.array [JSON.null])⟩)
      (fun r => match r with
        | some (JSON.array [JSON.null]) => Except.ok [none]
        | _ => Except.error "not the response of this example")
      (fun _ => Except.error "not a time") (fun _ => Except.error "not a value")
      (fun _ => 0) "q:10902" "up" ⟨0, 0⟩ = InstantResult.fault ∧
    ∀ (fetch : String → String → GoTime → Except String ResponseData)
      (unmarshalVector : RawMessage → Except String Vector)
      (unmarshalTime : RawMessage → Except String Int)
      (unmarshalValue : RawMessage → Except String Float64)
      (seeds : Nat → Nat) (addr query : String) (t : GoTime) (m : ResponseData)
      (vectorResult : Vector),
      fetch addr query t = .ok m → m.ResultType = "vector" →
      unmarshalVector m.Result = .ok vectorResult → none ∈ vectorResult →
      queryPrometheusInstant fetch unmarshalVector unmarshalTime unmarshalValue
        seeds addr query t = InstantResult.fault := by
  have hgen : ∀ (fetch : String → String → GoTime → Except String ResponseData)
      (unmarshalVector : RawMessage → Except String Vector)
      (unmarshalTime : RawMessage → Except String Int)
      (unmarshalValue : RawMessage → Except String Float64)
      (seeds : Nat → Nat) (addr query : String) (t : GoTime) (m : ResponseData)
      (vectorResult : Vector),
      fetch addr query t = .ok m → m.ResultType = "vector" →
      unmarshalVector m.Result = .ok vectorResult → none ∈ vectorResult →
      queryPrometheusInstant fetch unmarshalVector unmarshalTime unmarshalValue
        seeds addr query t = InstantResult.fault := by
    intro fetch unmarshalVector unmarshalTime unmarshalValue seeds addr query t m
      vectorResult hm hv hd hnil
    have hf : toPromVector seeds vectorResult = none :=
      toPromVectorFrom_nil_sample seeds vectorResult hnil 0 []
    simp [queryPrometheusInstant, hm, ValueTypeVector, hv, hd, hf]
  exact ⟨hgen _ _ _ _ _ _ _ _ ⟨"vector", some (JSON.array [JSON.null])⟩ [none] rfl rfl
    rfl (by simp), hgen⟩

/-! ## The candidate addresses of the query function -/

theorem idLess_false_iff (a b : String) : idLess b a = false ↔ a.data ≤ b.data := by
  simp [idLess]

theorem sortIds_sorted (ids : List String) :
    List.Sorted (fun a b : String => a.data ≤ b.data) (sortIds ids) := by
  haveI : IsTotal String (fun a b => idLess b a = false) :=
    ⟨fun a b => by
      rw [idLess_false_iff, idLess_false_iff]
      exact le_total _ _⟩
  haveI : IsTrans String (fun a b => idLess b a = false) :=
    ⟨fun a b c hab hbc => by
      rw [idLess_false_iff] at *
      exact le_trans hab hbc⟩
  have h := List.sorted_insertionSort (fun a b : String => idLess b a = false) ids
  exact List.Pairwise.imp (fun {a b} hab => (idLess_false_iff a b).mp hab) h

theorem sortIds_perm (ids : List String) : (sortIds ids).Perm ids :=
  List.perm_insertionSort _ ids

namespace GoMap

theorem lookup_of_mem {V : Type} (m : GoMap V) (hk : m.keys.Nodup) (k : String) (v : V)
    (h : (k, v) ∈ m) : m.lookup k = some v := by
  induction m with
  | nil => simp at h
  | cons e rest ih =>
    obtain ⟨k', v'⟩ := e
    simp only [keys, List.map_cons, List.nodup_cons, List.mem_map, not_exists, not_and] at hk
    rcases List.mem_cons.mp h with h' | h'
    · injection h' with h1 h2
      subst h1; subst h2
      simp [lookup]
    · have hne : ¬ k' = k := by
        intro heq
        exact hk.1 (k, v) h' heq.symm
      simp only [lookup, hne, if_false]
      exact ih hk.2 h'

end GoMap

theorem queryFnAddrs_eq (seedIds : Nat) (peers : GoMap PeerState) (dnsAddrs : List String) :
    queryFnAddrs seedIds peers dnsAddrs =
      (sortIds ((pickOrder seedIds peers).map Prod.fst)).map
        (fun id => ((peers.lookup id).getD default).QueryAPIAddr) ++ dnsAddrs := by
  simp only [queryFnAddrs, foldl_append_singleton, List.nil_append, GoMap.range]

/-- C15: for every gossip peer map (its identifiers pairwise distinct, as the keys of a
map are) and every list of DNS-resolved addresses, the candidate list of `queryFn` is the
query addresses of the gossip peers, taken in ascending lexicographic order of the peer
identifiers, followed by the DNS-resolved addresses in the order of the provider;
whatever order the range over the peer map takes. -/
theorem queryFnAddrs_sorted_gossip_then_dns (seedIds : Nat) (peers : GoMap PeerState)
    (dnsAddrs : List String) (hk : peers.keys.Nodup) :
    ∃ sorted : List (String × PeerState),
      sorted.Perm peers ∧
      List.Sorted (fun a b : String => a.data ≤ b.data) (sorted.map Prod.fst) ∧
      queryFnAddrs seedIds peers dnsAddrs =
        sorted.map (fun e => e.2.QueryAPIAddr) ++ dnsAddrs := by
  have hperm : (sortIds ((pickOrder seedIds peers).map Prod.fst)).Perm (peers.map Prod.fst) :=
    (sortIds_perm _).trans ((pickOrder_perm seedIds peers).map _)
  have hlook : ∀ e ∈ peers, (e.1, (peers.lookup e.1).getD default) = e := by
    intro e he
    rw [GoMap.lookup_of_mem peers hk e.1 e.2 he]
    rfl
  refine ⟨(sortIds ((pickOrder seedIds peers).map Prod.fst)).map
    (fun id => (id, (peers.lookup id).getD default)), ?_, ?_, ?_⟩
  · have h1 := hperm.map (fun id => (id, (peers.lookup id).getD default))
    have h2 : List.map (fun id => (id, (peers.lookup id).getD default))
        (peers.map Prod.fst) = peers := by
      rw [List.map_map]
      conv_rhs => rw [← List.map_id peers]
      apply List.map_congr_left
      intro e he
      exact hlook e he
    rw [h2] at h1
    exact h1
  · rw [List.map_map]
    have : (Prod.fst ∘ fun id : String => (id, (peers.lookup id).getD default)) = id := rfl
    rw [this, List.map_id]
    exact sortIds_sorted _
  · rw [queryFnAddrs_eq, List.map_map]
    rfl

/-- Witness of C15: two gossip peers listed against the order of their identifiers, and
one DNS-resolved address. -/
theorem queryFnAddrs_sorted_gossip_then_dns_witness :
    (GoMap.keys [("peer-b", (⟨"qb:10902", ""⟩ : PeerState)), ("peer-a", ⟨"qa:10902", ""⟩)]).Nodup ∧
    queryFnAddrs 0 [("peer-b", ⟨"qb:10902", ""⟩), ("peer-a", ⟨"qa:10902", ""⟩)] ["d:10902"] =
      ["qa:10902", "qb:10902", "d:10902"] ∧
    ∃ sorted : List (String × PeerState),
      sorted.Perm [("peer-b", ⟨"qb:10902", ""⟩), ("peer-a", ⟨"qa:10902", ""⟩)] ∧
      List.Sorted (fun a b : String => a.data ≤ b.data) (sorted.map Prod.fst) ∧
      queryFnAddrs 0 [("peer-b", ⟨"qb:10902", ""⟩), ("peer-a", ⟨"qa:10902", ""⟩)] ["d:10902"] =
        sorted.map (fun e => e.2.QueryAPIAddr) ++ ["d:10902"] :=
  ⟨by decide, by decide,
   queryFnAddrs_sorted_gossip_then_dns 0
     [("peer-b", ⟨"qb:10902", ""⟩), ("peer-a", ⟨"qa:10902", ""⟩)] ["d:10902"] (by decide)⟩

/-- C20: without gossip query peers and without DNS-resolved addresses `queryFn` issues no
instant query and returns the error "no query peer reachable"; the duplicate counter is
left as it was. -/
theorem queryFn_no_peers (seedIds seedDedup seedPerm counter : Nat)
    (instant : String → Except String PromVector) :
    queryFn seedIds seedDedup seedPerm counter [] [] instant =
      (⟨QueryResult.failure "no query peer reachable", []⟩, counter) := by
  have hnil : ∀ (α : Type) (seed : Nat), pickOrder seed ([] : List α) = [] := by
    intro α seed
    simp [pickOrder, List.permutations']
  simp [queryFn, queryFnAddrs, removeDuplicateQueryAddrs, randPerm, GoMap.range, hnil,
    sortIds, queryLoop]

/-! ## Store discovery of the query node -/

theorem gossipSpecStep_fold (l : List (String × PeerState)) (init : List StoreSpec) :
    l.foldl gossipSpecStep init =
      init ++ (l.filter (fun e => decide (e.2.StoreAPIAddr ≠ ""))).map
        (fun e => StoreSpec.gossipSpec e.1 e.2.StoreAPIAddr) := by
  induction l generalizing init with
  | nil => simp
  | cons e rest ih =>
    rw [List.foldl_cons, ih]
    by_cases h : e.2.StoreAPIAddr = ""
    · simp [gossipSpecStep, h]
    · simp [gossipSpecStep, h]

theorem storeSpecs_candidates (seedPeers seedDedup counter : Nat) (peers : GoMap PeerState)
    (dnsAddrs : List String) :
    storeSpecs seedPeers seedDedup counter peers dnsAddrs =
      removeDuplicateStoreSpecs seedDedup counter
        (((pickOrder seedPeers peers).filter (fun e => decide (e.2.StoreAPIAddr ≠ ""))).map
          (fun e => StoreSpec.gossipSpec e.1 e.2.StoreAPIAddr) ++
          dnsAddrs.map StoreSpec.grpcStoreSpec) := by
  simp only [storeSpecs, gossipSpecStep_fold, foldl_append_singleton, List.nil_append,
    GoMap.range]

theorem storeSpecs_result_addr_mem (seed counter : Nat) (specs : List StoreSpec) (a : String) :
    a ∈ (removeDuplicateStoreSpecs seed counter specs).1.map StoreSpec.Addr ↔
      a ∈ specs.map StoreSpec.Addr := by
  have h := fold_dedup_inv dedupStoreStep StoreSpec.Addr id dedupStoreStep_eq specs
    (([] : GoMap StoreSpec), counter) (by simp [GoMap.keys])
  rw [(storeSpecs_result_perm seed counter specs).mem_iff, h.2.1 a]
  simp [GoMap.keys]

theorem storeSpecs_gossip_origin (seedPeers seedDedup counter : Nat)
    (peers : GoMap PeerState) (dnsAddrs : List String) (id addr : String)
    (h : StoreSpec.gossipSpec id addr ∈
      (storeSpecs seedPeers seedDedup counter peers dnsAddrs).1) :
    addr ≠ "" ∧ ∃ ps, (id, ps) ∈ peers ∧ ps.StoreAPIAddr = addr := by
  rw [storeSpecs_candidates] at h
  have h2 := storeSpecs_result_subset seedDedup counter _ h
  rw [List.mem_append] at h2
  rcases h2 with h2 | h2
  · rw [List.mem_map] at h2
    obtain ⟨e, he, heq⟩ := h2
    rw [List.mem_filter] at he
    injection heq with h1 h2'
    have hmem : e ∈ peers := (pickOrder_perm seedPeers peers).mem_iff.mp he.1
    have hne : e.2.StoreAPIAddr ≠ "" := by simpa using he.2
    refine ⟨h2' ▸ hne, e.2, ?_, h2'⟩
    rw [← h1]
    exact hmem
  · rw [List.mem_map] at h2
    obtain ⟨a, _, heq⟩ := h2
    cases heq

/-- C16: for every gossip peer map (its identifiers pairwise distinct, as the keys of a
map are) the spec list of the store set holds no gossip spec of a peer that advertises an
empty store address; every gossip spec in it carries the non-empty store address of its
peer; and for every peer advertising a non-empty store address `a` it holds a spec with
address `a`. -/
theorem storeSpecs_gossip_peers (seedPeers seedDedup counter : Nat)
    (peers : GoMap PeerState) (dnsAddrs : List String) (hk : peers.keys.Nodup) :
    (∀ id ps, (id, ps) ∈ peers → ps.StoreAPIAddr = "" →
      ∀ addr, StoreSpec.gossipSpec id addr ∉
        (storeSpecs seedPeers seedDedup counter peers dnsAddrs).1) ∧
    (∀ id addr, StoreSpec.gossipSpec id addr ∈
        (storeSpecs seedPeers seedDedup counter peers dnsAddrs).1 →
      addr ≠ "" ∧ ∃ ps, (id, ps) ∈ peers ∧ ps.StoreAPIAddr = addr) ∧
    (∀ id ps, (id, ps) ∈ peers → ps.StoreAPIAddr ≠ "" →
      ∃ s, s ∈ (storeSpecs seedPeers seedDedup counter peers dnsAddrs).1 ∧
        s.Addr = ps.StoreAPIAddr) := by
  refine ⟨?_, ?_, ?_⟩
  · intro id ps hmem hempty addr hin
    obtain ⟨hne, ps', hmem', haddr⟩ :=
      storeSpecs_gossip_origin seedPeers seedDedup counter peers dnsAddrs id addr hin
    have h1 := GoMap.lookup_of_mem peers hk id ps hmem
    have h2 := GoMap.lookup_of_mem peers hk id ps' hmem'
    rw [h1] at h2
    injection h2 with h2
    subst h2
    exact hne (haddr ▸ hempty)
  · intro id addr hin
    exact storeSpecs_gossip_origin seedPeers seedDedup counter peers dnsAddrs id addr hin
  · intro id ps hmem hne
    have hin : ps.StoreAPIAddr ∈
        ((storeSpecs seedPeers seedDedup counter peers dnsAddrs).1).map StoreSpec.Addr := by
      rw [storeSpecs_candidates, storeSpecs_result_addr_mem]
      rw [List.mem_map]
      refine ⟨StoreSpec.gossipSpec id ps.StoreAPIAddr, ?_, rfl⟩
      rw [List.mem_append]
      left
      rw [List.mem_map]
      refine ⟨(id, ps), ?_, rfl⟩
      rw [List.mem_filter]
      exact ⟨(pickOrder_perm seedPeers peers).mem_iff.mpr hmem, by simpa using hne⟩
    rw [List.mem_map] at hin
    obtain ⟨s, hs, hsa⟩ := hin
    exact ⟨s, hs, hsa⟩

/-- Witness of C16: three store peers, the second advertising no address, and one
DNS-resolved address. -/
theorem storeSpecs_gossip_peers_witness :
    (GoMap.keys [("p1", (⟨"", "s1:10901"⟩ : PeerState)), ("p2", ⟨"", ""⟩),
      ("p3", ⟨"", "s3:10901"⟩)]).Nodup ∧
    (storeSpecs 0 0 0 [("p1", ⟨"", "s1:10901"⟩), ("p2", ⟨"", ""⟩), ("p3", ⟨"", "s3:10901"⟩)]
      ["d:10901"]).1 =
      [StoreSpec.gossipSpec "p1" "s1:10901", StoreSpec.gossipSpec "p3" "s3:10901",
        StoreSpec.grpcStoreSpec "d:10901"] ∧
    (∀ addr, StoreSpec.gossipSpec "p2" addr ∉
      (storeSpecs 0 0 0 [("p1", ⟨"", "s1:10901"⟩), ("p2", ⟨"", ""⟩), ("p3", ⟨"", "s3:10901"⟩)]
        ["d:10901"]).1) :=
  ⟨by decide, by decide,
   (storeSpecs_gossip_peers 0 0 0
      [("p1", ⟨"", "s1:10901"⟩), ("p2", ⟨"", ""⟩), ("p3", ⟨"", "s3:10901"⟩)] ["d:10901"]
      (by decide)).1 "p2" ⟨"", ""⟩ (by decide) rfl⟩

/-! ## The alertmanager set -/

theorem splitPlus_dns (name : String) : splitPlus ("dns+" ++ name) = ["dns", name] := by
  have h : ("dns+" ++ name).data = 'd' :: 'n' :: 's' :: '+' :: name.data := by
    rw [String.data_append]
    rfl
  simp only [splitPlus, h]
  simp [List.dropWhile, List.takeWhile]

theorem splitPlus_dnssrv (name : String) :
    splitPlus ("dnssrv+" ++ name) = ["dnssrv", name] := by
  have h : ("dnssrv+" ++ name).data =
      'd' :: 'n' :: 's' :: 's' :: 'r' :: 'v' :: '+' :: name.data := by
    rw [String.data_append]
    rfl
  simp only [splitPlus, h]
  simp [List.dropWhile, List.takeWhile]

theorem splitPlus_untagged (addr : String) (h : '+' ∉ addr.data) : splitPlus addr = [addr] := by
  have hd : addr.data.dropWhile (fun c => c != '+') = [] := by
    rw [List.dropWhile_eq_nil_iff]
    intro c hc
    have : c ≠ '+' := fun heq => h (heq ▸ hc)
    simpa using this
  simp only [splitPlus, hd]

theorem updateLoop_cons_ok (parseURL : String → Except String URL)
    (splitHostPortFails : String → Bool)
    (resolve : String → String → Except String (List String)) (addr : String)
    (rest : List String) (result urls : List URL) (lookups made : List (String × String))
    (h : updateAddr parseURL splitHostPortFails resolve addr = ⟨.ok urls, made⟩) :
    updateLoop parseURL splitHostPortFails resolve (addr :: rest) result lookups =
      updateLoop parseURL splitHostPortFails resolve rest (result ++ urls)
        (lookups ++ made) := by
  simp only [updateLoop, h]

theorem updateLoop_cons_error (parseURL : String → Except String URL)
    (splitHostPortFails : String → Bool)
    (resolve : String → String → Except String (List String)) (addr : String)
    (rest : List String) (result : List URL) (lookups made : List (String × String))
    (err : String)
    (h : updateAddr parseURL splitHostPortFails resolve addr = ⟨.error err, made⟩) :
    updateLoop parseURL splitHostPortFails resolve (addr :: rest) result lookups =
      ⟨.error err, lookups ++ made⟩ := by
  simp only [updateLoop, h]

theorem updateLoop_lookups_prefix (parseURL : String → Except String URL)
    (splitHostPortFails : String → Bool)
    (resolve : String → String → Except String (List String)) (addrs : List String)
    (result : List URL) (lookups : List (String × String)) :
    ∃ tail, (updateLoop parseURL splitHostPortFails resolve addrs result lookups).lookups =
      lookups ++ tail := by
  induction addrs generalizing result lookups with
  | nil => exact ⟨[], by simp [updateLoop]⟩
  | cons addr rest ih =>
    rcases hr : updateAddr parseURL splitHostPortFails resolve addr with ⟨outcome, made⟩
    cases outcome with
    | error err =>
      rw [updateLoop_cons_error _ _ _ _ _ _ _ _ _ hr]
      exact ⟨made, rfl⟩
    | ok urls =>
      rw [updateLoop_cons_ok _ _ _ _ _ _ _ _ _ hr]
      obtain ⟨tail, ht⟩ := ih (result ++ urls) (lookups ++ made)
      exact ⟨made ++ tail, by rw [ht, List.append_assoc]⟩

theorem updateLoop_lookups_cons (parseURL : String → Except String URL)
    (splitHostPortFails : String → Bool)
    (resolve : String → String → Except String (List String)) (addr : String)
    (rest : List String) (result : List URL) (lookups : List (String × String)) :
    ∃ tail, (updateLoop parseURL splitHostPortFails resolve (addr :: rest) result
        lookups).lookups =
      lookups ++ (updateAddr parseURL splitHostPortFails resolve addr).lookups ++ tail := by
  rcases hr : updateAddr parseURL splitHostPortFails resolve addr with ⟨outcome, made⟩
  cases outcome with
  | error err =>
    rw [updateLoop_cons_error _ _ _ _ _ _ _ _ _ hr]
    exact ⟨[], by simp⟩
  | ok urls =>
    rw [updateLoop_cons_ok _ _ _ _ _ _ _ _ _ hr]
    exact updateLoop_lookups_prefix _ _ _ rest (result ++ urls) (lookups ++ made)

theorem updateAddr_dns_lookups (parseURL : String → Except String URL)
    (splitHostPortFails : String → Bool)
    (resolve : String → String → Except String (List String)) (name : String) (u : URL)
    (hu : parseURL name = .ok u) :
    (updateAddr parseURL splitHostPortFails resolve ("dns+" ++ name)).lookups =
      [(if splitHostPortFails u.Host then u.Host ++ ":9093" else u.Host, "dns")] := by
  have hport : toString defaultAlertmanagerPort = "9093" := by decide
  have hne : ¬ ("dns" = "") := by decide
  simp only [updateAddr, splitPlus_dns, List.length_cons, List.length_nil, if_true,
    List.getD_cons_succ, List.getD_cons_zero, hu, dnsA, hport, ne_eq, hne, not_false_eq_true]
  cases hs : splitHostPortFails u.Host <;> cases resolve _ "dns" <;> simp [String.append_assoc]

theorem updateAddr_dnssrv_lookups (parseURL : String → Except String URL)
    (splitHostPortFails : String → Bool)
    (resolve : String → String → Except String (List String)) (name : String) (u : URL)
    (hu : parseURL name = .ok u) :
    (updateAddr parseURL splitHostPortFails resolve ("dnssrv+" ++ name)).lookups =
      [(u.Host, "dnssrv")] := by
  have hne : ¬ ("dnssrv" = "") := by decide
  have hne2 : ¬ ("dnssrv" = "dns") := by decide
  simp only [updateAddr, splitPlus_dnssrv, List.length_cons, List.length_nil, if_true,
    List.getD_cons_succ, List.getD_cons_zero, hu, dnsA, ne_eq, hne, hne2, not_false_eq_true,
    if_false]
  cases resolve u.Host "dnssrv" <;> simp

theorem updateAddr_untagged (parseURL : String → Except String URL)
    (splitHostPortFails : String → Bool)
    (resolve : String → String → Except String (List String)) (addr : String) (u : URL)
    (hplus : '+' ∉ addr.data) (hu : parseURL addr = .ok u) :
    updateAddr parseURL splitHostPortFails resolve addr =
      ⟨.ok [({ Scheme := u.Scheme, Host := u.Host, Path := u.Path, User := u.User
               RawQuery := "", Fragment := "" } : URL)], []⟩ := by
  simp [updateAddr, splitPlus_untagged addr hplus, hu]

/-- C13: when the loop of `alertmanagerSet.update` reaches an address `dns+name` whose
name parses as a URL, the next resolver call is made with the host of that URL followed
by `:9093` if `net.SplitHostPort` rejects the host (it has no port), and with the host
unchanged if `net.SplitHostPort` accepts it; for an address `dnssrv+name` the next
resolver call is made with the host unchanged. -/
theorem update_resolver_host (parseURL : String → Except String URL)
    (splitHostPortFails : String → Bool)
    (resolve : String → String → Except String (List String)) (name : String) (u : URL)
    (rest : List String) (result : List URL) (lookups : List (String × String))
    (hu : parseURL name = .ok u) :
    (splitHostPortFails u.Host = true →
      ∃ tail, (updateLoop parseURL splitHostPortFails resolve (("dns+" ++ name) :: rest)
        result lookups).lookups = lookups ++ [(u.Host ++ ":9093", "dns")] ++ tail) ∧
    (splitHostPortFails u.Host = false →
      ∃ tail, (updateLoop parseURL splitHostPortFails resolve (("dns+" ++ name) :: rest)
        result lookups).lookups = lookups ++ [(u.Host, "dns")] ++ tail) ∧
    (∃ tail, (updateLoop parseURL splitHostPortFails resolve (("dnssrv+" ++ name) :: rest)
        result lookups).lookups = lookups ++ [(u.Host, "dnssrv")] ++ tail) := by
  have hdns := updateLoop_lookups_cons parseURL splitHostPortFails resolve ("dns+" ++ name)
    rest result lookups
  have hsrv := updateLoop_lookups_cons parseURL splitHostPortFails resolve
    ("dnssrv+" ++ name) rest result lookups
  rw [updateAddr_dns_lookups _ _ _ name u hu] at hdns
  rw [updateAddr_dnssrv_lookups _ _ _ name u hu] at hsrv
  refine ⟨?_, ?_, hsrv⟩
  · intro hs
    simpa [hs] using hdns
  · intro hs
    simpa [hs] using hdns

/-- Witness of C13: `dns+http://am.example` is resolved as `am.example:9093`,
`dns+http://am.example:8080` as `am.example:8080`. -/
theorem update_resolver_host_witness :
    (AlertmanagerSet.update
      (fun s => if s = "http://am.example" then Except.ok ⟨"http", "am.example", "", none, "", ""⟩
        else if s = "http://am.example:8080" then
          Except.ok ⟨"http", "am.example:8080", "", none, "", ""⟩
        else Except.error "invalid URL")
      (fun host => decide (host = "am.example"))
      (fun _ _ => Except.ok ["10.0.0.1:9093"])
      ⟨["dns+http://am.example", "dns+http://am.example:8080"], []⟩).lookups =
      [("am.example:9093", "dns"), ("am.example:8080", "dns")] ∧
    ∃ tail, (updateLoop
      (fun s => if s = "http://am.example" then Except.ok ⟨"http", "am.example", "", none, "", ""⟩
        else if s = "http://am.example:8080" then
          Except.ok ⟨"http", "am.example:8080", "", none, "", ""⟩
        else Except.error "invalid URL")
      (fun host => decide (host = "am.example"))
      (fun _ _ => Except.ok ["10.0.0.1:9093"])
      (("dns+" ++ "http://am.example") :: ["dns+http://am.example:8080"]) [] []).lookups =
        [] ++ [("am.example" ++ ":9093", "dns")] ++ tail :=
  ⟨by decide,
   (update_resolver_host
      (fun s => if s = "http://am.example" then Except.ok ⟨"http", "am.example", "", none, "", ""⟩
        else if s = "http://am.example:8080" then
          Except.ok ⟨"http", "am.example:8080", "", none, "", ""⟩
        else Except.error "invalid URL")
      (fun host => decide (host = "am.example"))
      (fun _ _ => Except.ok ["10.0.0.1:9093"])
      "http://am.example" ⟨"http", "am.example", "", none, "", ""⟩
      ["dns+http://am.example:8080"] [] [] (by simp)).1 (by decide)⟩

/-- C14 (the code diverges from the claim): `http://am:9093/a+b` is a URL that is
prefixed neither with `dns+` nor with `dnssrv+`, which `url.Parse` accepts with the path
`/a+b`; yet `update` splits it at its `+`, parses `b`, asks the resolver for the empty
host with the lookup type `http://am:9093/a`, and (the resolver knowing no such type)
returns an error and publishes nothing, where the help of the flag promises that the URL
is used with its path as the prefix of the API path. -/
theorem update_untagged_url_with_plus :
    (fun s => if s = "http://am:9093/a+b" then
        (Except.ok ⟨"http", "am:9093", "/a+b", none, "", ""⟩ : Except String URL)
      else if s = "b" then Except.ok ⟨"", "", "b", none, "", ""⟩
      else Except.error "invalid URL") "http://am:9093/a+b" =
      Except.ok ⟨"http", "am:9093", "/a+b", none, "", ""⟩ ∧
    ¬ ("dns+".data <+: "http://am:9093/a+b".data) ∧
    ¬ ("dnssrv+".data <+: "http://am:9093/a+b".data) ∧
    (AlertmanagerSet.update
      (fun s => if s = "http://am:9093/a+b" then
          Except.ok ⟨"http", "am:9093", "/a+b", none, "", ""⟩
        else if s = "b" then Except.ok ⟨"", "", "b", none, "", ""⟩
        else Except.error "invalid URL")
      (fun _ => true)
      (fun host qtype => if qtype = "dns" ∨ qtype = "dnssrv" then Except.ok [host]
        else Except.error "invalid lookup scheme")
      ⟨["http://am:9093/a+b"], []⟩).lookups = [("", "http://am:9093/a")] ∧
    (AlertmanagerSet.update
      (fun s => if s = "http://am:9093/a+b" then
          Except.ok ⟨"http", "am:9093", "/a+b", none, "", ""⟩
        else if s = "b" then Except.ok ⟨"", "", "b", none, "", ""⟩
        else Except.error "invalid URL")
      (fun _ => true)
      (fun host qtype => if qtype = "dns" ∨ qtype = "dnssrv" then Except.ok [host]
        else Except.error "invalid lookup scheme")
      ⟨["http://am:9093/a+b"], []⟩).state.get = [] ∧
    (AlertmanagerSet.update
      (fun s => if s = "http://am:9093/a+b" then
          Except.ok ⟨"http", "am:9093", "/a+b", none, "", ""⟩
        else if s = "b" then Except.ok ⟨"", "", "b", none, "", ""⟩
        else Except.error "invalid URL")
      (fun _ => true)
      (fun host qtype => if qtype = "dns" ∨ qtype = "dnssrv" then Except.ok [host]
        else Except.error "invalid lookup scheme")
      ⟨["http://am:9093/a+b"], []⟩).err = some "alertmanager resolve: invalid lookup scheme" := by
  refine ⟨by simp, by decide, by decide, by decide, by decide, by decide⟩

/-- Addresses without a `+`: for every address that holds no `+` and parses as a URL,
`update` makes no resolver call for it and appends exactly one URL for it, with the
scheme, host, path and user of the parsed URL; a set configured with that address alone
publishes exactly that URL and returns no error. -/
theorem update_untagged_literal (parseURL : String → Except String URL)
    (splitHostPortFails : String → Bool)
    (resolve : String → String → Except String (List String)) (addr : String) (u : URL)
    (rest : List String) (result current : List URL) (lookups : List (String × String))
    (hplus : '+' ∉ addr.data) (hu : parseURL addr = .ok u) :
    updateLoop parseURL splitHostPortFails resolve (addr :: rest) result lookups =
      updateLoop parseURL splitHostPortFails resolve rest
        (result ++ [({ Scheme := u.Scheme, Host := u.Host, Path := u.Path, User := u.User
                       RawQuery := "", Fragment := "" } : URL)]) lookups ∧
    (AlertmanagerSet.update parseURL splitHostPortFails resolve ⟨[addr], current⟩).lookups =
      [] ∧
    (AlertmanagerSet.update parseURL splitHostPortFails resolve ⟨[addr], current⟩).state.get =
      [({ Scheme := u.Scheme, Host := u.Host, Path := u.Path, User := u.User
          RawQuery := "", Fragment := "" } : URL)] ∧
    (AlertmanagerSet.update parseURL splitHostPortFails resolve ⟨[addr], current⟩).err =
      none := by
  have h := updateAddr_untagged parseURL splitHostPortFails resolve addr u hplus hu
  have hloop : ∀ (rest : List String) (result : List URL) (lookups : List (String × String)),
      updateLoop parseURL splitHostPortFails resolve (addr :: rest) result lookups =
        updateLoop parseURL splitHostPortFails resolve rest
          (result ++ [({ Scheme := u.Scheme, Host := u.Host, Path := u.Path, User := u.User
                         RawQuery := "", Fragment := "" } : URL)]) lookups := by
    intro rest result lookups
    rw [updateLoop_cons_ok _ _ _ _ _ _ _ _ _ h, List.append_nil]
  have hrun : updateLoop parseURL splitHostPortFails resolve [addr] [] [] =
      ⟨.ok [({ Scheme := u.Scheme, Host := u.Host, Path := u.Path, User := u.User
               RawQuery := "", Fragment := "" } : URL)], []⟩ := by
    rw [hloop]
    rfl
  refine ⟨hloop rest result lookups, ?_, ?_, ?_⟩ <;>
    simp only [AlertmanagerSet.update, AlertmanagerSet.get, hrun]

/-- An address without a `+`: the literal `http://user@am.example:9093/prefix?x=1` is
published with its scheme, host, path and user, and without its query. -/
theorem update_untagged_literal_witness :
    '+' ∉ "http://user@am.example:9093/prefix?x=1".data ∧
    (AlertmanagerSet.update
      (fun s => if s = "http://user@am.example:9093/prefix?x=1" then
          Except.ok ⟨"http", "am.example:9093", "/prefix", some "user", "x=1", ""⟩
        else Except.error "invalid URL")
      (fun _ => false) (fun _ _ => Except.error "no resolver")
      ⟨["http://user@am.example:9093/prefix?x=1"], []⟩).state.get =
      [⟨"http", "am.example:9093", "/prefix", some "user", "", ""⟩] :=
  ⟨by decide,
   (update_untagged_literal
      (fun s => if s = "http://user@am.example:9093/prefix?x=1" then
          Except.ok ⟨"http", "am.example:9093", "/prefix", some "user", "x=1", ""⟩
        else Except.error "invalid URL")
      (fun _ => false) (fun _ _ => Except.error "no resolver")
      "http://user@am.example:9093/prefix?x=1"
      ⟨"http", "am.example:9093", "/prefix", some "user", "x=1", ""⟩ [] [] [] []
      (by decide) (by simp)).2.2.1⟩

/-! ## The reload task -/

theorem expandRuleFiles_fold (glob : String → Except String (List String))
    (ruleFiles init : List String) :
    ruleFiles.foldl
      (fun files pat =>
        match glob pat with
        | .error _ => files
        | .ok fs => files ++ fs) init =
      init ++ ruleFiles.flatMap (fun pat =>
        match glob pat with
        | .error _ => []
        | .ok fs => fs) := by
  induction ruleFiles generalizing init with
  | nil => simp
  | cons pat rest ih =>
    rw [List.foldl_cons, ih, List.flatMap_cons]
    cases glob pat <;> simp

theorem expandRuleFiles_eq (glob : String → Except String (List String))
    (ruleFiles : List String) :
    expandRuleFiles glob ruleFiles =
      ruleFiles.flatMap (fun pat =>
        match glob pat with
        | .error _ => []
        | .ok fs => fs) := by
  unfold expandRuleFiles
  rw [expandRuleFiles_fold, List.nil_append]

theorem reloadCycle_updates (ruleFiles : List String) (env : ReloadEnv) (st : RuleNode) :
    (reloadCycle ruleFiles env st).updates =
      st.updates ++ [expandRuleFiles env.glob ruleFiles] := by
  unfold reloadCycle
  cases h : env.load (expandRuleFiles env.glob ruleFiles) <;> simp only [h]

theorem GaugeVec.set_of_not_mem (vec : GaugeVec) (k : String × String) (v : Nat)
    (h : k ∉ vec.map Prod.fst) : vec.set k v = vec ++ [(k, v)] := by
  induction vec with
  | nil => rfl
  | cons e rest ih =>
    obtain ⟨k', v'⟩ := e
    simp only [List.map_cons, List.mem_cons, not_or] at h
    have hne : ¬ k' = k := fun heq => h.1 heq.symm
    simp only [GaugeVec.set, hne, if_false, List.cons_append, ih h.2]

theorem rulesLoaded_fold (groups : List RuleGroup) (init : GaugeVec)
    (hk : (groups.map (fun g => (g.File, g.Name))).Nodup)
    (hd : ∀ g ∈ groups, (g.File, g.Name) ∉ init.map Prod.fst) :
    groups.foldl (fun vec group => vec.set (group.File, group.Name) group.Rules.length) init =
      init ++ groups.map (fun g => ((g.File, g.Name), g.Rules.length)) := by
  induction groups generalizing init with
  | nil => simp
  | cons g rest ih =>
    rw [List.map_cons, List.nodup_cons] at hk
    rw [List.foldl_cons, GaugeVec.set_of_not_mem init _ _ (hd g (List.mem_cons_self _ _))]
    rw [ih _ hk.2, List.map_cons, List.append_assoc]
    · rfl
    · intro g' hg'
      rw [List.map_append, List.mem_append, not_or]
      refine ⟨hd g' (List.mem_cons_of_mem _ hg'), ?_⟩
      simp only [List.map_cons, List.map_nil, List.mem_singleton]
      intro heq
      apply hk.1
      rw [← heq]
      exact List.mem_map_of_mem (fun g => (g.File, g.Name)) hg'

/-- C17: in a reload cycle whose load fails, the gauge `configSuccess` is set to 0, the
gauges `configSuccessTime` and `rulesLoaded` and the installed groups stay as they
were, and the task does not return: it goes on with the events that follow, and with
none following it is still running.  In a cycle whose load succeeds with groups of
pairwise distinct (file, name), `configSuccess` is 1 and `rulesLoaded` holds exactly one
child per installed group, in their order, with the number of rules of the group. -/
theorem reload_gauges (ruleFiles : List String) (env : ReloadEnv) (st : RuleNode)
    (rest : List TaskEvent) :
    (∀ err, env.load (expandRuleFiles env.glob ruleFiles) = .error err →
      (reloadCycle ruleFiles env st).configSuccess = 0 ∧
      (reloadCycle ruleFiles env st).configSuccessTime = st.configSuccessTime ∧
      (reloadCycle ruleFiles env st).rulesLoaded = st.rulesLoaded ∧
      (reloadCycle ruleFiles env st).groups = st.groups ∧
      reloadTask ruleFiles (TaskEvent.reload env :: rest) st =
        reloadTask ruleFiles rest (reloadCycle ruleFiles env st) ∧
      (reloadTask ruleFiles [TaskEvent.reload env] st).1 = none) ∧
    (∀ groups, env.load (expandRuleFiles env.glob ruleFiles) = .ok groups →
      (groups.map (fun g => (g.File, g.Name))).Nodup →
      (reloadCycle ruleFiles env st).configSuccess = 1 ∧
      (reloadCycle ruleFiles env st).groups = groups ∧
      (reloadCycle ruleFiles env st).rulesLoaded =
        groups.map (fun g => ((g.File, g.Name), g.Rules.length))) := by
  refine ⟨?_, ?_⟩
  · intro err herr
    simp [reloadCycle, herr, reloadTask]
  · intro groups hok hk
    have hfold := rulesLoaded_fold groups [] hk (by simp)
    rw [List.nil_append] at hfold
    simp [reloadCycle, hok, hfold]

/-- Witness of C17: a successful reload installing two groups, followed by a reload whose
load fails. -/
theorem reload_gauges_witness :
    (reloadTask ["rules/*.yaml"]
      [TaskEvent.reload ⟨fun _ => Except.ok ["rules/a.yaml"],
          fun _ => Except.ok [⟨"rules/a.yaml", "g1", ["r1", "r2"]⟩, ⟨"rules/a.yaml", "g2", ["r3"]⟩],
          100⟩,
        TaskEvent.reload ⟨fun _ => Except.ok ["rules/a.yaml"],
          fun _ => Except.error "parse error", 200⟩]
      ⟨0, 0, [], [], []⟩) =
      (none,
        ⟨0, 100, [(("rules/a.yaml", "g1"), 2), (("rules/a.yaml", "g2"), 1)],
          [⟨"rules/a.yaml", "g1", ["r1", "r2"]⟩, ⟨"rules/a.yaml", "g2", ["r3"]⟩],
          [["rules/a.yaml"], ["rules/a.yaml"]]⟩) ∧
    (reloadCycle ["rules/*.yaml"]
      ⟨fun _ => Except.ok ["rules/a.yaml"], fun _ => Except.error "parse error", 200⟩
      ⟨1, 100, [(("rules/a.yaml", "g1"), 2)], [⟨"rules/a.yaml", "g1", ["r1", "r2"]⟩],
        []⟩).rulesLoaded = [(("rules/a.yaml", "g1"), 2)] :=
  ⟨by decide,
   ((reload_gauges ["rules/*.yaml"]
      ⟨fun _ => Except.ok ["rules/a.yaml"], fun _ => Except.error "parse error", 200⟩
      ⟨1, 100, [(("rules/a.yaml", "g1"), 2)], [⟨"rules/a.yaml", "g1", ["r1", "r2"]⟩], []⟩
      []).1 "parse error" rfl).2.2.1⟩

/-- C18: in every reload cycle `mgr.Update` is called exactly once, with the
concatenation, in pattern order, of the matches of every pattern whose glob did not
fail; a failing pattern contributes nothing and does not stop the cycle.  When every
pattern matches no file, the manager is updated with the empty file list, and the groups
it loads from that list are installed. -/
theorem reload_file_list (ruleFiles : List String) (env : ReloadEnv) (st : RuleNode) :
    (reloadCycle ruleFiles env st).updates =
      st.updates ++ [ruleFiles.flatMap (fun pat =>
        match env.glob pat with
        | .error _ => []
        | .ok fs => fs)] ∧
    ((∀ pat, pat ∈ ruleFiles → env.glob pat = .ok []) →
      (reloadCycle ruleFiles env st).updates = st.updates ++ [[]] ∧
      ∀ groups, env.load [] = .ok groups → (reloadCycle ruleFiles env st).groups = groups) := by
  have hfiles := expandRuleFiles_eq env.glob ruleFiles
  refine ⟨by rw [reloadCycle_updates, hfiles], ?_⟩
  intro hall
  have hempty : expandRuleFiles env.glob ruleFiles = [] := by
    rw [hfiles, List.flatMap_eq_nil_iff]
    intro pat hpat
    rw [hall pat hpat]
  refine ⟨by rw [reloadCycle_updates, hempty], ?_⟩
  intro groups hok
  simp only [reloadCycle, hempty, hok]

/-- Witness of C18: three patterns, the second one malformed; then a file system on which
no pattern matches, which empties the rule set. -/
theorem reload_file_list_witness :
    (reloadCycle ["a/*.yaml", "[", "b/*.yaml"]
      ⟨fun pat => if pat = "[" then Except.error "syntax error in pattern"
          else Except.ok [pat ++ "1", pat ++ "2"],
        fun _ => Except.ok [], 100⟩
      ⟨0, 0, [], [], []⟩).updates =
      [["a/*.yaml1", "a/*.yaml2", "b/*.yaml1", "b/*.yaml2"]] ∧
    (reloadCycle ["a/*.yaml", "b/*.yaml"]
      ⟨fun _ => Except.ok [], fun _ => Except.ok [], 200⟩
      ⟨1, 100, [(("a/x.yaml", "g"), 1)], [⟨"a/x.yaml", "g", ["r"]⟩], [["a/x.yaml"]]⟩).groups =
      [] :=
  ⟨by decide,
   ((reload_file_list ["a/*.yaml", "b/*.yaml"]
      ⟨fun _ => Except.ok [], fun _ => Except.ok [], 200⟩
      ⟨1, 100, [(("a/x.yaml", "g"), 1)], [⟨"a/x.yaml", "g", ["r"]⟩], [["a/x.yaml"]]⟩).2
      (fun _ _ => rfl)).2 [] rfl⟩

/-! ## The channel of reload requests -/

theorem ReloadChan.step_buffered_le (c : ReloadChan) (e : ReloadEvent) (h : c.buffered ≤ 1) :
    (c.step e).buffered ≤ 1 := by
  cases e <;> simp only [ReloadChan.step] <;> split <;> (try split) <;> simp_all

theorem ReloadChan.run_buffered_le (c : ReloadChan) (events : List ReloadEvent)
    (h : c.buffered ≤ 1) : (c.run events).buffered ≤ 1 := by
  induction events generalizing c with
  | nil => exact h
  | cons e rest ih => exact ih (c.step e) (ReloadChan.step_buffered_le c e h)

theorem ReloadChan.run_signals_only (c : ReloadChan) (events : List ReloadEvent)
    (h : c.buffered ≤ 1) (hb : c.blocked = 0) (hs : ReloadEvent.httpReload ∉ events) :
    (c.run events).pending ≤ 1 := by
  induction events generalizing c with
  | nil => simp [ReloadChan.run, ReloadChan.pending, hb, h]
  | cons e rest ih =>
    rw [List.mem_cons, not_or] at hs
    have hstep : (c.step e).buffered ≤ 1 ∧ (c.step e).blocked = 0 := by
      refine ⟨ReloadChan.step_buffered_le c e h, ?_⟩
      cases e
      · simp only [ReloadChan.step]; split <;> simp [hb]
      · exact absurd rfl hs.1
      · simp only [ReloadChan.step]; split <;> (try split) <;> simp_all
    exact ih (c.step e) hstep.1 hstep.2 hs.2

/-- C19 (the code diverges from the claim): the handler of the reload endpoint sends on
the channel `reload` with a plain, blocking send, so requests arriving while a request is
pending are queued as blocked senders, not absorbed.  With the initial request pending,
two HTTP triggers make three pending requests and three reload cycles; the same two
triggers as SIGHUP are absorbed (one cycle).  Arriving after the initial request was
received, two HTTP triggers cause two more cycles, two SIGHUP one more. -/
theorem reload_http_triggers_queue :
    (ReloadChan.initial.run [.httpReload, .httpReload]).pending = 3 ∧
    (ReloadChan.initial.run
      [.httpReload, .httpReload, .receive, .receive, .receive, .receive]).cycles = 3 ∧
    (ReloadChan.initial.run
      [.sighup, .sighup, .receive, .receive, .receive, .receive]).cycles = 1 ∧
    (ReloadChan.initial.run
      [.receive, .httpReload, .httpReload, .receive, .receive, .receive]).cycles = 3 ∧
    (ReloadChan.initial.run
      [.receive, .sighup, .sighup, .receive, .receive, .receive]).cycles = 2 := by
  refine ⟨by decide, by decide, by decide, by decide, by decide⟩

/-! ## The query function: requests per call -/

theorem queryLoop_contacted_length (instant : String → Except String PromVector)
    (addrs : List String) (perm : List Nat) :
    (queryLoop instant addrs perm).contacted.length ≤ 1 := by
  cases perm with
  | nil => simp [queryLoop]
  | cons i rest =>
    simp only [queryLoop]
    cases addrs.get? i with
    | none => simp
    | some addr => cases h : instant addr <;> simp [h]

/-- C21: for every candidate address list and every drawn permutation, one call of
`queryFn` issues the instant query to each index of the address list at most once (it
issues at most one instant query altogether). -/
theorem queryFn_contacts_each_index_once (seedIds seedDedup seedPerm counter : Nat)
    (peers : GoMap PeerState) (dnsAddrs : List String)
    (instant : String → Except String PromVector) :
    (∀ i, (queryFn seedIds seedDedup seedPerm counter peers dnsAddrs instant).1.contacted.count i
        ≤ 1) ∧
    (queryFn seedIds seedDedup seedPerm counter peers dnsAddrs instant).1.contacted.Nodup ∧
    (queryFn seedIds seedDedup seedPerm counter peers dnsAddrs instant).1.contacted.length
        ≤ 1 := by
  have hlen := queryLoop_contacted_length instant (queryFnAddrs seedIds peers dnsAddrs)
    (randPerm seedPerm (queryFnAddrs seedIds peers dnsAddrs).length)
  have hq : (queryFn seedIds seedDedup seedPerm counter peers dnsAddrs instant).1 =
      queryLoop instant (queryFnAddrs seedIds peers dnsAddrs)
        (randPerm seedPerm (queryFnAddrs seedIds peers dnsAddrs).length) := rfl
  rw [hq]
  refine ⟨fun i => le_trans (List.count_le_length _ _) hlen, ?_, hlen⟩
  generalize (queryLoop instant (queryFnAddrs seedIds peers dnsAddrs)
    (randPerm seedPerm (queryFnAddrs seedIds peers dnsAddrs).length)).contacted = l at hlen
  match l, hlen with
  | [], _ => exact List.nodup_nil
  | [a], _ => exact List.nodup_singleton a
  | _ :: _ :: _, h => simp at h

/-! ## The file-discovery update tasks -/

/-- C22 as stated fails: an update that is empty but not `nil` passes the check
`update == nil` and is handed to `fileSDCache.Update`; here the cache merges what it is
given, so its content stays, but the update operation was applied to it (and the query
node refreshed its store set). -/
theorem fileSD_empty_update_is_applied :
    (ruleFileSDTask (fun update cache => cache ++ update)
      [SDEvent.update (some [])]
      ⟨[some ⟨"file1", ["q:10902"]⟩], [], 0⟩).2.cacheUpdates = [[]] ∧
    (queryFileSDTask (fun update cache => cache ++ update)
      [SDEvent.update (some [])]
      ⟨[some ⟨"file1", ["s:10901"]⟩], [], 0⟩).2.cacheUpdates = [[]] ∧
    (queryFileSDTask (fun update cache => cache ++ update)
      [SDEvent.update (some [])]
      ⟨[some ⟨"file1", ["s:10901"]⟩], [], 0⟩).2.storeUpdates = 1 := by
  refine ⟨by decide, by decide, by decide⟩

/-- C22 (amended): a `nil` update leaves the state of the update task of the rule node
and of the query node exactly as it was: the cache is untouched, its update operation is
not called, the store set is not refreshed.  Every update that is not `nil`, the empty
one included, is handed to the update operation of the cache. -/
theorem fileSD_nil_update_is_skipped {C : Type} (cacheUpdate : TargetGroups → C → C)
    (rest : List SDEvent) (st : FileSD C) (update : TargetGroups) :
    ruleFileSDTask cacheUpdate (SDEvent.update none :: rest) st =
      ruleFileSDTask cacheUpdate rest st ∧
    queryFileSDTask cacheUpdate (SDEvent.update none :: rest) st =
      queryFileSDTask cacheUpdate rest st ∧
    ruleFileSDTask cacheUpdate [SDEvent.update none] st = (false, st) ∧
    queryFileSDTask cacheUpdate [SDEvent.update none] st = (false, st) ∧
    ruleFileSDTask cacheUpdate [SDEvent.update (some update)] st =
      (false, { st with cache := cacheUpdate update st.cache
                        cacheUpdates := st.cacheUpdates ++ [update] }) ∧
    queryFileSDTask cacheUpdate [SDEvent.update (some update)] st =
      (false, { cache := cacheUpdate update st.cache
                cacheUpdates := st.cacheUpdates ++ [update]
                storeUpdates := st.storeUpdates + 1 }) := by
  refine ⟨?_, ?_, ?_, ?_, ?_, ?_⟩ <;> simp [ruleFileSDTask, queryFileSDTask]

/-! ## The alertmanager set: publication -/

theorem updateLoop_all_ok (parseURL : String → Except String URL)
    (splitHostPortFails : String → Bool)
    (resolve : String → String → Except String (List String)) (addrs : List String)
    (result : List URL) (lookups : List (String × String))
    (h : ∀ addr, addr ∈ addrs →
      ∃ urls, (updateAddr parseURL splitHostPortFails resolve addr).outcome = .ok urls) :
    (updateLoop parseURL splitHostPortFails resolve addrs result lookups).outcome =
      .ok (result ++ addrs.flatMap (fun addr =>
        match (updateAddr parseURL splitHostPortFails resolve addr).outcome with
        | .ok urls => urls
        | .error _ => [])) := by
  induction addrs generalizing result lookups with
  | nil => simp [updateLoop]
  | cons addr rest ih =>
    obtain ⟨urls, hurls⟩ := h addr (List.mem_cons_self _ _)
    rcases hr : updateAddr parseURL splitHostPortFails resolve addr with ⟨outcome, made⟩
    rw [hr] at hurls
    simp only at hurls
    subst hurls
    rw [updateLoop_cons_ok _ _ _ _ _ _ _ _ _ hr,
      ih _ _ (fun a ha => h a (List.mem_cons_of_mem _ ha)), List.flatMap_cons, hr]
    simp

theorem updateLoop_some_error (parseURL : String → Except String URL)
    (splitHostPortFails : String → Bool)
    (resolve : String → String → Except String (List String)) (addrs : List String)
    (result : List URL) (lookups : List (String × String))
    (h : ∃ addr, addr ∈ addrs ∧
      ∃ e, (updateAddr parseURL splitHostPortFails resolve addr).outcome = .error e) :
    ∃ e, (updateLoop parseURL splitHostPortFails resolve addrs result lookups).outcome =
      .error e := by
  induction addrs generalizing result lookups with
  | nil =>
    obtain ⟨addr, hmem, _⟩ := h
    simp at hmem
  | cons addr rest ih =>
    rcases hr : updateAddr parseURL splitHostPortFails resolve addr with ⟨outcome, made⟩
    cases outcome with
    | error err =>
      rw [updateLoop_cons_error _ _ _ _ _ _ _ _ _ hr]
      exact ⟨err, rfl⟩
    | ok urls =>
      rw [updateLoop_cons_ok _ _ _ _ _ _ _ _ _ hr]
      apply ih
      obtain ⟨a, hmem, e, he⟩ := h
      rcases List.mem_cons.mp hmem with heq | hmem'
      · subst heq
        rw [hr] at he
        cases he
      · exact ⟨a, hmem', e, he⟩

theorem splitPlus_eq (addr : String) :
    splitPlus addr = if '+' ∈ addr.data then [addrQtype addr, addrName addr] else [addr] := by
  unfold splitPlus addrQtype addrName
  cases hd : addr.data.dropWhile (fun c => c != '+') with
  | nil =>
    have hno : '+' ∉ addr.data := by
      intro hmem
      have := List.dropWhile_eq_nil_iff.1 hd '+' hmem
      simp at this
    simp [hno]
  | cons c rest =>
    have hmem : '+' ∈ addr.data := by
      have hc : c ∈ addr.data :=
        (List.dropWhile_sublist _).subset (hd ▸ List.mem_cons_self c rest)
      have hhead := List.head_dropWhile_not (fun c => c != '+') addr.data
        (by rw [hd]; exact List.cons_ne_nil _ _)
      simp only [hd, List.head_cons, bne_iff_ne, ne_eq, Bool.not_eq_true,
        bne_eq_false_iff_eq] at hhead
      exact hhead ▸ hc
    simp [hmem]

theorem updateAddr_outcome (parseURL : String → Except String URL)
    (splitHostPortFails : String → Bool)
    (resolve : String → String → Except String (List String)) (addr : String) :
    (updateAddr parseURL splitHostPortFails resolve addr).outcome =
      match parseURL (addrName addr) with
      | .error err => .error ("parse URL " ++ addrName addr ++ ": " ++ err)
      | .ok u =>
        if addrQtype addr = "" then .ok [publishedURL u u.Host]
        else
          match resolve (resolverHost splitHostPortFails (addrQtype addr) u.Host)
              (addrQtype addr) with
          | .error err => .error ("alertmanager resolve: " ++ err)
          | .ok resolved => .ok (resolved.map (publishedURL u)) := by
  have hport : toString defaultAlertmanagerPort = "9093" := by decide
  have hname : (if (splitPlus addr).length = 2 then (splitPlus addr).getD 1 "" else addr) =
      addrName addr := by
    rw [splitPlus_eq]
    by_cases hp : '+' ∈ addr.data
    · simp [hp]
    · simp [hp, addrName]
  have hq : (if (splitPlus addr).length = 2 then (splitPlus addr).getD 0 "" else "") =
      addrQtype addr := by
    rw [splitPlus_eq]
    by_cases hp : '+' ∈ addr.data
    · simp [hp]
    · simp [hp, addrQtype]
  unfold updateAddr
  simp only [hname, hq]
  cases parseURL (addrName addr) with
  | error err => rfl
  | ok u =>
    simp only []
    by_cases hqe : addrQtype addr = ""
    · simp [hqe, publishedURL]
    · have hhost : (if addrQtype addr = dnsA then
            if splitHostPortFails u.Host = true then
              u.Host ++ ":" ++ toString defaultAlertmanagerPort
            else u.Host
          else u.Host) = resolverHost splitHostPortFails (addrQtype addr) u.Host := by
        unfold resolverHost
        rw [hport]
        by_cases hd : addrQtype addr = "dns" <;>
          cases hs : splitHostPortFails u.Host <;>
          simp [dnsA, hd, hs, String.append_assoc]
      simp only [ne_eq, hqe, not_false_eq_true, if_true, if_false, hhost]
      cases resolve (resolverHost splitHostPortFails (addrQtype addr) u.Host)
          (addrQtype addr) with
      | error err => rfl
      | ok resolved => rfl

/-- C29: `alertmanagerSet.update` publishes all or nothing.  If for some configured
address `url.Parse` rejects its name, or the resolver fails on the host of a tagged
address, `update` returns an error and the set, hence the list returned by `get`, is
exactly what it was before the call; whenever `update` returns an error the set is what it
was.  If every name parses as a URL and the resolver answers for every tagged address,
`update` returns no error and `get` returns, in address order, for an address without
lookup type the URL itself (scheme, host, path and user) and for a tagged address one URL
for each answer of the resolver, in the resolver's order, with the answer as host.  The
lookup type of `dns+name` is `dns`, that of `dnssrv+name` is `dnssrv`, both with the name
`name`; an address without `+` has no lookup type and is its own name. -/
theorem update_publishes_all_or_nothing (parseURL : String → Except String URL)
    (splitHostPortFails : String → Bool)
    (resolve : String → String → Except String (List String)) (s : AlertmanagerSet) :
    ((∃ addr, addr ∈ s.addrs ∧
        ((∃ e, parseURL (addrName addr) = .error e) ∨
          (∃ u e, parseURL (addrName addr) = .ok u ∧ addrQtype addr ≠ "" ∧
            resolve (resolverHost splitHostPortFails (addrQtype addr) u.Host)
              (addrQtype addr) = .error e))) →
      (∃ e, (s.update parseURL splitHostPortFails resolve).err = some e) ∧
      (s.update parseURL splitHostPortFails resolve).state = s ∧
      (s.update parseURL splitHostPortFails resolve).state.get = s.get) ∧
    ((∃ e, (s.update parseURL splitHostPortFails resolve).err = some e) →
      (s.update parseURL splitHostPortFails resolve).state = s) ∧
    (∀ (parsed : String → URL) (answers : String → List String),
      (∀ addr, addr ∈ s.addrs →
        parseURL (addrName addr) = .ok (parsed addr) ∧
        (addrQtype addr ≠ "" →
          resolve (resolverHost splitHostPortFails (addrQtype addr) (parsed addr).Host)
            (addrQtype addr) = .ok (answers addr))) →
      (s.update parseURL splitHostPortFails resolve).err = none ∧
      (s.update parseURL splitHostPortFails resolve).state.get =
        s.addrs.flatMap (fun addr =>
          if addrQtype addr = "" then
            [({ Scheme := (parsed addr).Scheme, Host := (parsed addr).Host
                Path := (parsed addr).Path, User := (parsed addr).User
                RawQuery := "", Fragment := "" } : URL)]
          else
            (answers addr).map (fun resolved =>
              ({ Scheme := (parsed addr).Scheme, Host := resolved
                 Path := (parsed addr).Path, User := (parsed addr).User
                 RawQuery := "", Fragment := "" } : URL)))) ∧
    (∀ name, addrQtype ("dns+" ++ name) = "dns" ∧ addrName ("dns+" ++ name) = name ∧
      addrQtype ("dnssrv+" ++ name) = "dnssrv" ∧ addrName ("dnssrv+" ++ name) = name) ∧
    (∀ addr, '+' ∉ addr.data → addrQtype addr = "" ∧ addrName addr = addr) := by
  refine ⟨?_, ?_, ?_, ?_, ?_⟩
  · rintro ⟨addr, hmem, hfail⟩
    have herr : ∃ e, (updateAddr parseURL splitHostPortFails resolve addr).outcome =
        .error e := by
      rw [updateAddr_outcome]
      rcases hfail with ⟨e, he⟩ | ⟨u, e, hu, hq, he⟩
      · rw [he]; exact ⟨_, rfl⟩
      · rw [hu]; simp only [hq, if_false, he]; exact ⟨_, rfl⟩
    obtain ⟨e, he⟩ := updateLoop_some_error parseURL splitHostPortFails resolve s.addrs [] []
      ⟨addr, hmem, herr⟩
    simp [AlertmanagerSet.update, he]
  · rintro ⟨e, he⟩
    cases hrun : (updateLoop parseURL splitHostPortFails resolve s.addrs [] []).outcome with
    | error err => simp [AlertmanagerSet.update, hrun]
    | ok result => simp [AlertmanagerSet.update, hrun] at he
  · intro parsed answers h
    have hout : ∀ addr, addr ∈ s.addrs →
        (updateAddr parseURL splitHostPortFails resolve addr).outcome =
          .ok (if addrQtype addr = "" then [publishedURL (parsed addr) (parsed addr).Host]
            else (answers addr).map (publishedURL (parsed addr))) := by
      intro addr hmem
      obtain ⟨hp, hr⟩ := h addr hmem
      rw [updateAddr_outcome, hp]
      by_cases hq : addrQtype addr = ""
      · simp [hq]
      · simp only [hq, if_false, hr hq]
    have hok := updateLoop_all_ok parseURL splitHostPortFails resolve s.addrs [] []
      (fun addr hmem => ⟨_, hout addr hmem⟩)
    have hflat : (s.addrs.flatMap (fun addr =>
          match (updateAddr parseURL splitHostPortFails resolve addr).outcome with
          | .ok urls => urls
          | .error _ => [])) =
        s.addrs.flatMap (fun addr =>
          if addrQtype addr = "" then [publishedURL (parsed addr) (parsed addr).Host]
          else (answers addr).map (publishedURL (parsed addr))) :=
      List.flatMap_congr (fun addr hmem => by rw [hout addr hmem])
    rw [hflat] at hok
    refine ⟨by simp [AlertmanagerSet.update, hok], ?_⟩
    simp only [AlertmanagerSet.update, hok, AlertmanagerSet.get, List.nil_append]
    rfl
  · intro name
    have h1 := splitPlus_eq ("dns+" ++ name)
    have h2 := splitPlus_eq ("dnssrv+" ++ name)
    rw [splitPlus_dns] at h1
    rw [splitPlus_dnssrv] at h2
    have m1 : '+' ∈ ("dns+" ++ name).data := by rw [String.data_append]; simp
    have m2 : '+' ∈ ("dnssrv+" ++ name).data := by rw [String.data_append]; simp
    rw [if_pos m1] at h1
    rw [if_pos m2] at h2
    simp only [List.cons.injEq, and_true] at h1 h2
    exact ⟨h1.1.symm, h1.2.symm, h2.1.symm, h2.2.symm⟩
  · intro addr hno
    simp [addrQtype, addrName, hno]

/-- Witness of C29: the name of the third address does not resolve, so the URL published
by an earlier update is still what `get` returns; with a resolver that answers, the three
addresses are published in address order, the answers of the resolver in its order. -/
theorem update_publishes_all_or_nothing_witness :
    (AlertmanagerSet.update
      (fun s => if s = "http://a:9093" then Except.ok ⟨"http", "a:9093", "", none, "", ""⟩
        else if s = "http://b/api" then Except.ok ⟨"http", "b", "/api", none, "", ""⟩
        else if s = "http://c" then Except.ok ⟨"http", "c", "", some "u", "", ""⟩
        else Except.error "invalid URL")
      (fun _ => true) (fun _ _ => Except.error "no such host")
      ⟨["http://a:9093", "dns+http://b/api", "dnssrv+http://c"],
        [⟨"http", "old:9093", "", none, "", ""⟩]⟩).state.get =
      [⟨"http", "old:9093", "", none, "", ""⟩] ∧
    (AlertmanagerSet.update
      (fun s => if s = "http://a:9093" then Except.ok ⟨"http", "a:9093", "", none, "", ""⟩
        else if s = "http://b/api" then Except.ok ⟨"http", "b", "/api", none, "", ""⟩
        else if s = "http://c" then Except.ok ⟨"http", "c", "", some "u", "", ""⟩
        else Except.error "invalid URL")
      (fun _ => true)
      (fun host qtype =>
        if host = "b:9093" ∧ qtype = "dns" then Except.ok ["10.0.0.2:9093", "10.0.0.1:9093"]
        else if host = "c" ∧ qtype = "dnssrv" then Except.ok ["10.0.1.1:9094"]
        else Except.error "no such host")
      ⟨["http://a:9093", "dns+http://b/api", "dnssrv+http://c"],
        [⟨"http", "old:9093", "", none, "", ""⟩]⟩).state.get =
      [⟨"http", "a:9093", "", none, "", ""⟩, ⟨"http", "10.0.0.2:9093", "/api", none, "", ""⟩,
        ⟨"http", "10.0.0.1:9093", "/api", none, "", ""⟩,
        ⟨"http", "10.0.1.1:9094", "", some "u", "", ""⟩] :=
  ⟨((update_publishes_all_or_nothing
      (fun s => if s = "http://a:9093" then Except.ok ⟨"http", "a:9093", "", none, "", ""⟩
        else if s = "http://b/api" then Except.ok ⟨"http", "b", "/api", none, "", ""⟩
        else if s = "http://c" then Except.ok ⟨"http", "c", "", some "u", "", ""⟩
        else Except.error "invalid URL")
      (fun _ => true) (fun _ _ => Except.error "no such host")
      ⟨["http://a:9093", "dns+http://b/api", "dnssrv+http://c"],
        [⟨"http", "old:9093", "", none, "", ""⟩]⟩).1
      ⟨"dnssrv+http://c", by decide,
        Or.inr ⟨⟨"http", "c", "", some "u", "", ""⟩, "no such host", by rfl, by decide,
          by rfl⟩⟩).2.2,
   by decide⟩

/-! ## Deduplication: which spec is kept -/

namespace GoMap

theorem lookup_set {V : Type} (m : GoMap V) (k : String) (v : V) (a : String) :
    (m.set k v).lookup a = if k = a then some v else m.lookup a := by
  induction m with
  | nil => simp [set, lookup]
  | cons e rest ih =>
    obtain ⟨k', v'⟩ := e
    by_cases hk : k' = k
    · subst hk
      by_cases ha : k' = a <;> simp [set, lookup, ha]
    · by_cases ha : k' = a
      · subst ha
        have hk2 : ¬ k = k' := fun h => hk h.symm
        simp [set, lookup, hk, hk2]
      · simp [set, lookup, hk, ha, ih]

theorem mem_of_lookup {V : Type} (m : GoMap V) (k : String) (v : V)
    (h : m.lookup k = some v) : (k, v) ∈ m := by
  induction m with
  | nil => simp [lookup] at h
  | cons e rest ih =>
    obtain ⟨k', v'⟩ := e
    by_cases hk : k' = k
    · subst hk
      simp only [lookup, if_true, Option.some.injEq] at h
      subst h
      exact List.mem_cons_self _ _
    · simp only [lookup, hk, if_false] at h
      exact List.mem_cons_of_mem _ (ih h)

end GoMap

theorem dedupStore_lookup_other (specs : List StoreSpec) (st : GoMap StoreSpec × Nat)
    (a : String) (h : ∀ t, t ∈ specs → t.Addr ≠ a) :
    (specs.foldl dedupStoreStep st).1.lookup a = st.1.lookup a := by
  induction specs generalizing st with
  | nil => rfl
  | cons t rest ih =>
    rw [List.foldl_cons, ih _ (fun u hu => h u (List.mem_cons_of_mem _ hu))]
    simp only [dedupStoreStep, GoMap.lookup_set, h t (List.mem_cons_self _ _), if_false]

theorem dedupStore_lookup_last (before after : List StoreSpec) (s : StoreSpec)
    (st : GoMap StoreSpec × Nat) (hlast : ∀ t, t ∈ after → t.Addr ≠ s.Addr) :
    ((before ++ s :: after).foldl dedupStoreStep st).1.lookup s.Addr = some s := by
  rw [List.foldl_append, List.foldl_cons, dedupStore_lookup_other after _ s.Addr hlast]
  simp [dedupStoreStep, GoMap.lookup_set]

theorem storeSpecs_result_mem_iff (seed counter : Nat) (specs : List StoreSpec)
    (t : StoreSpec) :
    t ∈ (removeDuplicateStoreSpecs seed counter specs).1 ↔
      (specs.foldl dedupStoreStep (([] : GoMap StoreSpec), counter)).1.lookup t.Addr =
        some t := by
  have hinv := fold_dedup_inv dedupStoreStep StoreSpec.Addr id dedupStoreStep_eq specs
    (([] : GoMap StoreSpec), counter) (by simp [GoMap.keys])
  simp only [removeDuplicateStoreSpecs, foldl_append_singleton, List.nil_append, GoMap.range,
    List.mem_map]
  constructor
  · rintro ⟨e, he, rfl⟩
    have hmem := (pickOrder_perm seed _).mem_iff.mp he
    have hb := storeSpecs_bindings counter specs e hmem
    rw [hb.2]
    exact GoMap.lookup_of_mem _ hinv.1 e.1 e.2 hmem
  · intro h
    exact ⟨(t.Addr, t), (pickOrder_perm seed _).mem_iff.mpr (GoMap.mem_of_lookup _ _ _ h), rfl⟩

theorem exists_last_occurrence (l : List String) (a : String) (h : a ∈ l) :
    ∃ l₁ l₂, l = l₁ ++ a :: l₂ ∧ a ∉ l₂ := by
  induction l with
  | nil => simp at h
  | cons b rest ih =>
    by_cases hr : a ∈ rest
    · obtain ⟨l₁, l₂, heq, hn⟩ := ih hr
      exact ⟨b :: l₁, l₂, by rw [heq, List.cons_append], hn⟩
    · rcases List.mem_cons.mp h with hab | hab
      · subst hab
        exact ⟨[], rest, rfl, hr⟩
      · exact absurd hab hr

/-- C30: when several specs of the input share an address, `removeDuplicateStoreSpecs`
keeps the one that occurs last: a spec `s` after which no spec has its address is in
the result, and it is the only spec of the result with that address.  Hence in store
discovery, where the DNS-resolved specs come after the gossip specs, every DNS-resolved
address is represented by its DNS spec and by no gossip spec. -/
theorem removeDuplicateStoreSpecs_keeps_last (seed seedPeers counter : Nat)
    (before after : List StoreSpec) (s : StoreSpec) (peers : GoMap PeerState)
    (dnsAddrs : List String) (a : String)
    (hlast : ∀ t, t ∈ after → t.Addr ≠ s.Addr) (ha : a ∈ dnsAddrs) :
    s ∈ (removeDuplicateStoreSpecs seed counter (before ++ s :: after)).1 ∧
    (∀ t, t ∈ (removeDuplicateStoreSpecs seed counter (before ++ s :: after)).1 →
      t.Addr = s.Addr → t = s) ∧
    StoreSpec.grpcStoreSpec a ∈ (storeSpecs seedPeers seed counter peers dnsAddrs).1 ∧
    (∀ id, StoreSpec.gossipSpec id a ∉
      (storeSpecs seedPeers seed counter peers dnsAddrs).1) := by
  have hkeep : ∀ (before after : List StoreSpec) (s : StoreSpec),
      (∀ t, t ∈ after → t.Addr ≠ s.Addr) →
      s ∈ (removeDuplicateStoreSpecs seed counter (before ++ s :: after)).1 ∧
      (∀ t, t ∈ (removeDuplicateStoreSpecs seed counter (before ++ s :: after)).1 →
        t.Addr = s.Addr → t = s) := by
    intro before after s hlast
    have hl := dedupStore_lookup_last before after s (([] : GoMap StoreSpec), counter) hlast
    refine ⟨(storeSpecs_result_mem_iff seed counter _ s).mpr hl, ?_⟩
    intro t ht haddr
    have h2 := (storeSpecs_result_mem_iff seed counter _ t).mp ht
    rw [haddr, hl] at h2
    injection h2 with h2
    exact h2.symm
  refine ⟨(hkeep before after s hlast).1, (hkeep before after s hlast).2, ?_⟩
  obtain ⟨d₁, d₂, hd, hn⟩ := exists_last_occurrence dnsAddrs a ha
  have hcand : storeSpecs seedPeers seed counter peers dnsAddrs =
      removeDuplicateStoreSpecs seed counter
        ((((pickOrder seedPeers peers).filter (fun e => decide (e.2.StoreAPIAddr ≠ ""))).map
            (fun e => StoreSpec.gossipSpec e.1 e.2.StoreAPIAddr) ++
          d₁.map StoreSpec.grpcStoreSpec) ++
          StoreSpec.grpcStoreSpec a :: d₂.map StoreSpec.grpcStoreSpec) := by
    rw [storeSpecs_candidates, hd]
    simp [List.append_assoc]
  have hpost : ∀ t, t ∈ d₂.map StoreSpec.grpcStoreSpec →
      t.Addr ≠ (StoreSpec.grpcStoreSpec a).Addr := by
    intro t ht
    rw [List.mem_map] at ht
    obtain ⟨b, hb, rfl⟩ := ht
    intro heq
    apply hn
    have : b = a := heq
    rw [← this]
    exact hb
  rw [hcand]
  have hk := hkeep
    (((pickOrder seedPeers peers).filter (fun e => decide (e.2.StoreAPIAddr ≠ ""))).map
        (fun e => StoreSpec.gossipSpec e.1 e.2.StoreAPIAddr) ++
      d₁.map StoreSpec.grpcStoreSpec)
    (d₂.map StoreSpec.grpcStoreSpec) (StoreSpec.grpcStoreSpec a) hpost
  refine ⟨hk.1, ?_⟩
  intro id hid
  have := hk.2 _ hid rfl
  cases this

/-- Witness of C30: the gossip peer `p1` and the DNS provider both give the address
`s:10901`; the DNS spec is kept. -/
theorem removeDuplicateStoreSpecs_keeps_last_witness :
    (removeDuplicateStoreSpecs 0 0
      ([] ++ StoreSpec.gossipSpec "p1" "s:10901" :: [StoreSpec.grpcStoreSpec "t:10901"])).1 =
      [StoreSpec.gossipSpec "p1" "s:10901", StoreSpec.grpcStoreSpec "t:10901"] ∧
    (storeSpecs 0 0 0 [("p1", ⟨"", "s:10901"⟩)] ["s:10901"]).1 =
      [StoreSpec.grpcStoreSpec "s:10901"] ∧
    StoreSpec.grpcStoreSpec "s:10901" ∈
      (storeSpecs 0 0 0 [("p1", ⟨"", "s:10901"⟩)] ["s:10901"]).1 :=
  ⟨by decide, by decide,
   (removeDuplicateStoreSpecs_keeps_last 0 0 0 [] [StoreSpec.grpcStoreSpec "t:10901"]
      (StoreSpec.gossipSpec "p1" "s:10901") [("p1", ⟨"", "s:10901"⟩)] ["s:10901"] "s:10901"
      (by decide) (by decide)).2.2.1⟩

end Thanos

namespace MetricsServer

open Thanos

/-! ## Maps of labels -/

theorem labelOf_set (m : GoMap String) (k v a : String) :
    labelOf (m.set k v) a = if k = a then v else labelOf m a := by
  unfold labelOf
  rw [GoMap.lookup_set]
  split <;> rfl

theorem contains_eq_isSome {V : Type} (m : GoMap V) (k : String) :
    m.contains k = (m.lookup k).isSome := by
  induction m with
  | nil => rfl
  | cons e rest ih =>
    obtain ⟨k', v⟩ := e
    by_cases h : k' = k
    · simp [GoMap.contains, GoMap.lookup, h]
    · have ih' : rest.any (fun e => decide (e.1 = k)) = (GoMap.lookup rest k).isSome := ih
      simp [GoMap.contains, GoMap.lookup, h, ih']

theorem contains_set {V : Type} (m : GoMap V) (k : String) (v : V) (a : String) :
    (m.set k v).contains a = (decide (k = a) || m.contains a) := by
  rw [contains_eq_isSome, contains_eq_isSome, GoMap.lookup_set]
  by_cases h : k = a <;> simp [h]

/-! ## Go string operations -/

theorem string_mk_data (s : String) : String.mk s.data = s := rfl

theorem dropWhile_ne_append (l r : List Char) (c : Char) (h : c ∉ l) :
    (l ++ c :: r).dropWhile (fun x => x != c) = c :: r := by
  induction l with
  | nil => simp [List.dropWhile]
  | cons a rest ih =>
    rw [List.mem_cons, not_or] at h
    have hne : (a != c) = true := by simpa using fun heq => h.1 heq.symm
    simp only [List.cons_append, List.dropWhile, hne]
    exact ih h.2

theorem takeWhile_ne_append (l r : List Char) (c : Char) (h : c ∉ l) :
    (l ++ c :: r).takeWhile (fun x => x != c) = l := by
  induction l with
  | nil => simp [List.takeWhile]
  | cons a rest ih =>
    rw [List.mem_cons, not_or] at h
    have hne : (a != c) = true := by simpa using fun heq => h.1 heq.symm
    simp only [List.cons_append, List.takeWhile, hne]
    exact congrArg (List.cons a) (ih h.2)

theorem stringsSplitN2_first (a b : String) (sep : Char) (h : sep ∉ a.data) :
    stringsSplitN2 (a ++ String.singleton sep ++ b) sep = [a, b] := by
  have hd : (a ++ String.singleton sep ++ b).data = a.data ++ sep :: b.data := by
    simp [String.data_append, String.singleton]
  simp only [stringsSplitN2, hd, dropWhile_ne_append _ _ _ h, takeWhile_ne_append _ _ _ h]

theorem stringsIndex_first (a b : String) (sep : Char) (h : sep ∉ a.data) :
    stringsIndex (a ++ String.singleton sep ++ b) sep = a.length := by
  have hd : (a ++ String.singleton sep ++ b).data = a.data ++ sep :: b.data := by
    simp [String.data_append, String.singleton]
  have hmem : sep ∈ a.data ++ sep :: b.data := by simp
  simp only [stringsIndex, hd, hmem, if_true, takeWhile_ne_append _ _ _ h]
  rfl

/-! ## The kubelet metrics source: classification -/

theorem legacyPodNames_unchanged (ns podName : String)
    (h : ns ≠ "" ∨ '/' ∉ podName.data) : legacyPodNames ns podName = (ns, podName) := by
  unfold legacyPodNames
  rcases h with h | h
  · simp [h]
  · simp [h]

theorem legacyContainerName_unchanged (cName name : String)
    (h : cName ≠ "" ∨ '.' ∉ name.data) : legacyContainerName cName name = some cName := by
  unfold legacyContainerName
  rcases h with h | h
  · simp [h]
  · by_cases hc : cName = ""
    · simp [hc, stringsIndex, h]
    · simp [hc]

theorem decodeMetrics_of_classify (tables : MetricTables) (this : KubeletMetricsSource)
    (c : ContainerInfo) (stat : ContainerStats) (more : List ContainerStats)
    (key : String) (ms : MetricSet) (hs : c.Stats = stat :: more)
    (hc : classify this c (initialMetricSet this c stat) = some (key, ms)) :
    ∃ ms', decodeMetrics tables this c = .returned key (some ms') ∧ ms'.Labels = ms.Labels := by
  simp only [decodeMetrics, hs, hc]
  exact ⟨_, rfl, rfl⟩

theorem decodeMetrics_of_fault (tables : MetricTables) (this : KubeletMetricsSource)
    (c : ContainerInfo) (stat : ContainerStats) (more : List ContainerStats)
    (hs : c.Stats = stat :: more)
    (hc : classify this c (initialMetricSet this c stat) = none) :
    decodeMetrics tables this c = .fault := by
  simp only [decodeMetrics, hs, hc]

theorem classify_node (this : KubeletMetricsSource) (c : ContainerInfo) (m : MetricSet)
    (h : c.Name = "/") :
    classify this c m = some (NodeKey this.nodename,
      { m with Labels := m.Labels.set LabelMetricSetType MetricSetTypeNode }) := by
  simp [classify, isNode, h]

theorem classify_system (this : KubeletMetricsSource) (c : ContainerInfo) (m : MetricSet)
    (h : c.Name ≠ "/")
    (hns : labelOf c.Spec.Labels "io.kubernetes.pod.namespace" ≠ "" ∨
      '/' ∉ (labelOf c.Spec.Labels "io.kubernetes.pod.name").data)
    (hcn : labelOf c.Spec.Labels "io.kubernetes.container.name" ≠ "" ∨ '.' ∉ c.Name.data)
    (hmiss : labelOf c.Spec.Labels "io.kubernetes.container.name" = "" ∨
      labelOf c.Spec.Labels "io.kubernetes.pod.namespace" = "" ∨
      labelOf c.Spec.Labels "io.kubernetes.pod.name" = "") :
    classify this c m = some (handleSystemContainer this c m) := by
  have hn : isNode c = false := by simp [isNode, h]
  unfold classify
  rw [if_neg (by simp [hn])]
  simp only [kubernetesContainerLabel, kubernetesPodNamespaceLabel, kubernetesPodNameLabel,
    legacyPodNames_unchanged _ _ hns, legacyContainerName_unchanged _ _ hcn]
  rw [if_pos hmiss]

theorem classify_kubernetes (this : KubeletMetricsSource) (c : ContainerInfo)
    (m : MetricSet) (h : c.Name ≠ "/")
    (hns : labelOf c.Spec.Labels "io.kubernetes.pod.namespace" ≠ "" ∨
      '/' ∉ (labelOf c.Spec.Labels "io.kubernetes.pod.name").data)
    (hcn : labelOf c.Spec.Labels "io.kubernetes.container.name" ≠ "" ∨ '.' ∉ c.Name.data)
    (hc : labelOf c.Spec.Labels "io.kubernetes.container.name" ≠ "")
    (hn : labelOf c.Spec.Labels "io.kubernetes.pod.namespace" ≠ "")
    (hp : labelOf c.Spec.Labels "io.kubernetes.pod.name" ≠ "") :
    classify this c m = some (handleKubernetesContainer
      (labelOf c.Spec.Labels "io.kubernetes.container.name")
      (labelOf c.Spec.Labels "io.kubernetes.pod.namespace")
      (labelOf c.Spec.Labels "io.kubernetes.pod.name") c m) := by
  have hnode : isNode c = false := by simp [isNode, h]
  have hmiss : ¬ (labelOf c.Spec.Labels "io.kubernetes.container.name" = "" ∨
      labelOf c.Spec.Labels "io.kubernetes.pod.namespace" = "" ∨
      labelOf c.Spec.Labels "io.kubernetes.pod.name" = "") := by
    simp [hc, hn, hp]
  unfold classify
  rw [if_neg (by simp [hnode])]
  simp only [kubernetesContainerLabel, kubernetesPodNamespaceLabel, kubernetesPodNameLabel,
    legacyPodNames_unchanged _ _ hns, legacyContainerName_unchanged _ _ hcn]
  rw [if_neg hmiss]

/-- C23: for a container with at least one stat whose labels need no legacy fallback,
`decodeMetrics` returns a key and a metric set such that: the root container has the key
`NodeKey(nodename)`, that is `node:<nodename>`, and the type `node`; a container missing
one of the container-name, pod-namespace and pod-name labels has the key
`NodeContainerKey(nodename, name)` with its name stripped of a leading `/`, the type
`sys_container` and that stripped name as `container_name`; a container named `POD` has
the key `PodKey(ns, pod)` and the type `pod`; every other container has the key
`PodContainerKey(ns, pod, container)`, that is
`namespace:<ns>/pod:<pod>/container:<c>`, and the type `pod_container`. -/
theorem decodeMetrics_classification (tables : MetricTables) (this : KubeletMetricsSource)
    (c : ContainerInfo) (stat : ContainerStats) (more : List ContainerStats)
    (hs : c.Stats = stat :: more)
    (hns : labelOf c.Spec.Labels "io.kubernetes.pod.namespace" ≠ "" ∨
      '/' ∉ (labelOf c.Spec.Labels "io.kubernetes.pod.name").data)
    (hcn : labelOf c.Spec.Labels "io.kubernetes.container.name" ≠ "" ∨ '.' ∉ c.Name.data) :
    ∃ key ms, decodeMetrics tables this c = .returned key (some ms) ∧
      (c.Name = "/" →
        key = NodeKey this.nodename ∧ key = "node:" ++ this.nodename ∧
        labelOf ms.Labels "type" = "node") ∧
      (c.Name ≠ "/" →
        (labelOf c.Spec.Labels "io.kubernetes.container.name" = "" ∨
          labelOf c.Spec.Labels "io.kubernetes.pod.namespace" = "" ∨
          labelOf c.Spec.Labels "io.kubernetes.pod.name" = "") →
        key = NodeContainerKey this.nodename
          (if ("/".data).isPrefixOf c.Name.data then String.mk (c.Name.data.drop 1)
            else c.Name) ∧
        labelOf ms.Labels "type" = "sys_container" ∧
        labelOf ms.Labels "container_name" =
          (if ("/".data).isPrefixOf c.Name.data then String.mk (c.Name.data.drop 1)
            else c.Name)) ∧
      (c.Name ≠ "/" →
        labelOf c.Spec.Labels "io.kubernetes.container.name" = "POD" →
        labelOf c.Spec.Labels "io.kubernetes.pod.namespace" ≠ "" →
        labelOf c.Spec.Labels "io.kubernetes.pod.name" ≠ "" →
        key = PodKey (labelOf c.Spec.Labels "io.kubernetes.pod.namespace")
          (labelOf c.Spec.Labels "io.kubernetes.pod.name") ∧
        labelOf ms.Labels "type" = "pod") ∧
      (c.Name ≠ "/" →
        labelOf c.Spec.Labels "io.kubernetes.container.name" ≠ "" →
        labelOf c.Spec.Labels "io.kubernetes.container.name" ≠ "POD" →
        labelOf c.Spec.Labels "io.kubernetes.pod.namespace" ≠ "" →
        labelOf c.Spec.Labels "io.kubernetes.pod.name" ≠ "" →
        key = PodContainerKey (labelOf c.Spec.Labels "io.kubernetes.pod.namespace")
          (labelOf c.Spec.Labels "io.kubernetes.pod.name")
          (labelOf c.Spec.Labels "io.kubernetes.container.name") ∧
        key = "namespace:" ++ labelOf c.Spec.Labels "io.kubernetes.pod.namespace" ++
          "/pod:" ++ labelOf c.Spec.Labels "io.kubernetes.pod.name" ++
          "/container:" ++ labelOf c.Spec.Labels "io.kubernetes.container.name" ∧
        labelOf ms.Labels "type" = "pod_container") := by
  by_cases hroot : c.Name = "/"
  · obtain ⟨ms', hdec, hlab⟩ := decodeMetrics_of_classify tables this c stat more _ _ hs
      (classify_node this c (initialMetricSet this c stat) hroot)
    refine ⟨_, ms', hdec, ?_, ?_, ?_, ?_⟩
    · intro _
      refine ⟨rfl, rfl, ?_⟩
      rw [hlab]
      simp [labelOf_set, LabelMetricSetType, MetricSetTypeNode]
    · intro h; exact absurd hroot h
    · intro h; exact absurd hroot h
    · intro h; exact absurd hroot h
  · by_cases hmiss : labelOf c.Spec.Labels "io.kubernetes.container.name" = "" ∨
        labelOf c.Spec.Labels "io.kubernetes.pod.namespace" = "" ∨
        labelOf c.Spec.Labels "io.kubernetes.pod.name" = ""
    · obtain ⟨ms', hdec, hlab⟩ := decodeMetrics_of_classify tables this c stat more _ _ hs
        (by
          have h := classify_system this c (initialMetricSet this c stat) hroot hns hcn hmiss
          rw [h])
      refine ⟨_, ms', hdec, ?_, ?_, ?_, ?_⟩
      · intro h; exact absurd h hroot
      · intro _ _
        rw [hlab]
        refine ⟨rfl, ?_, ?_⟩ <;>
          simp [handleSystemContainer, labelOf_set, LabelMetricSetType,
            MetricSetTypeSystemContainer, LabelContainerName]
      · intro _ hpod hnsne hpodne
        rcases hmiss with h | h | h
        · rw [hpod] at h; exact absurd h (by decide)
        · exact absurd h hnsne
        · exact absurd h hpodne
      · intro _ hcne _ hnsne hpodne
        rcases hmiss with h | h | h
        · exact absurd h hcne
        · exact absurd h hnsne
        · exact absurd h hpodne
    · have hc : labelOf c.Spec.Labels "io.kubernetes.container.name" ≠ "" :=
        fun h => hmiss (Or.inl h)
      have hn : labelOf c.Spec.Labels "io.kubernetes.pod.namespace" ≠ "" :=
        fun h => hmiss (Or.inr (Or.inl h))
      have hp : labelOf c.Spec.Labels "io.kubernetes.pod.name" ≠ "" :=
        fun h => hmiss (Or.inr (Or.inr h))
      obtain ⟨ms', hdec, hlab⟩ := decodeMetrics_of_classify tables this c stat more _ _ hs
        (by
          have h := classify_kubernetes this c (initialMetricSet this c stat) hroot hns hcn
            hc hn hp
          rw [h])
      refine ⟨_, ms', hdec, ?_, ?_, ?_, ?_⟩
      · intro h; exact absurd h hroot
      · intro _ h; exact absurd h hmiss
      · intro _ hpod _ _
        rw [hlab]
        refine ⟨?_, ?_⟩ <;>
          simp [handleKubernetesContainer, hpod, infraContainerName, labelOf_set,
            LabelMetricSetType, MetricSetTypePod, LabelPodId, LabelPodName,
            LabelNamespaceName]
      · intro _ _ hnotpod _ _
        rw [hlab]
        refine ⟨?_, ?_, ?_⟩ <;>
          simp [handleKubernetesContainer, hnotpod, infraContainerName, labelOf_set,
            LabelMetricSetType, MetricSetTypePodContainer, LabelPodId, LabelPodName,
            LabelNamespaceName, LabelContainerName, LabelContainerBaseImage,
            PodContainerKey]

/-- Witness of C23: the container of `TestDecodeMetrics4`, with all three labels. -/
theorem decodeMetrics_classification_witness :
    (∃ key ms, decodeMetrics ⟨[], [], fun _ => ⟨0⟩⟩ ⟨"test", "test-hostname", ""⟩
      ⟨"testKubelet",
        ⟨⟨0, 0⟩, [("io.kubernetes.container.name", "testContainer"),
          ("io.kubernetes.pod.namespace", "testPodNS"),
          ("io.kubernetes.pod.name", "testPodName")], "", false, [], []⟩,
        [⟨⟨1, 0⟩, [], []⟩]⟩ = DecodeResult.returned key (some ms)) ∧
    decodeMetrics ⟨[], [], fun _ => ⟨0⟩⟩ ⟨"test", "test-hostname", ""⟩
      ⟨"testKubelet",
        ⟨⟨0, 0⟩, [("io.kubernetes.container.name", "testContainer"),
          ("io.kubernetes.pod.namespace", "testPodNS"),
          ("io.kubernetes.pod.name", "testPodName")], "", false, [], []⟩,
        [⟨⟨1, 0⟩, [], []⟩]⟩ =
      DecodeResult.returned "namespace:testPodNS/pod:testPodName/container:testContainer"
        (some ⟨⟨0, 0⟩, ⟨1, 0⟩, [],
          [("nodename", "test"), ("hostname", "test-hostname"), ("host_id", ""),
            ("type", "pod_container"), ("container_name", "testContainer"),
            ("container_base_image", ""), ("pod_id", ""), ("pod_name", "testPodName"),
            ("namespace_name", "testPodNS")], []⟩) :=
  ⟨(decodeMetrics_classification ⟨[], [], fun _ => ⟨0⟩⟩ ⟨"test", "test-hostname", ""⟩
      ⟨"testKubelet",
        ⟨⟨0, 0⟩, [("io.kubernetes.container.name", "testContainer"),
          ("io.kubernetes.pod.namespace", "testPodNS"),
          ("io.kubernetes.pod.name", "testPodName")], "", false, [], []⟩,
        [⟨⟨1, 0⟩, [], []⟩]⟩ ⟨⟨1, 0⟩, [], []⟩ [] rfl
      (Or.inl (by decide)) (Or.inl (by decide))).imp
      (fun _ h => h.imp (fun _ h' => h'.1)),
   by decide⟩

/-! ## The kubelet metrics source: the fallback for Kubernetes 1.0 -/

theorem legacyPodNames_split (a b : String) (ha : '/' ∉ a.data) :
    legacyPodNames "" (a ++ "/" ++ b) = (a, b) := by
  have hsplit := stringsSplitN2_first a b '/' ha
  have hsingle : String.singleton '/' = "/" := rfl
  rw [hsingle] at hsplit
  have hmem : '/' ∈ (a ++ "/" ++ b).data := by
    simp [String.data_append]
  simp [legacyPodNames, hmem, hsplit]

theorem legacyContainerName_k8s (x rest : String) (hx : '.' ∉ x.data) :
    legacyContainerName "" ("k8s_" ++ x ++ "." ++ rest) = some x := by
  have hpre : '.' ∉ ("k8s_" ++ x).data := by
    rw [String.data_append, List.mem_append, not_or]
    exact ⟨by decide, hx⟩
  have hidx := stringsIndex_first ("k8s_" ++ x) rest '.' hpre
  have hsingle : String.singleton '.' = "." := rfl
  rw [hsingle] at hidx
  have hlen : ("k8s_" ++ x).length = 4 + x.length := by
    rw [String.length_append]
    rfl
  have hdata : ("k8s_" ++ x ++ "." ++ rest).data =
      'k' :: '8' :: 's' :: '_' :: (x.data ++ '.' :: rest.data) := by
    simp [String.data_append]
  have hxlen : x.length = x.data.length := rfl
  have htotal : ("k8s_" ++ x ++ "." ++ rest).length = 4 + x.length + 1 + rest.length := by
    simp [String.length_append]
    rfl
  unfold legacyContainerName
  simp only [if_true, hidx, hlen]
  have hpos : ((4 + x.length : Nat) : Int) ≥ 0 := Int.ofNat_nonneg _
  rw [if_pos hpos]
  unfold goSlice
  have h4 : "k8s_".length = 4 := rfl
  rw [h4, Int.toNat_ofNat, htotal, if_pos ⟨by omega, by omega⟩, hdata]
  have htake : (('k' :: '8' :: 's' :: '_' :: (x.data ++ '.' :: rest.data)).take
      (4 + x.length)).drop 4 = x.data := by
    have : 4 + x.length = x.data.length + 4 := by rw [hxlen]; omega
    rw [this]
    simp [List.take_append_eq_append_take]
  rw [htake]

/-- C27: the fallback for Kubernetes 1.0 of `decodeMetrics`.  With an empty pod-namespace
label and a pod-name label `a/b` (split at its first `/`), the namespace is `a` and the
pod name is `b`; with an empty container-name label and a container name
`k8s_<x>.<rest>` (first `.` after `x`), the container name is `x`.  For a container with
at least one stat where both apply and `a`, `b`, `x` are not empty and `x` is not `POD`,
the key is `PodContainerKey(a, b, x)` and the type is `pod_container`. -/
theorem decodeMetrics_legacy_fallback (tables : MetricTables) (this : KubeletMetricsSource)
    (c : ContainerInfo) (stat : ContainerStats) (more : List ContainerStats)
    (a b x rest : String) (hs : c.Stats = stat :: more)
    (hns : labelOf c.Spec.Labels "io.kubernetes.pod.namespace" = "")
    (hpod : labelOf c.Spec.Labels "io.kubernetes.pod.name" = a ++ "/" ++ b)
    (ha : '/' ∉ a.data)
    (hcn : labelOf c.Spec.Labels "io.kubernetes.container.name" = "")
    (hname : c.Name = "k8s_" ++ x ++ "." ++ rest) (hx : '.' ∉ x.data) :
    legacyPodNames "" (a ++ "/" ++ b) = (a, b) ∧
    legacyContainerName "" ("k8s_" ++ x ++ "." ++ rest) = some x ∧
    (a ≠ "" → b ≠ "" → x ≠ "" → x ≠ "POD" →
      ∃ ms, decodeMetrics tables this c =
          .returned (PodContainerKey a b x) (some ms) ∧
        labelOf ms.Labels "type" = "pod_container" ∧
        labelOf ms.Labels "namespace_name" = a ∧
        labelOf ms.Labels "pod_name" = b ∧
        labelOf ms.Labels "container_name" = x) := by
  have hpods := legacyPodNames_split a b ha
  have hcont := legacyContainerName_k8s x rest hx
  refine ⟨hpods, hcont, ?_⟩
  intro hane hbne hxne hxpod
  have hroot : isNode c = false := by
    have : c.Name ≠ "/" := by
      intro h
      rw [hname] at h
      have hd := congrArg String.data h
      simp [String.data_append] at hd
    simp [isNode, this]
  have hmiss : ¬ (x = "" ∨ a = "" ∨ b = "") := by simp [hane, hbne, hxne]
  have hc : classify this c (initialMetricSet this c stat) =
      some (handleKubernetesContainer x a b c (initialMetricSet this c stat)) := by
    unfold classify
    rw [if_neg (by simp [hroot])]
    simp only [kubernetesContainerLabel, kubernetesPodNamespaceLabel, kubernetesPodNameLabel,
      hns, hpod, hcn, hname, hpods, hcont]
    rw [if_neg hmiss]
  obtain ⟨ms', hdec, hlab⟩ := decodeMetrics_of_classify tables this c stat more _ _ hs
    (by rw [hc])
  refine ⟨ms', ?_, ?_, ?_, ?_, ?_⟩
  · rw [hdec]
    simp [handleKubernetesContainer, hxpod, infraContainerName]
  all_goals
    rw [hlab]
    simp [handleKubernetesContainer, hxpod, infraContainerName, labelOf_set,
      LabelMetricSetType, MetricSetTypePodContainer, LabelPodId, LabelPodName,
      LabelNamespaceName, LabelContainerName, LabelContainerBaseImage]

/-- Witness of C27: the second half of `TestDecodeMetrics5`. -/
theorem decodeMetrics_legacy_fallback_witness :
    decodeMetrics ⟨[], [], fun _ => ⟨0⟩⟩ ⟨"test", "test-hostname", ""⟩
      ⟨"k8s_test.testkubelet",
        ⟨⟨0, 0⟩, [("io.kubernetes.container.name", ""),
          ("io.kubernetes.pod.name", "testnamespace/testPodName")], "", false, [], []⟩,
        [⟨⟨1, 0⟩, [], []⟩]⟩ =
      DecodeResult.returned "namespace:testnamespace/pod:testPodName/container:test"
        (some ⟨⟨0, 0⟩, ⟨1, 0⟩, [],
          [("nodename", "test"), ("hostname", "test-hostname"), ("host_id", ""),
            ("type", "pod_container"), ("container_name", "test"),
            ("container_base_image", ""), ("pod_id", ""), ("pod_name", "testPodName"),
            ("namespace_name", "testnamespace")], []⟩) ∧
    legacyPodNames "" ("testnamespace" ++ "/" ++ "testPodName") =
      ("testnamespace", "testPodName") ∧
    legacyContainerName "" ("k8s_" ++ "test" ++ "." ++ "testkubelet") = some "test" :=
  ⟨by decide,
   (decodeMetrics_legacy_fallback ⟨[], [], fun _ => ⟨0⟩⟩ ⟨"test", "test-hostname", ""⟩
      ⟨"k8s_test.testkubelet",
        ⟨⟨0, 0⟩, [("io.kubernetes.container.name", ""),
          ("io.kubernetes.pod.name", "testnamespace/testPodName")], "", false, [], []⟩,
        [⟨⟨1, 0⟩, [], []⟩]⟩ ⟨⟨1, 0⟩, [], []⟩ [] "testnamespace" "testPodName" "test"
      "testkubelet" rfl (by decide) (by decide) (by decide) (by decide) (by decide)
      (by decide)).1,
   (decodeMetrics_legacy_fallback ⟨[], [], fun _ => ⟨0⟩⟩ ⟨"test", "test-hostname", ""⟩
      ⟨"k8s_test.testkubelet",
        ⟨⟨0, 0⟩, [("io.kubernetes.container.name", ""),
          ("io.kubernetes.pod.name", "testnamespace/testPodName")], "", false, [], []⟩,
        [⟨⟨1, 0⟩, [], []⟩]⟩ ⟨⟨1, 0⟩, [], []⟩ [] "testnamespace" "testPodName" "test"
      "testkubelet" rfl (by decide) (by decide) (by decide) (by decide) (by decide)
      (by decide)).2.1⟩

/-! ## The kubelet metrics source: run-time faults -/

/-- C28 (the code diverges from the claim): a container named `/a.b`, without Kubernetes
labels and with one stat, has an empty container name and a `.` at position 2, so
`decodeMetrics` evaluates `c.Name[4:2]` and stops with a run-time fault, whatever the
metric tables and the source are.  In general the slice faults exactly when the first
`.` of the name is before position 4. -/
theorem decodeMetrics_faults_on_early_dot (tables : MetricTables)
    (this : KubeletMetricsSource) :
    decodeMetrics tables this
      ⟨"/a.b", ⟨⟨0, 0⟩, [], "", false, [], []⟩, [⟨⟨1, 0⟩, [], []⟩]⟩ = DecodeResult.fault ∧
    stringsIndex "/a.b" '.' = 2 ∧
    goSlice "/a.b" 4 2 = none ∧
    legacyContainerName "" "/a.b" = none := by
  refine ⟨?_, by decide, by decide, by decide⟩
  apply decodeMetrics_of_fault tables this _ ⟨⟨1, 0⟩, [], []⟩ [] rfl
  have hl : legacyContainerName (labelOf ([] : GoMap String) kubernetesContainerLabel)
      "/a.b" = none := by decide
  unfold classify
  rw [if_neg (by decide)]
  simp only [hl]

/-! ## The kubelet metrics source: node addresses -/

theorem getLast_getD_cons {α : Type} (x : α) (l : List α) (d : α) :
    (x :: l).getLast?.getD d = l.getLast?.getD x := by
  cases l with
  | nil => simp
  | cons y t =>
    rw [List.getLast?_cons_cons]
    cases h : (y :: t).getLast? with
    | none => simp at h
    | some z => rfl

theorem filter_map_getLast_cons {α β : Type} (p : α → Bool) (f : α → β) (a : α)
    (t : List α) (d : β) :
    (((a :: t).filter p).map f).getLast?.getD d =
      ((t.filter p).map f).getLast?.getD (if p a then f a else d) := by
  cases h : p a with
  | false => rw [List.filter_cons_of_neg (by simp [h])]; simp
  | true => rw [List.filter_cons_of_pos h, List.map_cons, getLast_getD_cons]; simp

theorem foldl_addressStep (isIPv4 : String → Bool) (addrs : List NodeAddress)
    (init : String × String) :
    addrs.foldl (addressStep isIPv4) init =
      (((addrs.filter (fun a => decide (a.Typ = NodeHostName ∧ a.Address ≠ ""))).map
          NodeAddress.Address).getLast?.getD init.1,
       ((addrs.filter (fun a => decide (a.Typ = NodeInternalIP ∧ a.Address ≠ "") &&
          isIPv4 a.Address)).map NodeAddress.Address).getLast?.getD init.2) := by
  induction addrs generalizing init with
  | nil => simp
  | cons a t ih =>
    rw [List.foldl_cons, ih, filter_map_getLast_cons, filter_map_getLast_cons]
    have e1 : (addressStep isIPv4 init a).1 =
        if decide (a.Typ = NodeHostName ∧ a.Address ≠ "") = true then a.Address
        else init.1 := by
      by_cases h1 : a.Typ = NodeHostName ∧ a.Address ≠ "" <;> simp [addressStep, h1]
    have e2 : (addressStep isIPv4 init a).2 =
        if (decide (a.Typ = NodeInternalIP ∧ a.Address ≠ "") && isIPv4 a.Address) = true
        then a.Address else init.2 := by
      by_cases h2 : a.Typ = NodeInternalIP ∧ a.Address ≠ "" <;>
        cases h3 : isIPv4 a.Address <;> simp [addressStep, h2, h3]
    rw [e1, e2]

theorem any_notReady_iff (node : Node) :
    node.Conditions.any (fun c => decide (c.Typ = NodeReady ∧ c.Status ≠ ConditionTrue)) = true ↔
      ∃ c ∈ node.Conditions, c.Typ = "Ready" ∧ c.Status ≠ "True" := by
  simp [List.any_eq_true, NodeReady, ConditionTrue]

theorem mem_ipv4Addresses (isIPv4 : String → Bool) (addrs : List NodeAddress) (ip : String) :
    ip ∈ (addrs.filter (fun a => decide (a.Typ = NodeInternalIP ∧ a.Address ≠ "") &&
        isIPv4 a.Address)).map NodeAddress.Address ↔
      ∃ a ∈ addrs, a.Typ = "InternalIP" ∧ a.Address ≠ "" ∧ isIPv4 a.Address = true ∧
        a.Address = ip := by
  simp [List.mem_map, List.mem_filter, NodeInternalIP, and_assoc]

/-- C24: the contract of `getNodeHostnameAndIP`.  When no condition of the node is a
`Ready` condition with a status other than `True` and some address is a non-empty
`InternalIP` address that parses as IPv4, the function returns no error, the IP is the
last such address (so it parses as IPv4) and the hostname is the last non-empty
`Hostname` address, or the node name when there is none.  For every other node it returns
an error with empty hostname and IP. -/
theorem getNodeHostnameAndIP_contract (isIPv4 : String → Bool) (node : Node) :
    ((¬ (∃ c ∈ node.Conditions, c.Typ = "Ready" ∧ c.Status ≠ "True") ∧
        (∃ a ∈ node.Addresses, a.Typ = "InternalIP" ∧ a.Address ≠ "" ∧
          isIPv4 a.Address = true)) →
      ∃ ip,
        ((node.Addresses.filter (fun a => decide (a.Typ = "InternalIP" ∧ a.Address ≠ "") &&
          isIPv4 a.Address)).map NodeAddress.Address).getLast? = some ip ∧
        isIPv4 ip = true ∧
        getNodeHostnameAndIP isIPv4 node =
          ⟨((node.Addresses.filter (fun a => decide (a.Typ = "Hostname" ∧
              a.Address ≠ ""))).map NodeAddress.Address).getLast?.getD node.Name,
            ip, none⟩) ∧
    (¬ (¬ (∃ c ∈ node.Conditions, c.Typ = "Ready" ∧ c.Status ≠ "True") ∧
        (∃ a ∈ node.Addresses, a.Typ = "InternalIP" ∧ a.Address ≠ "" ∧
          isIPv4 a.Address = true)) →
      ∃ e, getNodeHostnameAndIP isIPv4 node = ⟨"", "", some e⟩) := by
  by_cases hr : node.Conditions.any
      (fun c => decide (c.Typ = NodeReady ∧ c.Status ≠ ConditionTrue)) = true
  · have hnr := (any_notReady_iff node).1 hr
    refine ⟨fun h => absurd hnr h.1, fun _ => ?_⟩
    simp only [getNodeHostnameAndIP, hr, if_true]
    exact ⟨_, rfl⟩
  · have hready : ¬ (∃ c ∈ node.Conditions, c.Typ = "Ready" ∧ c.Status ≠ "True") :=
      fun h => hr ((any_notReady_iff node).2 h)
    have hfold := foldl_addressStep isIPv4 node.Addresses (node.Name, "")
    cases hl : ((node.Addresses.filter (fun a =>
        decide (a.Typ = NodeInternalIP ∧ a.Address ≠ "") && isIPv4 a.Address)).map
        NodeAddress.Address).getLast? with
    | none =>
      have hnil := List.getLast?_eq_none_iff.1 hl
      have hno : ¬ (∃ a ∈ node.Addresses, a.Typ = "InternalIP" ∧ a.Address ≠ "" ∧
          isIPv4 a.Address = true) := by
        rintro ⟨a, ha, h1, h2, h3⟩
        have hm := (mem_ipv4Addresses isIPv4 node.Addresses a.Address).2
          ⟨a, ha, h1, h2, h3, rfl⟩
        rw [hnil] at hm
        exact List.not_mem_nil _ hm
      refine ⟨fun h => absurd h.2 hno, fun _ => ?_⟩
      rw [hl] at hfold
      simp only [getNodeHostnameAndIP, hr, hfold]
      rw [if_neg (by simp)]
      exact ⟨_, rfl⟩
    | some ip =>
      have hmem := (mem_ipv4Addresses isIPv4 node.Addresses ip).1 (List.mem_of_getLast?_eq_some hl)
      obtain ⟨a, ha, h1, h2, h3, h4⟩ := hmem
      have hip : ip ≠ "" := h4 ▸ h2
      refine ⟨fun _ => ⟨ip, ?_, h4 ▸ h3, ?_⟩, fun h => absurd ⟨hready, a, ha, h1, h2, h3⟩ h⟩
      · simpa [NodeInternalIP] using hl
      · rw [hl] at hfold
        simp only [getNodeHostnameAndIP, hr, hfold]
        simp [hip, NodeHostName]

/-- Witness of C24: the third node of `TestGetNodeHostnameAndIP`, where only
`127.0.0.1` parses as IPv4. -/
theorem getNodeHostnameAndIP_contract_witness :
    getNodeHostnameAndIP (fun a => a == "127.0.0.1")
      ⟨"testNode", [⟨"NotReady", "True"⟩],
        [⟨"Hostname", "testNode"⟩,
          ⟨"InternalIP", "2001:0db8:85a3:0000:0000:8a2e:0370:7334"⟩,
          ⟨"InternalIP", "127.0.0.1"⟩]⟩ = ⟨"testNode", "127.0.0.1", none⟩ ∧
    ∃ e, getNodeHostnameAndIP (fun a => a == "127.0.0.1")
      ⟨"testNode", [⟨"Ready", "False"⟩], [⟨"InternalIP", "127.0.0.1"⟩]⟩ = ⟨"", "", some e⟩ :=
  ⟨by decide,
   (getNodeHostnameAndIP_contract (fun a => a == "127.0.0.1")
      ⟨"testNode", [⟨"Ready", "False"⟩], [⟨"InternalIP", "127.0.0.1"⟩]⟩).2
      (by decide)⟩
/-! ## The pod based enricher: maps -/

theorem contains_of_mem {V : Type} (m : GoMap V) (a : String) (s : V) (h : (a, s) ∈ m) :
    m.contains a = true :=
  (GoMap.contains_iff m a).2 (List.mem_map.2 ⟨(a, s), h, rfl⟩)

theorem mem_of_contains {V : Type} (m : GoMap V) (a : String) (h : m.contains a = true) :
    ∃ s, (a, s) ∈ m := by
  obtain ⟨e, he, hk⟩ := List.mem_map.1 ((GoMap.contains_iff m a).1 h)
  exact ⟨e.2, by rw [← hk]; exact he⟩

theorem contains_perm {V : Type} (l m : GoMap V) (h : l.Perm m) (a : String) :
    l.contains a = m.contains a := by
  have hk : ∀ x, x ∈ l.keys ↔ x ∈ m.keys := fun x => (h.map Prod.fst).mem_iff
  cases h1 : l.contains a <;> cases h2 : m.contains a <;> try rfl
  · exact absurd ((GoMap.contains_iff l a).2 ((hk a).2 ((GoMap.contains_iff m a).1 h2)))
      (by simp [h1])
  · exact absurd ((GoMap.contains_iff m a).2 ((hk a).1 ((GoMap.contains_iff l a).1 h1)))
      (by simp [h2])

theorem contains_foldl_set {V : Type} (l m : GoMap V) (a : String) :
    (l.foldl (fun sets kv => sets.set kv.1 kv.2) m).contains a =
      (m.contains a || l.contains a) := by
  induction l generalizing m with
  | nil => simp [GoMap.contains]
  | cons e t ih =>
    rw [List.foldl_cons, ih, contains_set]
    have : GoMap.contains (e :: t) a = (decide (e.1 = a) || GoMap.contains t a) := by
      simp [GoMap.contains]
    rw [this]
    cases decide (e.1 = a) <;> cases GoMap.contains m a <;> cases GoMap.contains t a <;> rfl

theorem mem_foldl_set {V : Type} (l m : GoMap V) (e : String × V)
    (h : e ∈ l.foldl (fun sets kv => sets.set kv.1 kv.2) m) : e ∈ m ∨ e ∈ l := by
  induction l generalizing m with
  | nil => exact Or.inl h
  | cons x t ih =>
    rcases ih _ h with h1 | h1
    · rcases GoMap.mem_set _ _ _ _ h1 with h2 | h2
      · exact Or.inl h2
      · exact Or.inr (h2 ▸ List.mem_cons_self _ _)
    · exact Or.inr (List.mem_cons_of_mem _ h1)

theorem lookup_foldl_set_of_not_contains {V : Type} (l m : GoMap V) (a : String)
    (h : l.contains a = false) :
    (l.foldl (fun sets kv => sets.set kv.1 kv.2) m).lookup a = m.lookup a := by
  induction l generalizing m with
  | nil => rfl
  | cons e t ih =>
    have hc : GoMap.contains (e :: t) a = (decide (e.1 = a) || GoMap.contains t a) := by
      simp [GoMap.contains]
    rw [hc, Bool.or_eq_false_iff] at h
    rw [List.foldl_cons, ih _ h.2, GoMap.lookup_set, if_neg (by simpa using h.1)]

/-! ## The pod based enricher: stubs -/

theorem updateContainerResourcesAndLimits_carries (metricSet : MetricSet) (c : Container) :
    carriesResources c (updateContainerResourcesAndLimits metricSet c) := by
  unfold carriesResources updateContainerResourcesAndLimits resourceValue
  simp only [GoMap.lookup_set, MetricCpuRequest, MetricMemoryRequest, MetricCpuLimit,
    MetricMemoryLimit, ResourceCPU, ResourceMemory]
  refine ⟨?_, ?_, ?_, ?_⟩
  · cases c.Requests.lookup "cpu" <;> simp [intValue]
  · cases c.Requests.lookup "memory" <;> simp [intValue]
  · cases c.Limits.lookup "cpu" <;> simp [intValue]
  · cases c.Limits.lookup "memory" <;> simp [intValue]

theorem updateContainerResourcesAndLimits_labels (metricSet : MetricSet) (c : Container) :
    (updateContainerResourcesAndLimits metricSet c).Labels = metricSet.Labels := rfl

theorem containerStub_carriesPod (this : PodBasedEnricher) (podMs : MetricSet) (pod : Pod)
    (c : Container) : carriesPod this pod (containerStub this podMs pod c) := by
  unfold carriesPod containerStub
  simp only [updateContainerResourcesAndLimits_labels]
  constructor <;>
    simp [labelOf, GoMap.lookup, LabelMetricSetType, LabelNamespaceName, LabelPodName,
      LabelContainerName, LabelContainerBaseImage, LabelPodId, LabelLabels]

theorem containerStub_carriesResources (this : PodBasedEnricher) (podMs : MetricSet)
    (pod : Pod) (c : Container) : carriesResources c (containerStub this podMs pod c) :=
  updateContainerResourcesAndLimits_carries _ c

theorem containerStubStep_contains (this : PodBasedEnricher) (podMs : MetricSet) (pod : Pod)
    (batch newMs : GoMap MetricSet) (c : Container) (a : String) :
    (containerStubStep this podMs pod batch newMs c).contains a =
      (newMs.contains a || (!batch.contains a &&
        decide (PodContainerKey pod.Namespace pod.Name c.Name = a))) := by
  unfold containerStubStep
  by_cases hk : PodContainerKey pod.Namespace pod.Name c.Name = a
  · subst hk
    cases hb : batch.contains (PodContainerKey pod.Namespace pod.Name c.Name) <;>
      cases hn : newMs.contains (PodContainerKey pod.Namespace pod.Name c.Name) <;>
      simp [hb, hn, contains_set]
  · cases hb : batch.contains (PodContainerKey pod.Namespace pod.Name c.Name) <;>
      cases hn : newMs.contains (PodContainerKey pod.Namespace pod.Name c.Name) <;>
      simp [hb, hn, hk, contains_set]

theorem stubFold_contains (this : PodBasedEnricher) (podMs : MetricSet) (pod : Pod)
    (batch : GoMap MetricSet) (cs : List Container) (newMs : GoMap MetricSet) (a : String) :
    (cs.foldl (containerStubStep this podMs pod batch) newMs).contains a =
      (newMs.contains a || (!batch.contains a &&
        cs.any (fun c => decide (PodContainerKey pod.Namespace pod.Name c.Name = a)))) := by
  induction cs generalizing newMs with
  | nil => simp
  | cons c t ih =>
    rw [List.foldl_cons, ih, containerStubStep_contains, List.any_cons]
    cases newMs.contains a <;> cases batch.contains a <;>
      cases decide (PodContainerKey pod.Namespace pod.Name c.Name = a) <;> simp

theorem containerStubStep_lookup (this : PodBasedEnricher) (podMs : MetricSet) (pod : Pod)
    (batch newMs : GoMap MetricSet) (c : Container) (a : String) (s : MetricSet)
    (h : (containerStubStep this podMs pod batch newMs c).lookup a = some s) :
    newMs.lookup a = some s ∨ (a = PodContainerKey pod.Namespace pod.Name c.Name ∧
      s = containerStub this podMs pod c) := by
  unfold containerStubStep at h
  simp only [] at h
  split at h
  · exact Or.inl h
  · split at h
    · exact Or.inl h
    · rw [GoMap.lookup_set] at h
      split at h
      · next hk => exact Or.inr ⟨hk.symm, (Option.some.inj h).symm⟩
      · exact Or.inl h

theorem containerStubStep_nodup (this : PodBasedEnricher) (podMs : MetricSet) (pod : Pod)
    (batch newMs : GoMap MetricSet) (c : Container) (h : newMs.keys.Nodup) :
    (containerStubStep this podMs pod batch newMs c).keys.Nodup := by
  unfold containerStubStep
  simp only []
  split
  · exact h
  · split
    · exact h
    · exact step_keys_nodup _ _ _ h

theorem stubFold_lookup (this : PodBasedEnricher) (podMs : MetricSet) (pod : Pod)
    (batch : GoMap MetricSet) (cs : List Container) (newMs : GoMap MetricSet)
    (a : String) (s : MetricSet)
    (h : (cs.foldl (containerStubStep this podMs pod batch) newMs).lookup a = some s) :
    newMs.lookup a = some s ∨ ∃ c ∈ cs, a = PodContainerKey pod.Namespace pod.Name c.Name ∧
      s = containerStub this podMs pod c := by
  induction cs generalizing newMs with
  | nil => exact Or.inl h
  | cons c t ih =>
    rcases ih _ h with h1 | ⟨c', hc', he⟩
    · rcases containerStubStep_lookup this podMs pod batch newMs c a s h1 with h2 | h2
      · exact Or.inl h2
      · exact Or.inr ⟨c, List.mem_cons_self _ _, h2⟩
    · exact Or.inr ⟨c', List.mem_cons_of_mem _ hc', he⟩

theorem stubFold_nodup (this : PodBasedEnricher) (podMs : MetricSet) (pod : Pod)
    (batch : GoMap MetricSet) (cs : List Container) (newMs : GoMap MetricSet)
    (h : newMs.keys.Nodup) :
    (cs.foldl (containerStubStep this podMs pod batch) newMs).keys.Nodup := by
  induction cs generalizing newMs with
  | nil => exact h
  | cons c t ih => exact ih _ (containerStubStep_nodup this podMs pod batch newMs c h)

/-! ## The pod based enricher: keys -/

theorem append_cons_inj (c : Char) (l l' r r' : List Char) (hl : c ∉ l) (hl' : c ∉ l')
    (h : l ++ c :: r = l' ++ c :: r') : l = l' ∧ r = r' := by
  induction l generalizing l' with
  | nil =>
    cases l' with
    | nil => exact ⟨rfl, by simpa using h⟩
    | cons y t' =>
      simp only [List.nil_append, List.cons_append, List.cons.injEq] at h
      exact absurd (h.1 ▸ List.mem_cons_self _ _) hl'
  | cons x t ih =>
    cases l' with
    | nil =>
      simp only [List.nil_append, List.cons_append, List.cons.injEq] at h
      exact absurd (h.1 ▸ List.mem_cons_self _ _) hl
    | cons y t' =>
      simp only [List.cons_append, List.cons.injEq] at h
      have := ih t' (fun hm => hl (List.mem_cons_of_mem _ hm))
        (fun hm => hl' (List.mem_cons_of_mem _ hm)) h.2
      exact ⟨by rw [h.1, this.1], this.2⟩

theorem string_ext_data (a b : String) (h : a.data = b.data) : a = b := by
  cases a; cases b; simp at h; simp [h]

theorem PodKey_inj (ns name ns' name' : String) (h1 : '/' ∉ ns.data) (h2 : '/' ∉ ns'.data)
    (h : PodKey ns name = PodKey ns' name') : ns = ns' ∧ name = name' := by
  have hd := congrArg String.data h
  simp only [PodKey, String.data_append] at hd
  have hd2 : ns.data ++ '/' :: ("pod:".data ++ name.data) =
      ns'.data ++ '/' :: ("pod:".data ++ name'.data) := by
    simpa [List.append_assoc] using hd
  have := append_cons_inj '/' _ _ _ _ h1 h2 hd2
  exact ⟨string_ext_data _ _ this.1, string_ext_data _ _ (List.append_cancel_left this.2)⟩

theorem PodKey_ne_PodContainerKey (ns name ns' name' c : String) (h1 : '/' ∉ ns.data)
    (h2 : '/' ∉ ns'.data) (h3 : '/' ∉ name.data) :
    PodKey ns name ≠ PodContainerKey ns' name' c := by
  intro h
  have hd := congrArg String.data h
  simp only [PodKey, PodContainerKey, String.data_append] at hd
  have hd2 : ns.data ++ '/' :: ("pod:".data ++ name.data) =
      ns'.data ++ '/' :: ("pod:".data ++ (name'.data ++ '/' :: ("container:".data ++ c.data))) := by
    simpa [List.append_assoc] using hd
  have := append_cons_inj '/' _ _ _ _ h1 h2 hd2
  have hn : name.data = name'.data ++ '/' :: ("container:".data ++ c.data) :=
    List.append_cancel_left this.2
  exact h3 (by rw [hn]; simp)

theorem PodContainerKey_inj (ns name c ns' name' c' : String) (h1 : '/' ∉ ns.data)
    (h2 : '/' ∉ ns'.data) (h3 : '/' ∉ name.data) (h4 : '/' ∉ name'.data)
    (h : PodContainerKey ns name c = PodContainerKey ns' name' c') :
    ns = ns' ∧ name = name' ∧ c = c' := by
  have hd := congrArg String.data h
  simp only [PodContainerKey, String.data_append] at hd
  have hd2 : ns.data ++ '/' :: ("pod:".data ++ (name.data ++ '/' :: ("container:".data ++ c.data))) =
      ns'.data ++ '/' :: ("pod:".data ++ (name'.data ++ '/' :: ("container:".data ++ c'.data))) := by
    simpa [List.append_assoc] using hd
  have e1 := append_cons_inj '/' _ _ _ _ h1 h2 hd2
  have e2 := append_cons_inj '/' _ _ _ _ h3 h4 (List.append_cancel_left e1.2)
  exact ⟨string_ext_data _ _ e1.1, string_ext_data _ _ e2.1,
    string_ext_data _ _ (List.append_cancel_left e2.2)⟩

/-! ## The pod based enricher: one metric set of the batch -/

theorem enrichContainer_labelOf (key : String) (ms : MetricSet) (pod : Pod)
    (cs : List Container) (a : String) (ha : a ≠ LabelContainerBaseImage) :
    labelOf (enrichContainer key ms pod cs).Labels a = labelOf ms.Labels a := by
  induction cs with
  | nil => rfl
  | cons c t ih =>
    unfold enrichContainer
    split
    · simp only []
      split
      · rfl
      · simp only [updateContainerResourcesAndLimits_labels, labelOf_set]
        rw [if_neg (fun h => ha h.symm)]
    · exact ih

theorem enrichedContainerSet_labelOf (this : PodBasedEnricher) (key : String)
    (ms : MetricSet) (pod : Pod) (a : String) (h1 : a ≠ LabelContainerBaseImage)
    (h2 : a ≠ LabelPodId) (h3 : a ≠ LabelLabels) :
    labelOf (enrichedContainerSet this key ms pod).Labels a = labelOf ms.Labels a := by
  unfold enrichedContainerSet
  simp only [labelOf_set]
  rw [if_neg (fun h => h3 h.symm), if_neg (fun h => h2 h.symm)]
  exact enrichContainer_labelOf key ms pod _ a h1

theorem enrichedContainerSet_carriesPod (this : PodBasedEnricher) (key : String)
    (ms : MetricSet) (pod : Pod) : carriesPod this pod (enrichedContainerSet this key ms pod) := by
  unfold carriesPod enrichedContainerSet
  simp [labelOf_set, LabelPodId, LabelLabels]

theorem enrichContainer_values (key : String) (ms : MetricSet) (pod : Pod)
    (cs : List Container) (c : Container)
    (hc : cs.find? (fun x => decide (key = PodContainerKey pod.Namespace pod.Name x.Name)) =
      some c) :
    (enrichContainer key ms pod cs).MetricValues =
      (updateContainerResourcesAndLimits ms c).MetricValues := by
  induction cs with
  | nil => simp at hc
  | cons x t ih =>
    unfold enrichContainer
    by_cases hk : key = PodContainerKey pod.Namespace pod.Name x.Name
    · rw [List.find?_cons_of_pos _ (by simpa using hk)] at hc
      injection hc with hc
      subst hc
      rw [if_pos hk]
      simp only []
      split <;> rfl
    · rw [List.find?_cons_of_neg _ (by simpa using hk)] at hc
      rw [if_neg hk]
      exact ih hc

theorem addPodInfo_fst_carriesPod (this : PodBasedEnricher) (podMs : MetricSet) (pod : Pod)
    (batch newMs : GoMap MetricSet) :
    carriesPod this pod (addPodInfo this podMs pod batch newMs).1 := by
  unfold carriesPod addPodInfo
  simp [labelOf_set, LabelPodId, LabelLabels]

theorem addPodInfo_snd_contains (this : PodBasedEnricher) (podMs : MetricSet) (pod : Pod)
    (batch newMs : GoMap MetricSet) (a : String) :
    (addPodInfo this podMs pod batch newMs).2.contains a =
      (newMs.contains a || (!batch.contains a &&
        pod.Containers.any (fun c => decide (PodContainerKey pod.Namespace pod.Name c.Name = a)))) := by
  unfold addPodInfo
  exact stubFold_contains this _ pod batch pod.Containers newMs a

theorem addPodInfo_snd_lookup (this : PodBasedEnricher) (podMs : MetricSet) (pod : Pod)
    (batch newMs : GoMap MetricSet) (a : String) (s : MetricSet)
    (h : (addPodInfo this podMs pod batch newMs).2.lookup a = some s) :
    newMs.lookup a = some s ∨ ∃ c ∈ pod.Containers,
      a = PodContainerKey pod.Namespace pod.Name c.Name ∧
      carriesPod this pod s ∧ carriesResources c s := by
  unfold addPodInfo at h
  rcases stubFold_lookup this _ pod batch pod.Containers newMs a s h with h1 | ⟨c, hc, ha, hs⟩
  · exact Or.inl h1
  · refine Or.inr ⟨c, hc, ha, ?_⟩
    rw [hs]
    exact ⟨containerStub_carriesPod this _ pod c, containerStub_carriesResources this _ pod c⟩

theorem addPodInfo_snd_nodup (this : PodBasedEnricher) (podMs : MetricSet) (pod : Pod)
    (batch newMs : GoMap MetricSet) (h : newMs.keys.Nodup) :
    (addPodInfo this podMs pod batch newMs).2.keys.Nodup := by
  unfold addPodInfo
  exact stubFold_nodup this _ pod batch pod.Containers newMs h

theorem addContainerInfo_fst (this : PodBasedEnricher) (key : String) (ms : MetricSet)
    (pod : Pod) (batch newMs : GoMap MetricSet) :
    (addContainerInfo this key ms pod batch newMs).1 = enrichedContainerSet this key ms pod := by
  unfold addContainerInfo
  simp only []
  split
  · rfl
  · split <;> rfl

theorem addContainerInfo_snd_contains (this : PodBasedEnricher) (key : String)
    (ms : MetricSet) (pod : Pod) (batch newMs : GoMap MetricSet) (a : String) :
    (addContainerInfo this key ms pod batch newMs).2.contains a =
      (newMs.contains a ||
        (!batch.contains (PodKey (labelOf ms.Labels LabelNamespaceName)
            (labelOf ms.Labels LabelPodName)) &&
          !newMs.contains (PodKey (labelOf ms.Labels LabelNamespaceName)
            (labelOf ms.Labels LabelPodName)) &&
          (decide (PodKey (labelOf ms.Labels LabelNamespaceName)
              (labelOf ms.Labels LabelPodName) = a) ||
            (!batch.contains a && pod.Containers.any
              (fun c => decide (PodContainerKey pod.Namespace pod.Name c.Name = a)))))) := by
  unfold addContainerInfo
  simp only [enrichedContainerSet_labelOf this key ms pod LabelNamespaceName
      (by decide) (by decide) (by decide),
    enrichedContainerSet_labelOf this key ms pod LabelPodName
      (by decide) (by decide) (by decide)]
  split
  · next hb => simp [hb]
  · next hb =>
    split
    · next hn => simp [hn]
    · next hn =>
      rw [contains_set, addPodInfo_snd_contains, contains_set]
      simp only [Bool.not_eq_true] at hb hn
      rw [hb, hn]
      cases decide (PodKey (labelOf ms.Labels LabelNamespaceName)
          (labelOf ms.Labels LabelPodName) = a) <;>
        cases newMs.contains a <;> simp

theorem addContainerInfo_snd_lookup (this : PodBasedEnricher) (key : String)
    (ms : MetricSet) (pod : Pod) (batch newMs : GoMap MetricSet) (a : String)
    (s : MetricSet)
    (h : (addContainerInfo this key ms pod batch newMs).2.lookup a = some s) :
    newMs.lookup a = some s ∨
      (a = PodKey (labelOf ms.Labels LabelNamespaceName) (labelOf ms.Labels LabelPodName) ∧
        carriesPod this pod s) ∨
      ∃ c ∈ pod.Containers, a = PodContainerKey pod.Namespace pod.Name c.Name ∧
        carriesPod this pod s ∧ carriesResources c s := by
  unfold addContainerInfo at h
  simp only [enrichedContainerSet_labelOf this key ms pod LabelNamespaceName
      (by decide) (by decide) (by decide),
    enrichedContainerSet_labelOf this key ms pod LabelPodName
      (by decide) (by decide) (by decide)] at h
  split at h
  · exact Or.inl h
  · split at h
    · exact Or.inl h
    · rw [GoMap.lookup_set] at h
      split at h
      · next hk =>
        refine Or.inr (Or.inl ⟨hk.symm, ?_⟩)
        rw [← Option.some.inj h]
        exact addPodInfo_fst_carriesPod this _ pod batch _
      · next hk =>
        rcases addPodInfo_snd_lookup this _ pod batch _ a s h with h1 | h1
        · rw [GoMap.lookup_set, if_neg hk] at h1
          exact Or.inl h1
        · exact Or.inr (Or.inr h1)

theorem addContainerInfo_snd_nodup (this : PodBasedEnricher) (key : String)
    (ms : MetricSet) (pod : Pod) (batch newMs : GoMap MetricSet) (h : newMs.keys.Nodup) :
    (addContainerInfo this key ms pod batch newMs).2.keys.Nodup := by
  unfold addContainerInfo
  simp only []
  split
  · exact h
  · split
    · exact h
    · exact step_keys_nodup _ _ _
        (addPodInfo_snd_nodup this _ pod batch _ (step_keys_nodup _ _ _ h))

theorem processStep_pod (this : PodBasedEnricher) (st : GoMap MetricSet × GoMap MetricSet)
    (kv : String × MetricSet) (pod : Pod)
    (ht : labelOf kv.2.Labels LabelMetricSetType = MetricSetTypePod)
    (hp : this.getPod (labelOf kv.2.Labels LabelNamespaceName)
      (labelOf kv.2.Labels LabelPodName) = some pod) :
    processStep this st kv =
      (st.1.set kv.1 (addPodInfo this kv.2 pod st.1 st.2).1,
        (addPodInfo this kv.2 pod st.1 st.2).2) := by
  unfold processStep
  simp only [ht, hp, if_true]

theorem processStep_container (this : PodBasedEnricher)
    (st : GoMap MetricSet × GoMap MetricSet) (kv : String × MetricSet) (pod : Pod)
    (ht : labelOf kv.2.Labels LabelMetricSetType = MetricSetTypePodContainer)
    (hp : this.getPod (labelOf kv.2.Labels LabelNamespaceName)
      (labelOf kv.2.Labels LabelPodName) = some pod) :
    processStep this st kv =
      (st.1.set kv.1 (enrichedContainerSet this kv.1 kv.2 pod),
        (addContainerInfo this kv.1 kv.2 pod st.1 st.2).2) := by
  have hne : ¬ (MetricSetTypePodContainer = MetricSetTypePod) := by decide
  unfold processStep
  simp only [ht, hp, hne, if_true, if_false, addContainerInfo_fst]

theorem processStep_cases (this : PodBasedEnricher) (st : GoMap MetricSet × GoMap MetricSet)
    (kv : String × MetricSet) :
    processStep this st kv = st ∨
    (∃ pod, labelOf kv.2.Labels LabelMetricSetType = MetricSetTypePod ∧
      this.getPod (labelOf kv.2.Labels LabelNamespaceName)
        (labelOf kv.2.Labels LabelPodName) = some pod ∧
      processStep this st kv =
        (st.1.set kv.1 (addPodInfo this kv.2 pod st.1 st.2).1,
          (addPodInfo this kv.2 pod st.1 st.2).2)) ∨
    (∃ pod, labelOf kv.2.Labels LabelMetricSetType = MetricSetTypePodContainer ∧
      this.getPod (labelOf kv.2.Labels LabelNamespaceName)
        (labelOf kv.2.Labels LabelPodName) = some pod ∧
      processStep this st kv =
        (st.1.set kv.1 (enrichedContainerSet this kv.1 kv.2 pod),
          (addContainerInfo this kv.1 kv.2 pod st.1 st.2).2)) := by
  by_cases ht : labelOf kv.2.Labels LabelMetricSetType = MetricSetTypePod
  · cases hp : this.getPod (labelOf kv.2.Labels LabelNamespaceName)
        (labelOf kv.2.Labels LabelPodName) with
    | none => left; unfold processStep; simp only [ht, hp, if_true]
    | some pod => exact Or.inr (Or.inl ⟨pod, ht, rfl, processStep_pod this st kv pod ht hp⟩)
  · by_cases hc : labelOf kv.2.Labels LabelMetricSetType = MetricSetTypePodContainer
    · cases hp : this.getPod (labelOf kv.2.Labels LabelNamespaceName)
          (labelOf kv.2.Labels LabelPodName) with
      | none => left; unfold processStep; simp only [hc, hp, if_true, ite_self]
      | some pod =>
        exact Or.inr (Or.inr ⟨pod, hc, rfl, processStep_container this st kv pod hc hp⟩)
    · left; unfold processStep; simp only [ht, hc, if_false]

theorem processStep_fst_mono (this : PodBasedEnricher)
    (st : GoMap MetricSet × GoMap MetricSet) (kv : String × MetricSet) (a : String)
    (h : st.1.contains a = true) : (processStep this st kv).1.contains a = true := by
  rcases processStep_cases this st kv with h1 | ⟨pod, _, _, h1⟩ | ⟨pod, _, _, h1⟩ <;>
    rw [h1] <;> simp [contains_set, h]

theorem processStep_fst_inv (this : PodBasedEnricher)
    (st : GoMap MetricSet × GoMap MetricSet) (kv : String × MetricSet) (a : String)
    (h : (processStep this st kv).1.contains a = true) :
    st.1.contains a = true ∨ kv.1 = a := by
  rcases processStep_cases this st kv with h1 | ⟨pod, _, _, h1⟩ | ⟨pod, _, _, h1⟩ <;>
    rw [h1] at h
  · exact Or.inl h
  · simp only [contains_set, Bool.or_eq_true, decide_eq_true_eq] at h
    exact h.symm
  · simp only [contains_set, Bool.or_eq_true, decide_eq_true_eq] at h
    exact h.symm

theorem processStep_fst_lookup_ne (this : PodBasedEnricher)
    (st : GoMap MetricSet × GoMap MetricSet) (kv : String × MetricSet) (a : String)
    (h : kv.1 ≠ a) : (processStep this st kv).1.lookup a = st.1.lookup a := by
  rcases processStep_cases this st kv with h1 | ⟨pod, _, _, h1⟩ | ⟨pod, _, _, h1⟩ <;>
    rw [h1] <;> simp [GoMap.lookup_set, h]

theorem processStep_snd_mono (this : PodBasedEnricher)
    (st : GoMap MetricSet × GoMap MetricSet) (kv : String × MetricSet) (a : String)
    (h : st.2.contains a = true) : (processStep this st kv).2.contains a = true := by
  rcases processStep_cases this st kv with h1 | ⟨pod, _, _, h1⟩ | ⟨pod, _, _, h1⟩ <;>
    rw [h1]
  · exact h
  · simp [addPodInfo_snd_contains, h]
  · simp [addContainerInfo_snd_contains, h]

theorem processStep_snd_new (this : PodBasedEnricher)
    (st : GoMap MetricSet × GoMap MetricSet) (kv : String × MetricSet) (a : String)
    (h : (processStep this st kv).2.contains a = true) :
    st.2.contains a = true ∨ st.1.contains a = false := by
  rcases processStep_cases this st kv with h1 | ⟨pod, _, _, h1⟩ | ⟨pod, _, _, h1⟩ <;>
    rw [h1] at h
  · exact Or.inl h
  · simp only [addPodInfo_snd_contains, Bool.or_eq_true, Bool.and_eq_true,
      Bool.not_eq_true'] at h
    rcases h with h | h
    · exact Or.inl h
    · exact Or.inr h.1
  · simp only [addContainerInfo_snd_contains, Bool.or_eq_true, Bool.and_eq_true,
      Bool.not_eq_true', decide_eq_true_eq] at h
    rcases h with h | ⟨⟨hb, _⟩, h | h⟩
    · exact Or.inl h
    · exact Or.inr (h ▸ hb)
    · exact Or.inr h.1

theorem processStep_snd_nodup (this : PodBasedEnricher)
    (st : GoMap MetricSet × GoMap MetricSet) (kv : String × MetricSet)
    (h : st.2.keys.Nodup) : (processStep this st kv).2.keys.Nodup := by
  rcases processStep_cases this st kv with h1 | ⟨pod, _, _, h1⟩ | ⟨pod, _, _, h1⟩ <;>
    rw [h1]
  · exact h
  · exact addPodInfo_snd_nodup this _ pod _ _ h
  · exact addContainerInfo_snd_nodup this _ _ pod _ _ h

theorem processStep_snd_lookup (this : PodBasedEnricher)
    (st : GoMap MetricSet × GoMap MetricSet) (kv : String × MetricSet) (a : String)
    (s : MetricSet) (h : (processStep this st kv).2.lookup a = some s) :
    st.2.lookup a = some s ∨ IsStub this a s := by
  rcases processStep_cases this st kv with h1 | ⟨pod, _, hp, h1⟩ | ⟨pod, _, hp, h1⟩ <;>
    rw [h1] at h
  · exact Or.inl h
  · rcases addPodInfo_snd_lookup this _ pod _ _ a s h with h2 | ⟨c, hc, ha, hs1, hs2⟩
    · exact Or.inl h2
    · exact Or.inr ⟨_, _, pod, hp, hs1, Or.inr ⟨c, hc, ha, hs2⟩⟩
  · rcases addContainerInfo_snd_lookup this _ _ pod _ _ a s h with
      h2 | ⟨ha, hs⟩ | ⟨c, hc, ha, hs1, hs2⟩
    · exact Or.inl h2
    · exact Or.inr ⟨_, _, pod, hp, hs, Or.inl ha⟩
    · exact Or.inr ⟨_, _, pod, hp, hs1, Or.inr ⟨c, hc, ha, hs2⟩⟩

/-! ## The pod based enricher: the loop over the batch -/

theorem fold_fst_mono (this : PodBasedEnricher) (order : List (String × MetricSet))
    (st : GoMap MetricSet × GoMap MetricSet) (a : String) (h : st.1.contains a = true) :
    (order.foldl (processStep this) st).1.contains a = true := by
  induction order generalizing st with
  | nil => exact h
  | cons kv t ih => exact ih _ (processStep_fst_mono this st kv a h)

theorem fold_snd_mono (this : PodBasedEnricher) (order : List (String × MetricSet))
    (st : GoMap MetricSet × GoMap MetricSet) (a : String) (h : st.2.contains a = true) :
    (order.foldl (processStep this) st).2.contains a = true := by
  induction order generalizing st with
  | nil => exact h
  | cons kv t ih => exact ih _ (processStep_snd_mono this st kv a h)

theorem fold_fst_inv (this : PodBasedEnricher) (order : List (String × MetricSet))
    (st : GoMap MetricSet × GoMap MetricSet) (a : String)
    (hk : ∀ kv ∈ order, st.1.contains kv.1 = true)
    (h : (order.foldl (processStep this) st).1.contains a = true) :
    st.1.contains a = true := by
  induction order generalizing st with
  | nil => exact h
  | cons kv t ih =>
    have h1 := ih (processStep this st kv)
      (fun x hx => processStep_fst_mono this st kv x.1 (hk x (List.mem_cons_of_mem _ hx))) h
    rcases processStep_fst_inv this st kv a h1 with h2 | h2
    · exact h2
    · exact h2 ▸ hk kv (List.mem_cons_self _ _)

theorem fold_fst_lookup_ne (this : PodBasedEnricher) (order : List (String × MetricSet))
    (st : GoMap MetricSet × GoMap MetricSet) (a : String)
    (hk : ∀ kv ∈ order, kv.1 ≠ a) :
    (order.foldl (processStep this) st).1.lookup a = st.1.lookup a := by
  induction order generalizing st with
  | nil => rfl
  | cons kv t ih =>
    rw [List.foldl_cons, ih _ (fun x hx => hk x (List.mem_cons_of_mem _ hx))]
    exact processStep_fst_lookup_ne this st kv a (hk kv (List.mem_cons_self _ _))

theorem fold_disjoint (this : PodBasedEnricher) (order : List (String × MetricSet))
    (st : GoMap MetricSet × GoMap MetricSet)
    (hk : ∀ kv ∈ order, st.1.contains kv.1 = true)
    (hd : ∀ a, st.2.contains a = true → st.1.contains a = false) (a : String)
    (h : (order.foldl (processStep this) st).2.contains a = true) :
    (order.foldl (processStep this) st).1.contains a = false := by
  induction order generalizing st with
  | nil => exact hd a h
  | cons kv t ih =>
    refine ih (processStep this st kv)
      (fun x hx => processStep_fst_mono this st kv x.1 (hk x (List.mem_cons_of_mem _ hx)))
      ?_ h
    intro b hb
    have hb1 : st.1.contains b = false := by
      rcases processStep_snd_new this st kv b hb with h1 | h1
      · exact hd b h1
      · exact h1
    cases hc : (processStep this st kv).1.contains b with
    | false => rfl
    | true =>
      rcases processStep_fst_inv this st kv b hc with h2 | h2
      · rw [hb1] at h2; exact absurd h2 (by simp)
      · have := hk kv (List.mem_cons_self _ _)
        rw [h2, hb1] at this
        exact absurd this (by simp)

theorem fold_snd_nodup (this : PodBasedEnricher) (order : List (String × MetricSet))
    (st : GoMap MetricSet × GoMap MetricSet) (h : st.2.keys.Nodup) :
    (order.foldl (processStep this) st).2.keys.Nodup := by
  induction order generalizing st with
  | nil => exact h
  | cons kv t ih => exact ih _ (processStep_snd_nodup this st kv h)

theorem fold_snd_lookup (this : PodBasedEnricher) (order : List (String × MetricSet))
    (st : GoMap MetricSet × GoMap MetricSet)
    (hs : ∀ a s, st.2.lookup a = some s → IsStub this a s) (a : String) (s : MetricSet)
    (h : (order.foldl (processStep this) st).2.lookup a = some s) : IsStub this a s := by
  induction order generalizing st with
  | nil => exact hs a s h
  | cons kv t ih =>
    refine ih (processStep this st kv) ?_ h
    intro b x hb
    rcases processStep_snd_lookup this st kv b x hb with h1 | h1
    · exact hs b x h1
    · exact h1

theorem fold_lookup_container (this : PodBasedEnricher)
    (order : List (String × MetricSet)) (st : GoMap MetricSet × GoMap MetricSet)
    (k : String) (v : MetricSet) (pod : Pod) (hn : (order.map Prod.fst).Nodup)
    (hm : (k, v) ∈ order)
    (ht : labelOf v.Labels LabelMetricSetType = MetricSetTypePodContainer)
    (hp : this.getPod (labelOf v.Labels LabelNamespaceName)
      (labelOf v.Labels LabelPodName) = some pod) :
    (order.foldl (processStep this) st).1.lookup k =
      some (enrichedContainerSet this k v pod) := by
  induction order generalizing st with
  | nil => simp at hm
  | cons kv t ih =>
    rw [List.map_cons, List.nodup_cons] at hn
    rcases List.mem_cons.1 hm with h1 | h1
    · subst h1
      rw [List.foldl_cons, fold_fst_lookup_ne, processStep_container this st (k, v) pod ht hp]
      · simp [GoMap.lookup_set]
      · intro x hx hk
        exact hn.1 (List.mem_map.2 ⟨x, hx, hk⟩)
    · exact ih _ hn.2 h1

/-! ## The pod based enricher: `Process` -/

theorem Process_sets (this : PodBasedEnricher) (seed seedNew : Nat) (batch : DataBatch) :
    (Process this seed seedNew batch).1.MetricSets =
      (GoMap.range seedNew ((GoMap.range seed batch.MetricSets).foldl (processStep this)
        (batch.MetricSets, [])).2).foldl (fun sets kv => sets.set kv.1 kv.2)
        ((GoMap.range seed batch.MetricSets).foldl (processStep this)
          (batch.MetricSets, [])).1 := rfl

theorem range_mem_contains (seed : Nat) (m : GoMap MetricSet) :
    ∀ kv ∈ GoMap.range seed m, m.contains kv.1 = true := by
  intro kv hkv
  have : kv ∈ m := (pickOrder_perm seed m).mem_iff.1 hkv
  exact contains_of_mem m kv.1 kv.2 this

/-- C25: a `pod_container` metric set of the batch whose pod the lister finds, stored
under the `PodContainerKey` of a container `c` of the pod's spec (the container that the
loop of `addContainerInfo` meets under that key), holds after `Process` the four values
cpu request, memory request, cpu limit and memory limit, each a gauge of 64-bit integer
type whose integer value is the value of the spec of `c` (cpu in milli-units), 0 for a
value that the spec does not set; `Process` returns no error. -/
theorem Process_enriches_container (this : PodBasedEnricher) (seed seedNew : Nat)
    (batch : DataBatch) (k : String) (v : MetricSet) (pod : Pod) (c : Container)
    (hkeys : batch.MetricSets.keys.Nodup)
    (hmem : (k, v) ∈ batch.MetricSets)
    (htype : labelOf v.Labels "type" = "pod_container")
    (hpod : this.getPod (labelOf v.Labels "namespace_name") (labelOf v.Labels "pod_name") =
      some pod)
    (hc : pod.Containers.find?
      (fun x => decide (k = PodContainerKey pod.Namespace pod.Name x.Name)) = some c) :
    (Process this seed seedNew batch).2 = none ∧
    ∃ w, (Process this seed seedNew batch).1.MetricSets.lookup k = some w ∧
      w.MetricValues.lookup "cpu/request" =
        some { IntValue := ((c.Requests.lookup "cpu").map Quantity.MilliValue).getD 0
               FloatValue := ⟨0⟩
               MetricType := MetricType.MetricGauge
               ValueType := ValueType.ValueInt64 } ∧
      w.MetricValues.lookup "memory/request" =
        some { IntValue := ((c.Requests.lookup "memory").map Quantity.Value).getD 0
               FloatValue := ⟨0⟩
               MetricType := MetricType.MetricGauge
               ValueType := ValueType.ValueInt64 } ∧
      w.MetricValues.lookup "cpu/limit" =
        some { IntValue := ((c.Limits.lookup "cpu").map Quantity.MilliValue).getD 0
               FloatValue := ⟨0⟩
               MetricType := MetricType.MetricGauge
               ValueType := ValueType.ValueInt64 } ∧
      w.MetricValues.lookup "memory/limit" =
        some { IntValue := ((c.Limits.lookup "memory").map Quantity.Value).getD 0
               FloatValue := ⟨0⟩
               MetricType := MetricType.MetricGauge
               ValueType := ValueType.ValueInt64 } := by
  refine ⟨rfl, enrichedContainerSet this k v pod, ?_, ?_⟩
  · have hperm := pickOrder_perm seed batch.MetricSets
    have hn : ((GoMap.range seed batch.MetricSets).map Prod.fst).Nodup :=
      (hperm.map Prod.fst).nodup_iff.2 hkeys
    have hm : (k, v) ∈ GoMap.range seed batch.MetricSets := hperm.mem_iff.2 hmem
    have hl := fold_lookup_container this (GoMap.range seed batch.MetricSets)
      (batch.MetricSets, []) k v pod hn hm htype hpod
    have hk1 : ((GoMap.range seed batch.MetricSets).foldl (processStep this)
        (batch.MetricSets, [])).1.contains k = true :=
      fold_fst_mono this _ _ k (contains_of_mem _ k v hmem)
    have hk2 : ((GoMap.range seed batch.MetricSets).foldl (processStep this)
        (batch.MetricSets, [])).2.contains k = false := by
      cases h2 : ((GoMap.range seed batch.MetricSets).foldl (processStep this)
          (batch.MetricSets, [])).2.contains k with
      | false => rfl
      | true =>
        have := fold_disjoint this (GoMap.range seed batch.MetricSets) (batch.MetricSets, [])
          (range_mem_contains seed batch.MetricSets) (by simp [GoMap.contains]) k h2
        rw [hk1] at this
        exact absurd this (by simp)
    rw [Process_sets, lookup_foldl_set_of_not_contains _ _ _
      (by rw [GoMap.range, contains_perm _ _ (pickOrder_perm seedNew _)]; exact hk2)]
    exact hl
  · have hv : (enrichedContainerSet this k v pod).MetricValues =
        (updateContainerResourcesAndLimits v c).MetricValues :=
      enrichContainer_values k v pod pod.Containers c hc
    have := updateContainerResourcesAndLimits_carries v c
    unfold carriesResources at this
    rw [hv]
    exact this

/-- Witness of C25: the container `c1` of the first batch of `TestPodEnricher`, with the
integer values 100, 555, 0 and 0 that the test checks. -/
theorem Process_enriches_container_witness :
    (Process testEnricher 0 0 testBatch1).2 = none ∧
    ∃ w, (Process testEnricher 0 0 testBatch1).1.MetricSets.lookup
        "namespace:ns1/pod:pod1/container:c1" = some w ∧
      w.MetricValues.lookup "cpu/request" =
        some ⟨100, ⟨0⟩, MetricType.MetricGauge, ValueType.ValueInt64⟩ ∧
      w.MetricValues.lookup "memory/request" =
        some ⟨555, ⟨0⟩, MetricType.MetricGauge, ValueType.ValueInt64⟩ ∧
      w.MetricValues.lookup "cpu/limit" =
        some ⟨0, ⟨0⟩, MetricType.MetricGauge, ValueType.ValueInt64⟩ ∧
      w.MetricValues.lookup "memory/limit" =
        some ⟨0, ⟨0⟩, MetricType.MetricGauge, ValueType.ValueInt64⟩ :=
  Process_enriches_container testEnricher 0 0 testBatch1
    "namespace:ns1/pod:pod1/container:c1" testContainerSet testPod
    { Name := "c1", Image := "gcr.io/google_containers/pause:2.0",
      Requests := [("cpu", ⟨100, 1⟩), ("memory", ⟨555000, 555⟩)], Limits := [] }
    (by decide) (by decide) (by decide) (by decide) (by decide)

/-! ## The pod based enricher: the metric sets of a pod and of its containers -/

theorem any_key_of_mem (pod : Pod) (c : Container) (hc : c ∈ pod.Containers) :
    pod.Containers.any (fun x => decide (PodContainerKey pod.Namespace pod.Name x.Name =
      PodContainerKey pod.Namespace pod.Name c.Name)) = true :=
  List.any_eq_true.2 ⟨c, hc, by simp⟩

theorem processStep_covered_mono (this : PodBasedEnricher)
    (st : GoMap MetricSet × GoMap MetricSet) (kv : String × MetricSet) (a : String)
    (h : st.1.contains a = true ∨ st.2.contains a = true) :
    (processStep this st kv).1.contains a = true ∨
      (processStep this st kv).2.contains a = true :=
  h.imp (processStep_fst_mono this st kv a) (processStep_snd_mono this st kv a)

theorem fold_covered_mono (this : PodBasedEnricher) (order : List (String × MetricSet))
    (st : GoMap MetricSet × GoMap MetricSet) (a : String)
    (h : st.1.contains a = true ∨ st.2.contains a = true) :
    (order.foldl (processStep this) st).1.contains a = true ∨
      (order.foldl (processStep this) st).2.contains a = true :=
  h.imp (fold_fst_mono this order st a) (fold_snd_mono this order st a)

theorem processStep_pod_covered (this : PodBasedEnricher)
    (st : GoMap MetricSet × GoMap MetricSet) (kv : String × MetricSet) (pod : Pod)
    (ht : labelOf kv.2.Labels LabelMetricSetType = MetricSetTypePod)
    (hp : this.getPod (labelOf kv.2.Labels LabelNamespaceName)
      (labelOf kv.2.Labels LabelPodName) = some pod) (c : Container)
    (hc : c ∈ pod.Containers) :
    (processStep this st kv).1.contains
        (PodContainerKey pod.Namespace pod.Name c.Name) = true ∨
      (processStep this st kv).2.contains
        (PodContainerKey pod.Namespace pod.Name c.Name) = true := by
  rw [processStep_pod this st kv pod ht hp]
  cases hb : st.1.contains (PodContainerKey pod.Namespace pod.Name c.Name) with
  | true => left; simp [contains_set, hb]
  | false => right; simp only [addPodInfo_snd_contains, hb, any_key_of_mem pod c hc]; simp

theorem processStep_container_podKey (this : PodBasedEnricher)
    (st : GoMap MetricSet × GoMap MetricSet) (kv : String × MetricSet) (pod : Pod)
    (ht : labelOf kv.2.Labels LabelMetricSetType = MetricSetTypePodContainer)
    (hp : this.getPod (labelOf kv.2.Labels LabelNamespaceName)
      (labelOf kv.2.Labels LabelPodName) = some pod) :
    (processStep this st kv).1.contains (PodKey (labelOf kv.2.Labels LabelNamespaceName)
        (labelOf kv.2.Labels LabelPodName)) = true ∨
      (processStep this st kv).2.contains (PodKey (labelOf kv.2.Labels LabelNamespaceName)
        (labelOf kv.2.Labels LabelPodName)) = true := by
  rw [processStep_container this st kv pod ht hp]
  cases hb : st.1.contains (PodKey (labelOf kv.2.Labels LabelNamespaceName)
      (labelOf kv.2.Labels LabelPodName)) with
  | true => left; simp [contains_set, hb]
  | false =>
    right
    cases hn : st.2.contains (PodKey (labelOf kv.2.Labels LabelNamespaceName)
        (labelOf kv.2.Labels LabelPodName)) <;>
      simp [addContainerInfo_snd_contains, hb, hn]

theorem processStep_container_covered (this : PodBasedEnricher)
    (st : GoMap MetricSet × GoMap MetricSet) (kv : String × MetricSet) (pod : Pod)
    (ht : labelOf kv.2.Labels LabelMetricSetType = MetricSetTypePodContainer)
    (hp : this.getPod (labelOf kv.2.Labels LabelNamespaceName)
      (labelOf kv.2.Labels LabelPodName) = some pod)
    (hb : st.1.contains (PodKey (labelOf kv.2.Labels LabelNamespaceName)
      (labelOf kv.2.Labels LabelPodName)) = false)
    (hn : st.2.contains (PodKey (labelOf kv.2.Labels LabelNamespaceName)
      (labelOf kv.2.Labels LabelPodName)) = false) (c : Container)
    (hc : c ∈ pod.Containers) :
    (processStep this st kv).1.contains
        (PodContainerKey pod.Namespace pod.Name c.Name) = true ∨
      (processStep this st kv).2.contains
        (PodContainerKey pod.Namespace pod.Name c.Name) = true := by
  rw [processStep_container this st kv pod ht hp]
  cases hk : st.1.contains (PodContainerKey pod.Namespace pod.Name c.Name) with
  | true => left; simp [contains_set, hk]
  | false =>
    right
    simp only [addContainerInfo_snd_contains, hb, hn, hk, any_key_of_mem pod c hc]
    simp

theorem fold_pod_covered (this : PodBasedEnricher) (order : List (String × MetricSet))
    (st : GoMap MetricSet × GoMap MetricSet) (k : String) (v : MetricSet) (pod : Pod)
    (hm : (k, v) ∈ order)
    (ht : labelOf v.Labels LabelMetricSetType = MetricSetTypePod)
    (hp : this.getPod (labelOf v.Labels LabelNamespaceName)
      (labelOf v.Labels LabelPodName) = some pod) (c : Container)
    (hc : c ∈ pod.Containers) :
    (order.foldl (processStep this) st).1.contains
        (PodContainerKey pod.Namespace pod.Name c.Name) = true ∨
      (order.foldl (processStep this) st).2.contains
        (PodContainerKey pod.Namespace pod.Name c.Name) = true := by
  induction order generalizing st with
  | nil => simp at hm
  | cons kv t ih =>
    rcases List.mem_cons.1 hm with h1 | h1
    · subst h1
      exact fold_covered_mono this t _ _ (processStep_pod_covered this st (k, v) pod ht hp c hc)
    · exact ih _ h1

theorem fold_container_podKey (this : PodBasedEnricher)
    (order : List (String × MetricSet)) (st : GoMap MetricSet × GoMap MetricSet)
    (k : String) (v : MetricSet) (pod : Pod) (hm : (k, v) ∈ order)
    (ht : labelOf v.Labels LabelMetricSetType = MetricSetTypePodContainer)
    (hp : this.getPod (labelOf v.Labels LabelNamespaceName)
      (labelOf v.Labels LabelPodName) = some pod) :
    (order.foldl (processStep this) st).1.contains (PodKey
        (labelOf v.Labels LabelNamespaceName) (labelOf v.Labels LabelPodName)) = true ∨
      (order.foldl (processStep this) st).2.contains (PodKey
        (labelOf v.Labels LabelNamespaceName) (labelOf v.Labels LabelPodName)) = true := by
  induction order generalizing st with
  | nil => simp at hm
  | cons kv t ih =>
    rcases List.mem_cons.1 hm with h1 | h1
    · subst h1
      exact fold_covered_mono this t _ _ (processStep_container_podKey this st (k, v) pod ht hp)
    · exact ih _ h1

theorem processStep_stubs_covered (this : PodBasedEnricher)
    (hl : ∀ ns name p, this.getPod ns name = some p →
      p.Namespace = ns ∧ p.Name = name ∧ '/' ∉ ns.data ∧ '/' ∉ name.data)
    (st : GoMap MetricSet × GoMap MetricSet) (kv : String × MetricSet)
    (hinv : ∀ ns name pod, this.getPod ns name = some pod →
      st.2.contains (PodKey ns name) = true → ∀ c ∈ pod.Containers,
        st.1.contains (PodContainerKey pod.Namespace pod.Name c.Name) = true ∨
          st.2.contains (PodContainerKey pod.Namespace pod.Name c.Name) = true) :
    ∀ ns name pod, this.getPod ns name = some pod →
      (processStep this st kv).2.contains (PodKey ns name) = true → ∀ c ∈ pod.Containers,
        (processStep this st kv).1.contains
            (PodContainerKey pod.Namespace pod.Name c.Name) = true ∨
          (processStep this st kv).2.contains
            (PodContainerKey pod.Namespace pod.Name c.Name) = true := by
  intro ns name pod hg hcont c hc
  obtain ⟨_, _, hns, hname⟩ := hl ns name pod hg
  rcases processStep_cases this st kv with h1 | ⟨pod1, ht, hp, h1⟩ | ⟨pod1, ht, hp, h1⟩
  · rw [h1] at hcont ⊢
    exact hinv ns name pod hg hcont c hc
  · obtain ⟨hn1, _, hs1, _⟩ := hl _ _ pod1 hp
    have hcont2 : (addPodInfo this kv.2 pod1 st.1 st.2).2.contains (PodKey ns name) = true := by
      rw [h1] at hcont; exact hcont
    simp only [addPodInfo_snd_contains, Bool.or_eq_true, Bool.and_eq_true, List.any_eq_true,
      decide_eq_true_eq] at hcont2
    rcases hcont2 with h | ⟨_, x, _, hkey⟩
    · exact processStep_covered_mono this st kv _ (hinv ns name pod hg h c hc)
    · exact absurd hkey.symm
        (PodKey_ne_PodContainerKey ns name pod1.Namespace pod1.Name x.Name hns
          (hn1 ▸ hs1) hname)
  · obtain ⟨hn1, _, hs1, _⟩ := hl _ _ pod1 hp
    have hcont2 : (addContainerInfo this kv.1 kv.2 pod1 st.1 st.2).2.contains
        (PodKey ns name) = true := by
      rw [h1] at hcont; exact hcont
    simp only [addContainerInfo_snd_contains, Bool.or_eq_true, Bool.and_eq_true,
      List.any_eq_true, decide_eq_true_eq, Bool.not_eq_true'] at hcont2
    rcases hcont2 with h | ⟨⟨hb, hn⟩, hkey | ⟨_, x, _, hkey⟩⟩
    · exact processStep_covered_mono this st kv _ (hinv ns name pod hg h c hc)
    · have hinj := PodKey_inj _ _ ns name hs1 hns hkey
      rw [hinj.1, hinj.2, hg] at hp
      have hpp : pod = pod1 := Option.some.inj hp
      subst hpp
      exact processStep_container_covered this st kv pod ht
        (by rw [hinj.1, hinj.2]; exact hg) hb hn c hc
    · exact absurd hkey.symm
        (PodKey_ne_PodContainerKey ns name pod1.Namespace pod1.Name x.Name hns
          (hn1 ▸ hs1) hname)

theorem fold_stubs_covered (this : PodBasedEnricher)
    (hl : ∀ ns name p, this.getPod ns name = some p →
      p.Namespace = ns ∧ p.Name = name ∧ '/' ∉ ns.data ∧ '/' ∉ name.data)
    (order : List (String × MetricSet)) (st : GoMap MetricSet × GoMap MetricSet)
    (hinv : ∀ ns name pod, this.getPod ns name = some pod →
      st.2.contains (PodKey ns name) = true → ∀ c ∈ pod.Containers,
        st.1.contains (PodContainerKey pod.Namespace pod.Name c.Name) = true ∨
          st.2.contains (PodContainerKey pod.Namespace pod.Name c.Name) = true) :
    ∀ ns name pod, this.getPod ns name = some pod →
      (order.foldl (processStep this) st).2.contains (PodKey ns name) = true →
      ∀ c ∈ pod.Containers,
        (order.foldl (processStep this) st).1.contains
            (PodContainerKey pod.Namespace pod.Name c.Name) = true ∨
          (order.foldl (processStep this) st).2.contains
            (PodContainerKey pod.Namespace pod.Name c.Name) = true := by
  induction order generalizing st with
  | nil => exact hinv
  | cons kv t ih => exact ih _ (processStep_stubs_covered this hl st kv hinv)

theorem Process_contains (this : PodBasedEnricher) (seed seedNew : Nat) (batch : DataBatch)
    (a : String) :
    (Process this seed seedNew batch).1.MetricSets.contains a =
      (((GoMap.range seed batch.MetricSets).foldl (processStep this)
          (batch.MetricSets, [])).1.contains a ||
        ((GoMap.range seed batch.MetricSets).foldl (processStep this)
          (batch.MetricSets, [])).2.contains a) := by
  rw [Process_sets, contains_foldl_set, GoMap.range, GoMap.range,
    contains_perm _ _ (pickOrder_perm seedNew _)]

theorem Process_stub (this : PodBasedEnricher) (seed seedNew : Nat) (batch : DataBatch)
    (a : String) (s : MetricSet)
    (h : (Process this seed seedNew batch).1.MetricSets.lookup a = some s)
    (hb : batch.MetricSets.contains a = false) : IsStub this a s := by
  have hmem := GoMap.mem_of_lookup _ _ _ h
  rw [Process_sets] at hmem
  rcases mem_foldl_set _ _ _ hmem with h1 | h1
  · have h2 := fold_fst_inv this (GoMap.range seed batch.MetricSets) (batch.MetricSets, []) a
      (range_mem_contains seed batch.MetricSets) (contains_of_mem _ a s h1)
    rw [hb] at h2
    exact absurd h2 (by simp)
  · have h2 : (a, s) ∈ ((GoMap.range seed batch.MetricSets).foldl (processStep this)
        (batch.MetricSets, [])).2 := (pickOrder_perm seedNew _).mem_iff.1 h1
    have hn := fold_snd_nodup this (GoMap.range seed batch.MetricSets) (batch.MetricSets, [])
      (by simp [GoMap.keys])
    exact fold_snd_lookup this (GoMap.range seed batch.MetricSets) (batch.MetricSets, [])
      (by intro b x hx; simp [GoMap.lookup] at hx) a s (GoMap.lookup_of_mem _ hn a s h2)

/-- C26, counterexample: the metric set of the pod of `TestPodEnricher`, whose pod the
lister finds, is stored under the key `pod1`; after `Process` the batch has the key
`pod1` and the keys of the two containers of the pod, and no metric set under the
`PodKey` of the pod. -/
theorem Process_misfiled_pod_set_gets_no_pod_key :
    ("pod1", testPodSet) ∈ misfiledBatch.MetricSets ∧
    labelOf testPodSet.Labels "type" = "pod" ∧
    testEnricher.getPod (labelOf testPodSet.Labels "namespace_name")
      (labelOf testPodSet.Labels "pod_name") = some testPod ∧
    (Process testEnricher 0 0 misfiledBatch).1.MetricSets.keys =
      ["pod1", "namespace:ns1/pod:pod1/container:c1",
        "namespace:ns1/pod:pod1/container:nginx"] ∧
    (Process testEnricher 0 0 misfiledBatch).1.MetricSets.contains
      (PodKey testPod.Namespace testPod.Name) = false := by
  decide

/-- C26, amended: let the lister return, for a namespace and a pod name without `/`, the
pod of that namespace and name; let every `pod` metric set of the batch be stored under
the `PodKey` of its namespace and pod-name labels, and let a metric set stored under the
`PodKey` of a pod of the lister be the `pod` metric set with that namespace and pod name.
Then for every `pod` or `pod_container` metric set of the batch whose pod the lister
finds, the batch has after `Process` a metric set under the `PodKey` of the pod and one
under the `PodContainerKey` of every container of its spec.  Every metric set of the
result under a key that the batch did not have is a stub of a pod of the lister
(`IsStub`); the stub under the `PodKey` of the pod carries the UID and the labels of the
pod, and the stub under the key of a container carries them and holds the request and
limit values of a container of that name. -/
theorem Process_adds_pod_and_container_sets (this : PodBasedEnricher) (seed seedNew : Nat)
    (batch : DataBatch) (k : String) (v : MetricSet) (pod : Pod)
    (hl : ∀ ns name p, this.getPod ns name = some p →
      p.Namespace = ns ∧ p.Name = name ∧ '/' ∉ ns.data ∧ '/' ∉ name.data)
    (hpodsets : ∀ k' v', (k', v') ∈ batch.MetricSets → labelOf v'.Labels "type" = "pod" →
      k' = PodKey (labelOf v'.Labels "namespace_name") (labelOf v'.Labels "pod_name"))
    (hpodkeys : ∀ k' v' ns name p, (k', v') ∈ batch.MetricSets →
      this.getPod ns name = some p → k' = PodKey ns name →
      labelOf v'.Labels "type" = "pod" ∧ labelOf v'.Labels "namespace_name" = ns ∧
        labelOf v'.Labels "pod_name" = name)
    (hmem : (k, v) ∈ batch.MetricSets)
    (htype : labelOf v.Labels "type" = "pod" ∨ labelOf v.Labels "type" = "pod_container")
    (hpod : this.getPod (labelOf v.Labels "namespace_name") (labelOf v.Labels "pod_name") =
      some pod) :
    (Process this seed seedNew batch).1.MetricSets.contains
      (PodKey pod.Namespace pod.Name) = true ∧
    (∀ c ∈ pod.Containers, (Process this seed seedNew batch).1.MetricSets.contains
      (PodContainerKey pod.Namespace pod.Name c.Name) = true) ∧
    (∀ a s, (Process this seed seedNew batch).1.MetricSets.lookup a = some s →
      batch.MetricSets.contains a = false → IsStub this a s) ∧
    (∀ s, (Process this seed seedNew batch).1.MetricSets.lookup
        (PodKey pod.Namespace pod.Name) = some s →
      batch.MetricSets.contains (PodKey pod.Namespace pod.Name) = false →
      carriesPod this pod s) ∧
    (∀ c ∈ pod.Containers, ∀ s, (Process this seed seedNew batch).1.MetricSets.lookup
        (PodContainerKey pod.Namespace pod.Name c.Name) = some s →
      batch.MetricSets.contains (PodContainerKey pod.Namespace pod.Name c.Name) = false →
      carriesPod this pod s ∧
        ∃ c' ∈ pod.Containers, c'.Name = c.Name ∧ carriesResources c' s) := by
  obtain ⟨hpns, hpname, hsns, hsname⟩ := hl _ _ pod hpod
  have hperm := pickOrder_perm seed batch.MetricSets
  have hm : (k, v) ∈ GoMap.range seed batch.MetricSets := hperm.mem_iff.2 hmem
  have hself : this.getPod pod.Namespace pod.Name = some pod := by
    rw [hpns, hpname]; exact hpod
  have hsame : ∀ ns name p, this.getPod ns name = some p → p.Namespace = pod.Namespace →
      p.Name = pod.Name → p = pod := by
    intro ns name p hg h1 h2
    obtain ⟨e1, e2, _, _⟩ := hl ns name p hg
    rw [← e1, ← e2, h1, h2, hself] at hg
    exact (Option.some.inj hg).symm
  refine ⟨?_, ?_, fun a s => Process_stub this seed seedNew batch a s, ?_, ?_⟩
  · rw [Process_contains, Bool.or_eq_true, hpns, hpname]
    rcases htype with ht | ht
    · left
      rw [← hpodsets k v hmem ht]
      exact fold_fst_mono this _ _ k (contains_of_mem _ k v hmem)
    · exact fold_container_podKey this _ _ k v pod hm ht hpod
  · intro c hc
    rw [Process_contains, Bool.or_eq_true]
    rcases htype with ht | ht
    · exact fold_pod_covered this _ _ k v pod hm ht hpod c hc
    · rcases fold_container_podKey this (GoMap.range seed batch.MetricSets)
        (batch.MetricSets, []) k v pod hm ht hpod with h1 | h2
      · have hb := fold_fst_inv this (GoMap.range seed batch.MetricSets)
          (batch.MetricSets, []) _ (range_mem_contains seed batch.MetricSets) h1
        obtain ⟨w, hw⟩ := mem_of_contains _ _ hb
        obtain ⟨t1, t2, t3⟩ := hpodkeys _ w _ _ pod hw hpod rfl
        exact fold_pod_covered this _ _ _ w pod (hperm.mem_iff.2 hw) t1
          (by rw [show labelOf w.Labels LabelNamespaceName = _ from t2,
            show labelOf w.Labels LabelPodName = _ from t3]; exact hpod) c hc
      · exact fold_stubs_covered this hl (GoMap.range seed batch.MetricSets)
          (batch.MetricSets, []) (by intro _ _ _ _ h; simp [GoMap.contains] at h) _ _ pod
          hpod h2 c hc
  · intro s hs hb
    obtain ⟨ns, name, p, hg, hcar, hkey⟩ := Process_stub this seed seedNew batch _ s hs hb
    obtain ⟨e1, e2, f1, f2⟩ := hl ns name p hg
    rcases hkey with hkey | ⟨c, _, hkey, _⟩
    · have hinj := PodKey_inj _ _ ns name (hpns ▸ hsns) f1 hkey
      have hp : p = pod := hsame ns name p hg (by rw [e1, hinj.1]) (by rw [e2, hinj.2])
      rw [← hp]; exact hcar
    · exact absurd hkey (PodKey_ne_PodContainerKey _ _ _ _ _ (hpns ▸ hsns) (e1 ▸ f1)
        (hpname ▸ hsname))
  · intro c hc s hs hb
    obtain ⟨ns, name, p, hg, hcar, hkey⟩ := Process_stub this seed seedNew batch _ s hs hb
    obtain ⟨e1, e2, f1, f2⟩ := hl ns name p hg
    rcases hkey with hkey | ⟨c', hc', hkey, hres⟩
    · exact absurd hkey.symm (PodKey_ne_PodContainerKey _ _ _ _ _ f1 (hpns ▸ hsns) f2)
    · have hinj := PodContainerKey_inj _ _ _ _ _ _ (hpns ▸ hsns) (e1 ▸ f1) (hpname ▸ hsname)
        (e2 ▸ f2) hkey
      have hp : p = pod := hsame ns name p hg hinj.1.symm hinj.2.1.symm
      subst hp
      exact ⟨hcar, c', hc', hinj.2.2.symm, hres⟩

theorem testEnricher_lister (ns name : String) (p : Pod)
    (h : testEnricher.getPod ns name = some p) :
    p.Namespace = ns ∧ p.Name = name ∧ '/' ∉ ns.data ∧ '/' ∉ name.data := by
  unfold testEnricher at h
  simp only [] at h
  split at h
  · next hc =>
    obtain ⟨h1, h2⟩ := hc
    subst h1; subst h2
    rw [← Option.some.inj h]
    decide
  · simp at h

/-- Witness of C26: the second batch of `TestPodEnricher`, which holds the container `c1`
alone.  After `Process` it holds the pod and the container `nginx` as well; the stub of
the pod carries the UID and the labels of the pod, and the stub of `nginx` carries them
and the values 333, 1000, 2222 and 3333 of the spec of `nginx`. -/
theorem Process_adds_pod_and_container_sets_witness :
    (Process testEnricher 0 0 testBatch2).1.MetricSets.contains
      (PodKey testPod.Namespace testPod.Name) = true ∧
    (∀ c ∈ testPod.Containers, (Process testEnricher 0 0 testBatch2).1.MetricSets.contains
      (PodContainerKey testPod.Namespace testPod.Name c.Name) = true) ∧
    (∀ s, (Process testEnricher 0 0 testBatch2).1.MetricSets.lookup
        "namespace:ns1/pod:pod1" = some s → carriesPod testEnricher testPod s) ∧
    (∀ s, (Process testEnricher 0 0 testBatch2).1.MetricSets.lookup
        "namespace:ns1/pod:pod1/container:nginx" = some s →
      carriesPod testEnricher testPod s ∧
        ∃ c ∈ testPod.Containers, c.Name = "nginx" ∧ carriesResources c s) ∧
    ((Process testEnricher 0 0 testBatch2).1.MetricSets.lookup
        "namespace:ns1/pod:pod1/container:nginx").map MetricSet.MetricValues =
      some [("cpu/request", ⟨333, ⟨0⟩, MetricType.MetricGauge, ValueType.ValueInt64⟩),
        ("memory/request", ⟨1000, ⟨0⟩, MetricType.MetricGauge, ValueType.ValueInt64⟩),
        ("cpu/limit", ⟨2222, ⟨0⟩, MetricType.MetricGauge, ValueType.ValueInt64⟩),
        ("memory/limit", ⟨3333, ⟨0⟩, MetricType.MetricGauge, ValueType.ValueInt64⟩)] :=
  have h := Process_adds_pod_and_container_sets testEnricher 0 0 testBatch2
    "namespace:ns1/pod:pod1/container:c1" testContainerSet testPod testEnricher_lister
    (by
      intro k' v' hm ht
      simp only [testBatch2, List.mem_singleton, Prod.mk.injEq] at hm
      rw [hm.2] at ht
      exact absurd ht (by decide))
    (by
      intro k' v' ns name p hm hg hk
      simp only [testBatch2, List.mem_singleton, Prod.mk.injEq] at hm
      unfold testEnricher at hg
      simp only [] at hg
      split at hg
      · next hc =>
        rw [hc.1, hc.2, hm.1] at hk
        exact absurd hk (by decide)
      · simp at hg)
    (by decide) (Or.inr (by decide)) (by decide)
  ⟨h.1, h.2.1, fun s hs => h.2.2.2.1 s hs (by decide),
    fun s hs => h.2.2.2.2
      { Name := "nginx", Image := "gcr.io/google_containers/pause:2.0",
        Requests := [("cpu", ⟨333, 1⟩), ("memory", ⟨1000000, 1000⟩)],
        Limits := [("cpu", ⟨2222, 3⟩), ("memory", ⟨3333000, 3333⟩)] }
      (by decide) s hs (by decide),
    by decide⟩

end MetricsServer
